import Mathlib

/-!
# Path handling of `s_path.c`: a shallow embedding

The development embeds the search-path code of `src/src/s_path.c` for the POSIX
build (`_WIN32` undefined, `HAVE_UNISTD_H` defined).

Conventions of the embedding.

* A C string is the list of its characters before the terminating NUL (`CStr`);
  `strlen` is `List.length`, a null `t_namelist *` is the empty list.
* `MAXPDSTRING` is declared in `m_pd.h`, which is not part of the sources at hand:
  every function that uses it takes it as its first argument.
* The environment variables `HOME` and `LANG` are arguments `home`, `LANG : Option CStr`
  (`none` when `getenv` returns null).
* The filesystem is an argument `fs : CStr → Option Nat`: `fs p = some fd` when
  `sys_open p` succeeds and `fstat` reports something that is not a directory,
  and `none` otherwise.
* A `t_symbol *` is represented by the name `gensym` interned, so that comparing
  two symbols is comparing their names.
* Allocation and release of memory are not represented; a write past the end of a
  caller-supplied buffer (undefined behaviour in C) is not represented either,
  the buffer simply holds what was written.
* Two buffers of the resolution code are lists without a bound here: the caller's
  `dirresult` of `size` bytes, into which `sys_trytoopenone` copies the expanded directory,
  and `pathbuf[MAXPDSTRING]` of `sys_open`. The definitions agree with the C code on the
  calls in which every path built is shorter than `size` and `size` is at most
  `MAXPDSTRING`; the properties of the resolution are stated for those calls only
  (`candidate_fits`, `resolution_fits`), and the evaluations that show a path going past
  the end of the buffer say so.
-/

namespace SPath

/-- The characters of a C string, terminating NUL excluded. -/
abbrev CStr := List Char

/-! ## File names -/

/-- The function `sys_unbashfilename` on a POSIX target: every character is copied as it is
(the replacement of the backslash is compiled for Windows only). -/
def sys_unbashfilename : CStr → CStr
  | [] => []
  | c :: cs => c :: sys_unbashfilename cs

/-- The function `sys_bashfilename` on a POSIX target: every character is copied as it is. -/
def sys_bashfilename : CStr → CStr
  | [] => []
  | c :: cs => c :: sys_bashfilename cs

/-- The function `sys_isabsolutepath` on a POSIX target: the first character is a slash or a
tilde. -/
def sys_isabsolutepath (dir : CStr) : Bool :=
  match dir with
  | c :: _ => c == '/' || c == '~'
  | [] => false

/-- What `strncpy(to, src, n); to[n-1] = 0;` leaves in `to`, read as a C string. -/
def strncpy_term (src : CStr) (n : Nat) : CStr :=
  src.take (n - 1)

/-- The function `sys_expandpath`: a leading `~` (alone or followed by a slash) is replaced
by the value of `HOME`, by nothing at all when `HOME` is unset; the result is cut to
`bufsize - 1` characters. -/
def sys_expandpath (home : Option CStr) (src : CStr) (bufsize : Nat) : CStr :=
  if src = ['~'] ∨ src.take 2 = ['~', '/'] then
    match home with
    | some h =>
      let to1 := strncpy_term h bufsize
      (to1 ++ (src.drop 1).take (bufsize - to1.length)).take (bufsize - 1)
    | none => []
  else
    strncpy_term src bufsize

/-! ## Name lists -/

/-- The copying loop of `strtokcpy`: at most `n` characters are copied, up to the end of the
string or the delimiter. Returns what was copied and the remainder `src + i`. -/
def strtokcpy_scan (delim : Char) : Nat → CStr → CStr × CStr
  | 0, s => ([], s)
  | _ + 1, [] => ([], [])
  | n + 1, c :: cs =>
    if c = delim then ([], c :: cs)
    else ((c :: (strtokcpy_scan delim n cs).1), (strtokcpy_scan delim n cs).2)

/-- The function `strtokcpy`: the token copied into `to` and the returned position
(`none` for a null pointer). The position is non-null only when at least one character was
copied and the string does not end at the stopping point. -/
def strtokcpy (to_len : Nat) (src : CStr) (delim : Char) : CStr × Option CStr :=
  let r := strtokcpy_scan delim (to_len - 1) src
  (r.1, if r.1.length ≠ 0 ∧ r.2 ≠ [] then some (r.2.drop 1) else none)

/-- The walk of `namelist_append` along a non-empty list: stop without change at an entry
equal to `s` when duplicates are refused, otherwise link the new node `nl2` after the last
entry. -/
def namelist_append_walk (nl2 s : CStr) (allowdup : Int) : List CStr → List CStr
  | [] => [nl2]
  | x :: rest =>
    if allowdup = 0 ∧ x = s then x :: rest
    else if rest = [] then [x, nl2]
    else x :: namelist_append_walk nl2 s allowdup rest

/-- The function `namelist_append`: add one item to a name list. -/
def namelist_append (listwas : List CStr) (s : CStr) (allowdup : Int) : List CStr :=
  let nl2 := sys_unbashfilename s
  if listwas = [] then [nl2]
  else namelist_append_walk nl2 s allowdup listwas

/-- The separator of path lists on a POSIX target. -/
def SEPARATOR : Char := ':'

/-- The `do ... while (npos)` loop of `namelist_append_files`, with a bound on the number of
iterations (see `namelist_append_files_loop_fuel`: the bound used is never reached). -/
def namelist_append_files_loop (MAXPDSTRING : Nat) : Nat → List CStr → CStr → List CStr
  | 0, nl, _ => nl
  | fuel + 1, nl, npos =>
    let r := strtokcpy MAXPDSTRING npos SEPARATOR
    let nl1 := if r.1 = [] then nl else namelist_append nl r.1 0
    match r.2 with
    | some npos1 => namelist_append_files_loop MAXPDSTRING fuel nl1 npos1
    | none => nl1

/-- The function `namelist_append_files`: add a separated list of names to a name list. -/
def namelist_append_files (MAXPDSTRING : Nat) (listwas : List CStr) (s : CStr) : List CStr :=
  namelist_append_files_loop MAXPDSTRING (s.length + 1) listwas s

/-- The function `namelist_get`: the walk stops after `n` steps or at the end of the list;
a negative `n` makes no step. -/
def namelist_get (namelist : List CStr) (n : Int) : Option CStr :=
  (namelist.drop n.toNat).head?

/-! ## The registry of named lists -/

/-- A node of the chain `ps_namedlists`: the interned name and the list bound to it. -/
structure t_namedlist where
  name : CStr
  list : List CStr
  deriving DecidableEq

/-- The instance state the named lists live in: the four built-in slots of `STUFF` and the
chain `PATHSTUFF->ps_namedlists` (most recently created node first). -/
structure Registry where
  st_temppath : List CStr
  st_searchpath : List CStr
  st_staticpath : List CStr
  st_helppath : List CStr
  ps_namedlists : List t_namedlist
  deriving DecidableEq

/-- A value of type `t_namelist **`: the address of one of the four slots, or of the `list`
field of the node at position `i` of the chain. -/
inductive ListRef where
  | st_temppath
  | st_searchpath
  | st_staticpath
  | st_helppath
  | named (i : Nat)
  deriving DecidableEq

/-- The `list` field of the node at position `i` of a chain. -/
def chain_list : List t_namedlist → Nat → List CStr
  | [], _ => []
  | nl :: _, 0 => nl.list
  | _ :: rest, i + 1 => chain_list rest i

/-- The chain after an assignment to the `list` field of the node at position `i`. -/
def chain_store : List t_namedlist → Nat → List CStr → List t_namedlist
  | [], _, _ => []
  | nl :: rest, 0, l => { nl with list := l } :: rest
  | nl :: rest, i + 1, l => nl :: chain_store rest i l

/-- Reading through a `t_namelist **`. -/
def Registry.deref (st : Registry) : ListRef → List CStr
  | .st_temppath => st.st_temppath
  | .st_searchpath => st.st_searchpath
  | .st_staticpath => st.st_staticpath
  | .st_helppath => st.st_helppath
  | .named i => chain_list st.ps_namedlists i

/-- Writing through a `t_namelist **`. -/
def Registry.store (st : Registry) (p : ListRef) (l : List CStr) : Registry :=
  match p with
  | .st_temppath => { st with st_temppath := l }
  | .st_searchpath => { st with st_searchpath := l }
  | .st_staticpath => { st with st_staticpath := l }
  | .st_helppath => { st with st_helppath := l }
  | .named i => { st with ps_namedlists := chain_store st.ps_namedlists i l }

/-- The test `!strncmp(a, b, n)`: the two strings agree on their first `n` characters. -/
def strncmp_eq (a b : CStr) (n : Nat) : Bool :=
  a.take n == b.take n

/-- The function `default_namedlist`: the slot of a built-in key, `none` (null) otherwise. -/
def default_namedlist (MAXPDSTRING : Nat) (listname : CStr) : Option ListRef :=
  if strncmp_eq listname "searchpath.temp".toList MAXPDSTRING then some .st_temppath
  else if strncmp_eq listname "searchpath.main".toList MAXPDSTRING then some .st_searchpath
  else if strncmp_eq listname "searchpath.static".toList MAXPDSTRING then some .st_staticpath
  else if strncmp_eq listname "helppath.main".toList MAXPDSTRING then some .st_helppath
  else none

/-- The loop `for(nl=namedlists; nl; nl=nl->next) if(nl->name == listname_sym) ...`: the
position of the first node of the chain with the given name. -/
def namedlist_find (listname_sym : CStr) : List t_namedlist → Option Nat
  | [] => none
  | nl :: rest =>
    if nl.name = listname_sym then some 0
    else (namedlist_find listname_sym rest).map (· + 1)

/-- The function `namedlist_do_getlist` for a non-null key: the address of the list bound to
the key, `none` (null) when the key is unknown. -/
def namedlist_do_getlist (MAXPDSTRING : Nat) (st : Registry) (listname : CStr) :
    Option ListRef :=
  match default_namedlist MAXPDSTRING listname with
  | some defaultlist => some defaultlist
  | none => (namedlist_find listname st.ps_namedlists).map ListRef.named

/-- The function `namedlist_getlist`. -/
def namedlist_getlist (MAXPDSTRING : Nat) (st : Registry) (listname : CStr) : List CStr :=
  match namedlist_do_getlist MAXPDSTRING st listname with
  | some nl => st.deref nl
  | none => []

/-- The function `namedlist_append` for a non-null key; `name` is `none` for a null pointer.
A node created for an unknown key is linked at the head of the chain, its list empty
(`getbytes` returns zeroed memory). -/
def namedlist_append (MAXPDSTRING : Nat) (st : Registry) (listname : CStr)
    (name : Option CStr) (allowdup : Int) : Registry :=
  let namelistp := namedlist_do_getlist MAXPDSTRING st listname
  let namelist := match namelistp with
    | some p => st.deref p
    | none => []
  match name with
  | none => st
  | some name =>
    match namelistp with
    | none =>
      let st1 := { st with ps_namedlists := { name := listname, list := [] } :: st.ps_namedlists }
      st1.store (.named 0) (namelist_append (st1.deref (.named 0)) name allowdup)
    | some p => st.store p (namelist_append namelist name allowdup)

/-- The `do ... while (npos)` loop of `namedlist_append_files`, with a bound on the number of
iterations (see `namedlist_append_files_loop_fuel`: the bound used is never reached). -/
def namedlist_append_files_loop (MAXPDSTRING : Nat) (listname : CStr) :
    Nat → Registry → CStr → Registry
  | 0, st, _ => st
  | fuel + 1, st, npos =>
    let r := strtokcpy MAXPDSTRING npos SEPARATOR
    let st1 := if r.1 = [] then st else namedlist_append MAXPDSTRING st listname (some r.1) 0
    match r.2 with
    | some npos1 => namedlist_append_files_loop MAXPDSTRING listname fuel st1 npos1
    | none => st1

/-- The function `namedlist_append_files`: the scan, then one more call of `namedlist_append`
with a null name. -/
def namedlist_append_files (MAXPDSTRING : Nat) (st : Registry) (listname : CStr) (s : CStr) :
    Registry :=
  namedlist_append MAXPDSTRING
    (namedlist_append_files_loop MAXPDSTRING listname (s.length + 1) st s) listname none 0

/-- The function `namedlist_free` for a non-null key. -/
def namedlist_free (MAXPDSTRING : Nat) (st : Registry) (listname : CStr) : Registry :=
  let defaultlist := default_namedlist MAXPDSTRING listname
  let namelist := match defaultlist with
    | some p => st.deref p
    | none => []
  let clear_default := fun (s : Registry) => match defaultlist with
    | some p => s.store p []
    | none => s
  if namelist = [] then
    match namedlist_find listname st.ps_namedlists with
    | none => st
    | some nl => (clear_default st).store (.named nl) []
  else
    clear_default st

/-! ## Setting a list from a dialog message -/

/-- The decoding loop of `sys_decodedialog`: at most `n` characters are produced. -/
def sys_decodedialog_loop : Nat → CStr → CStr
  | 0, _ => []
  | _ + 1, [] => []
  | n + 1, '+' :: '_' :: sp => ' ' :: sys_decodedialog_loop n sp
  | n + 1, '+' :: '+' :: sp => '+' :: sys_decodedialog_loop n sp
  | n + 1, '+' :: 'c' :: sp => ',' :: sys_decodedialog_loop n sp
  | n + 1, '+' :: 's' :: sp => ';' :: sys_decodedialog_loop n sp
  | n + 1, '+' :: 'd' :: sp => '$' :: sys_decodedialog_loop n sp
  | n + 1, c :: sp => c :: sys_decodedialog_loop n sp

/-- The function `sys_decodedialog` on the name of a symbol: a name that does not start with
`+` is returned as it is, otherwise the rest is decoded. -/
def sys_decodedialog (MAXPDSTRING : Nat) (s : CStr) : CStr :=
  match s with
  | '+' :: sp => sys_decodedialog_loop (MAXPDSTRING - 1) sp
  | _ => s

/-- The function `do_set_path`. The argument vector is given by the names of the symbols
`atom_getsymbolarg` yields for its atoms, in order (the empty name for an atom that is not a
symbol). -/
def do_set_path (MAXPDSTRING : Nat) (st : Registry) (listname : CStr) (argv : List CStr) :
    Registry :=
  argv.foldl
    (fun acc a =>
      let s := sys_decodedialog MAXPDSTRING a
      if s ≠ [] then namedlist_append_files MAXPDSTRING acc listname s else acc)
    (namedlist_free MAXPDSTRING st listname)

/-! ## Opening a file along the search path -/

/-- The memory a resolution call works on, and the record of its filesystem calls.

* `dirresult`: the bytes of the caller's buffer from its start to the last terminator
  written (exclusive); a NUL inside is the terminator `*slash = 0` put in place of the last
  slash, so that the buffer then holds the directory, a NUL, the file name;
* `nameresult`: the offset into the buffer of the address stored in `*nameresult`, `none`
  while the call has not stored one;
* `opened`: the paths handed to `sys_open`, oldest first. -/
structure OpenState where
  dirresult : List Char
  nameresult : Option Nat
  opened : List CStr
  deriving DecidableEq

/-- The C string that starts at offset `off` of a buffer. -/
def cstr_at (buf : List Char) (off : Nat) : CStr :=
  (buf.drop off).takeWhile (fun c => c != '\x00')

/-- The function `strrchr`: the offset of the last occurrence of `c`, `none` (null) when
there is none. -/
def strrchr (c : Char) : CStr → Option Nat
  | [] => none
  | x :: xs =>
    match strrchr c xs with
    | some i => some (i + 1)
    | none => if x = c then some 0 else none

/-- The function `sys_open` for reading on a POSIX target, followed by the check that what was
opened is not a directory: the descriptor, `none` on failure. The copy of the path into
`pathbuf[MAXPDSTRING]` has no bound here: the definition agrees with the code for a path
shorter than `MAXPDSTRING`. -/
def sys_open (fs : CStr → Option Nat) (path : CStr) : Option Nat :=
  fs (sys_bashfilename path)

/-- The length test at the head of `sys_trytoopenone`: true when the call goes on. -/
def trytoopenone_fits (dir name ext : CStr) (size : Nat) : Bool :=
  !(dir.length + name.length + ext.length + 4 > size)

/-- The path `sys_trytoopenone` builds in `dirresult`: the expanded directory, a slash unless
the directory is empty or ends in one, the name, the extension. -/
def trytoopenone_path (MAXPDSTRING : Nat) (home : Option CStr) (dir name ext : CStr) : CStr :=
  let buf := sys_expandpath home dir MAXPDSTRING
  let dirresult := buf
  let dirresult :=
    if dirresult ≠ [] ∧ dirresult.getLast? ≠ some '/' then dirresult ++ ['/'] else dirresult
  dirresult ++ name ++ ext

/-- The function `sys_trytoopenone`: the returned descriptor (`-1` on failure) and the memory
afterwards. The buffer `dirresult` has no bound here: the definition agrees with the code
when the length test fails, and when the path built is shorter than `size` and than
`MAXPDSTRING`. -/
def sys_trytoopenone (MAXPDSTRING : Nat) (home : Option CStr) (fs : CStr → Option Nat)
    (dir name ext : CStr) (size : Nat) (m : OpenState) : Int × OpenState :=
  if trytoopenone_fits dir name ext size = false then (-1, m)
  else
    let path := trytoopenone_path MAXPDSTRING home dir name ext
    let m1 := { m with dirresult := path, opened := m.opened ++ [path] }
    match sys_open fs path with
    | some fd =>
      let unbashed := sys_unbashfilename path
      match strrchr '/' unbashed with
      | some slash =>
        ((fd : Int), { m1 with dirresult := unbashed.set slash '\x00', nameresult := some (slash + 1) })
      | none => ((fd : Int), { m1 with dirresult := unbashed, nameresult := some 0 })
    | none => (-1, m1)

/-- The function `sys_open_absolute`: the return value (1 when the search is to be
cancelled), the value of `*fdp` afterwards (`fd0` before) and the memory afterwards. -/
def sys_open_absolute (MAXPDSTRING : Nat) (home : Option CStr) (fs : CStr → Option Nat)
    (name ext : CStr) (size : Nat) (fd0 : Int) (m : OpenState) : Int × Int × OpenState :=
  if sys_isabsolutepath name then
    match strrchr '/' name with
    | none => (0, fd0, m)
    | some z =>
      let dirlen := if z > MAXPDSTRING - 1 then MAXPDSTRING - 1 else z
      let dirbuf := name.take dirlen
      let r := sys_trytoopenone MAXPDSTRING home fs dirbuf (name.drop (dirlen + 1)) ext size m
      (1, r.1, r.2)
  else (0, fd0, m)

/-- A loop `for (nl = list; nl; nl = nl->nl_next) if ((fd = sys_trytoopenone(...)) >= 0)
return (fd);`: the descriptor of the first entry that opens, or `-1` once the list is
exhausted, and the memory afterwards. -/
def try_namelist (MAXPDSTRING : Nat) (home : Option CStr) (fs : CStr → Option Nat)
    (name ext : CStr) (size : Nat) : List CStr → OpenState → Int × OpenState
  | [], m => (-1, m)
  | nl_string :: nl_next, m =>
    let r := sys_trytoopenone MAXPDSTRING home fs nl_string name ext size m
    if r.1 ≥ 0 then r
    else try_namelist MAXPDSTRING home fs name ext size nl_next r.2

/-- The function `do_open_via_path`; `sys_usestdpath` is the global flag, `st` holds the
lists of `STUFF`. -/
def do_open_via_path (MAXPDSTRING : Nat) (home : Option CStr) (fs : CStr → Option Nat)
    (sys_usestdpath : Int) (st : Registry) (dir name ext : CStr) (size : Nat)
    (searchpath : List CStr) (m : OpenState) : Int × OpenState :=
  let a := sys_open_absolute MAXPDSTRING home fs name ext size (-1) m
  if a.1 ≠ 0 then (a.2.1, a.2.2)
  else
    let r := sys_trytoopenone MAXPDSTRING home fs dir name ext size a.2.2
    if r.1 ≥ 0 then r
    else
      let r := try_namelist MAXPDSTRING home fs name ext size st.st_temppath r.2
      if r.1 ≥ 0 then r
      else
        let r := try_namelist MAXPDSTRING home fs name ext size searchpath r.2
        if r.1 ≥ 0 then r
        else
          let r := if sys_usestdpath ≠ 0
            then try_namelist MAXPDSTRING home fs name ext size st.st_staticpath r.2
            else r
          if r.1 ≥ 0 then r
          else (-1, { r.2 with dirresult := [], nameresult := some 0 })

/-- The function `open_via_path`: the search with the global search path. -/
def open_via_path (MAXPDSTRING : Nat) (home : Option CStr) (fs : CStr → Option Nat)
    (sys_usestdpath : Int) (st : Registry) (dir name ext : CStr) (size : Nat)
    (m : OpenState) : Int × OpenState :=
  do_open_via_path MAXPDSTRING home fs sys_usestdpath st dir name ext size st.st_searchpath m

/-! ## Splitting a string into arguments -/

/-- The test `isBlank`: a space or a tab. -/
def isBlank (ch : Char) : Bool :=
  ch == ' ' || ch == '\t'

/-- The inner loop of `string2args`, which collects one argument, followed by the test for an
unmatched quote: `quote` is the quote character the scan is inside of (NUL for none), `cp`
what is left to read. The result is the error code, or the characters stored for the argument
and what is left to read after it. Every store goes to a position of the buffer that was
read before, so the characters read are those of the command string. -/
def string2args_argument : Char → CStr → Except Int (CStr × CStr)
  | quote, [] => if quote ≠ '\x00' then .error 11 else .ok ([], [])
  | quote, ch :: cp =>
    if isBlank ch ∧ quote = '\x00' then .ok ([], cp)
    else if ch = '\\' then
      match cp with
      | [] => .error 10
      | ch1 :: cp1 => (string2args_argument quote cp1).map (fun r => (ch1 :: r.1, r.2))
    else if ch = quote then string2args_argument '\x00' cp
    else if quote = '\x00' ∧ (ch = '\'' ∨ ch = '"') then string2args_argument ch cp
    else (string2args_argument quote cp).map (fun r => (ch :: r.1, r.2))

/-- The loop `while (isBlank(*cp)) *cp++ = 0`: what is left to read after the blanks. -/
def skip_blanks : CStr → CStr
  | [] => []
  | ch :: cp => if isBlank ch then skip_blanks cp else ch :: cp

/-- The outer loop `while (*cp)` of `string2args`, with a bound on the number of iterations
(see `string2args_loop_fuel`: the bound used is never reached): the error code, or the
argument table. -/
def string2args_loop : Nat → CStr → Except Int (List CStr)
  | 0, _ => .ok []
  | _ + 1, [] => .ok []
  | fuel + 1, ch :: cp =>
    match string2args_argument '\x00' (ch :: cp) with
    | .error errCode => .error errCode
    | .ok (argument, cp1) =>
      (string2args_loop fuel (skip_blanks cp1)).map (fun argTable => argument :: argTable)

/-- What `string2args` gives back: the returned value, and the values left in `*retArgc` and
`*retArgv` (`none` for a null table). -/
structure ArgsResult where
  ret : Int
  retArgc : Int
  retArgv : Option (List CStr)
  deriving DecidableEq

/-- The function `string2args`: a command string of `MAXPDSTRING` characters or more is
refused with error 1; otherwise the arguments are collected, an error leaving the count at 0
and the table null. Failure of an allocation is not represented. -/
def string2args (MAXPDSTRING : Nat) (cmd : CStr) : ArgsResult :=
  if cmd.length ≥ MAXPDSTRING then { ret := -1, retArgc := 0, retArgv := none }
  else
    match string2args_loop (cmd.length + 1) cmd with
    | .ok argTable =>
      { ret := argTable.length, retArgc := argTable.length, retArgv := some argTable }
    | .error errCode => { ret := -errCode, retArgc := 0, retArgv := none }

/-! ## The language tags of an instance -/

/-- The size `MAXPDLOCALESTRING` of the buffers that hold a language tag. -/
def MAXPDLOCALESTRING : Nat := 10

/-- The function `tolower` of the C library in the "C" locale: the letters `A` to `Z` are
mapped to `a` to `z`, every other character to itself. -/
def tolower (c : Char) : Char :=
  c.toLower

/-- The two language tags `s_path_newpdinstance` stores in `PATHSTUFF`. -/
structure LocaleTags where
  ps_lang : CStr
  ps_lang_region : CStr
  deriving DecidableEq

/-- The normalising loop of `s_path_newpdinstance` from index `idx` on, `region` being the
index recorded so far: the characters left in `lang` (lower-cased, `-` replaced by `_`, cut
at the first `.`) and the index recorded at the end, that of the last `_` seen. The end of
the list is the terminating NUL of `lang`. -/
def locale_normalize_loop : Nat → Nat → CStr → CStr × Nat
  | _, region, [] => ([], region)
  | idx, region, ch :: rest =>
    let c := tolower ch
    let c := if c = '-' then '_' else if c = '.' then '\x00' else c
    if c = '\x00' then ([], region)
    else
      let region := if '_' = c then idx else region
      (c :: (locale_normalize_loop (idx + 1) region rest).1,
        (locale_normalize_loop (idx + 1) region rest).2)

/-- The function `s_path_newpdinstance`, as far as the language tags go; `LANG` is the value
of the environment variable, `none` when it is unset. -/
def s_path_newpdinstance (LANG : Option CStr) : LocaleTags :=
  match LANG with
  | none => { ps_lang := [], ps_lang_region := [] }
  | some language =>
    let lang := strncpy_term language MAXPDLOCALESTRING
    let r := locale_normalize_loop 0 0 lang
    let lang := r.1
    let region := r.2
    if lang ≠ "c".toList ∧ lang ≠ "posix".toList then
      if region > 0 then
        { ps_lang := (lang.take region).take (MAXPDLOCALESTRING - 1),
          ps_lang_region := lang.take (MAXPDLOCALESTRING - 1) }
      else
        { ps_lang := lang.take (MAXPDLOCALESTRING - 1), ps_lang_region := [] }
    else { ps_lang := [], ps_lang_region := [] }

/-! ## Opening a help file -/

/-- The function `do_open_via_helppath`; `sys_usestdpath` is the global flag, `st` holds the
lists of `STUFF` and the chain of named lists. -/
def do_open_via_helppath (MAXPDSTRING : Nat) (home : Option CStr) (fs : CStr → Option Nat)
    (sys_usestdpath : Int) (st : Registry) (dir name ext : CStr) (size : Nat)
    (m : OpenState) : Int × OpenState :=
  let a := sys_open_absolute MAXPDSTRING home fs name ext size (-1) m
  if a.1 ≠ 0 then (a.2.1, a.2.2)
  else
    let r := sys_trytoopenone MAXPDSTRING home fs dir name ext size a.2.2
    if r.1 ≥ 0 then r
    else
      let r := try_namelist MAXPDSTRING home fs name ext size
        (namedlist_getlist MAXPDSTRING st "helppath.temp".toList) r.2
      if r.1 ≥ 0 then r
      else
        let r := try_namelist MAXPDSTRING home fs name ext size st.st_temppath r.2
        if r.1 ≥ 0 then r
        else
          let r := try_namelist MAXPDSTRING home fs name ext size st.st_helppath r.2
          if r.1 ≥ 0 then r
          else
            let r := try_namelist MAXPDSTRING home fs name ext size st.st_searchpath r.2
            if r.1 ≥ 0 then r
            else
              let r := if sys_usestdpath ≠ 0
                then try_namelist MAXPDSTRING home fs name ext size
                  (namedlist_getlist MAXPDSTRING st "helppath.static".toList) r.2
                else r
              if r.1 ≥ 0 then r
              else
                let r := if sys_usestdpath ≠ 0
                  then try_namelist MAXPDSTRING home fs name ext size st.st_staticpath r.2
                  else r
                if r.1 ≥ 0 then r
                else (-1, { r.2 with dirresult := [], nameresult := some 0 })

/-- What `snprintf(localext, sizeof(localext), "-help.%s.pd", tag)` leaves in `localext`, a
buffer of `MAXPDLOCALESTRING + 10` bytes. -/
def snprintf_localext (tag : CStr) : CStr :=
  ("-help.".toList ++ tag ++ ".pd".toList).take (MAXPDLOCALESTRING + 10 - 1)

/-- The function `open_via_helppath` up to the point where a help file is found (the returned
descriptor is then non-negative, and the buffer and name pointer are those handed to
`glob_evalfile`) or given up (`-1`). -/
def open_via_helppath (MAXPDSTRING : Nat) (home : Option CStr) (fs : CStr → Option Nat)
    (sys_usestdpath : Int) (st : Registry) (tags : LocaleTags) (name dir : CStr)
    (m : OpenState) : Int × OpenState :=
  let usedir := if dir ≠ [] then dir else "./".toList
  let realname := name.take (MAXPDSTRING - 10)
  let realname :=
    if realname.length > 3 ∧ realname.drop (realname.length - 3) = ".pd".toList
    then realname.take (realname.length - 3) else realname
  let r := if tags.ps_lang_region ≠ []
    then do_open_via_helppath MAXPDSTRING home fs sys_usestdpath st usedir realname
      (snprintf_localext tags.ps_lang_region) MAXPDSTRING m
    else (-1, m)
  if r.1 ≥ 0 then r
  else
    let r := if tags.ps_lang ≠ []
      then do_open_via_helppath MAXPDSTRING home fs sys_usestdpath st usedir realname
        (snprintf_localext tags.ps_lang) MAXPDSTRING r.2
      else (-1, r.2)
    if r.1 ≥ 0 then r
    else
      let r := do_open_via_helppath MAXPDSTRING home fs sys_usestdpath st usedir realname
        "-help.pd".toList MAXPDSTRING r.2
      if r.1 ≥ 0 then r
      else
        let realname := ("help-".toList ++ name.take (MAXPDSTRING - 10)).take (MAXPDSTRING - 1)
        let r := do_open_via_helppath MAXPDSTRING home fs sys_usestdpath st usedir realname
          [] MAXPDSTRING r.2
        if r.1 ≥ 0 then r
        else (-1, r.2)

/-! ## Definitions used to state the properties -/

/-- The directories a relative name is looked up in, in order: the base directory, the
temporary path, the caller's search path, and the static path when the flag is set. -/
def search_order (sys_usestdpath : Int) (st : Registry) (dir : CStr) (searchpath : List CStr) :
    List CStr :=
  [dir] ++ st.st_temppath ++ searchpath ++ (if sys_usestdpath ≠ 0 then st.st_staticpath else [])

/-- The non-empty segments of a string split on the separator, in order. This follows the
wording of the specification, not the code. -/
def nonempty_segments (s : CStr) : List CStr :=
  (s.splitOn SEPARATOR).filter (fun seg => seg ≠ [])

/-- Appending a separated list as the specification words it: every non-empty segment is
appended in order, duplicates refused. -/
def append_from_delimited_spec (l : List CStr) (s : CStr) : List CStr :=
  (nonempty_segments s).foldl (fun acc seg => namelist_append acc seg 0) l

/-- Setting a list as the claim words it: every non-empty argument is fed, in order and as it
is, through `namelist_append_files`, starting from the empty list. This follows the wording of
the specification, not the code. -/
def set_list_spec (MAXPDSTRING : Nat) (argv : List CStr) : List CStr :=
  (argv.filter (fun a => a ≠ [])).foldl (fun l a => namelist_append_files MAXPDSTRING l a) []

/-- Setting a list as the code does it: every argument is decoded by `sys_decodedialog` and,
when the decoded string is not empty, fed through `namelist_append_files`, starting from the
empty list. -/
def set_list_decoded (MAXPDSTRING : Nat) (argv : List CStr) : List CStr :=
  argv.foldl
    (fun l a =>
      let s := sys_decodedialog MAXPDSTRING a
      if s ≠ [] then namelist_append_files MAXPDSTRING l s else l) []

/-- A registry with the four built-in lists empty and no node in the chain. -/
def empty_registry : Registry :=
  { st_temppath := [], st_searchpath := [], st_staticpath := [], st_helppath := [],
    ps_namedlists := [] }

/-- The attempt of `sys_trytoopenone` on directory `d` succeeds: the length test passes and
the path built opens. -/
def probe_ok (MAXPDSTRING : Nat) (home : Option CStr) (fs : CStr → Option Nat)
    (name ext : CStr) (size : Nat) (d : CStr) : Bool :=
  trytoopenone_fits d name ext size &&
    (sys_open fs (trytoopenone_path MAXPDSTRING home d name ext)).isSome

/-- The candidate of directory `d` opens, as the claim words it: only the filesystem is asked,
not the length test. This follows the wording of the specification, not the code. -/
def candidate_opens (MAXPDSTRING : Nat) (home : Option CStr) (fs : CStr → Option Nat)
    (name ext : CStr) (d : CStr) : Bool :=
  (sys_open fs (trytoopenone_path MAXPDSTRING home d name ext)).isSome

/-- The paths handed to the filesystem when every directory of `l` is attempted: the
candidates of the directories that pass the length test, in order. -/
def probed_paths (MAXPDSTRING : Nat) (home : Option CStr) (name ext : CStr) (size : Nat)
    (l : List CStr) : List CStr :=
  (l.filter (fun d => trytoopenone_fits d name ext size)).map
    (fun d => trytoopenone_path MAXPDSTRING home d name ext)

/-- The candidate of directory `d` stays inside the caller's buffer of `size` bytes: when the
length test of `sys_trytoopenone` passes, the path built from the expanded directory is shorter
than `size`, so that `dirresult` holds it with its terminator. The test itself measures the
directory before the expansion of `~`, so it does not imply this. -/
def candidate_fits (MAXPDSTRING : Nat) (home : Option CStr) (name ext : CStr) (size : Nat)
    (d : CStr) : Bool :=
  !trytoopenone_fits d name ext size ||
    decide ((trytoopenone_path MAXPDSTRING home d name ext).length < size)

/-- The length `sys_open_absolute` gives to the directory part of a name whose last slash is
at offset `z`: `z`, cut to `MAXPDSTRING - 1`. -/
def absolute_dirlen (MAXPDSTRING z : Nat) : Nat :=
  if z > MAXPDSTRING - 1 then MAXPDSTRING - 1 else z

/-- Every path a resolution call can build for `name` and `ext` stays inside the buffers: the
caller's buffer is no longer than the buffer `pathbuf[MAXPDSTRING]` of `sys_open`, and the
candidate fits, for the single attempt on the split name when the name looks absolute and has
a slash, for every directory of the order `l` otherwise. -/
def resolution_fits (MAXPDSTRING : Nat) (home : Option CStr) (name ext : CStr) (size : Nat)
    (l : List CStr) : Bool :=
  decide (size ≤ MAXPDSTRING) &&
    match (if sys_isabsolutepath name then strrchr '/' name else none) with
    | some z =>
      candidate_fits MAXPDSTRING home (name.drop (absolute_dirlen MAXPDSTRING z + 1)) ext size
        (name.take (absolute_dirlen MAXPDSTRING z))
    | none => l.all (candidate_fits MAXPDSTRING home name ext size)

/-- Strings joined with single spaces between them. -/
def join_blank : List CStr → CStr
  | [] => []
  | [t] => t
  | t :: t1 :: ts => t ++ ' ' :: join_blank (t1 :: ts)

/-- A string wrapped in the quote character `q`. -/
def quote_wrap (q : Char) (t : CStr) : CStr :=
  q :: t ++ [q]

/-- A string with a backslash put before every character. -/
def escape_all : CStr → CStr
  | [] => []
  | c :: t => '\\' :: c :: escape_all t

/-- The string ends in a run of an odd number of backslashes: it is some `pre` that does not
end in a backslash, followed by `2 * k + 1` backslashes. -/
def ends_in_odd_backslashes (s : CStr) : Prop :=
  ∃ (pre : CStr) (k : Nat), s = pre ++ List.replicate (2 * k + 1) '\\' ∧
    pre.getLast? ≠ some '\\'

/-- The string has no backslash, no single quote, and an odd number of double quotes. -/
def odd_double_quotes (s : CStr) : Prop :=
  '\\' ∉ s ∧ '\'' ∉ s ∧ s.count '"' % 2 = 1

/-- The four built-in keys of the registry. -/
def builtin_keys : List CStr :=
  ["searchpath.temp".toList, "searchpath.main".toList, "searchpath.static".toList,
    "helppath.main".toList]

/-- The value of the locale variable as the claim normalises it: every character lower-cased,
every `-` replaced by `_`, cut at the first `.`. This follows the wording of the
specification, not the code. -/
def locale_value_spec (value : CStr) : CStr :=
  (value.map (fun c => if tolower c = '-' then '_' else tolower c)).takeWhile (fun c => c != '.')

/-- The language tags as the claim gives them for a value that is neither `c` nor `posix`:
with a `_` in the normalised value, the region tag is the value and the language is the part
before the first `_`; without one, the language is the value and the region tag is empty.
This follows the wording of the specification, not the code. -/
def locale_tags_spec (value : CStr) : LocaleTags :=
  let v := locale_value_spec value
  if '_' ∈ v then { ps_lang := v.takeWhile (fun c => c != '_'), ps_lang_region := v }
  else { ps_lang := v, ps_lang_region := [] }

/-- The value of the locale variable as the code normalises it: the first 9 characters,
lower-cased, every `-` replaced by `_`, cut at the first `.`. -/
def locale_value (value : CStr) : CStr :=
  ((value.take (MAXPDLOCALESTRING - 1)).map
    (fun c => if tolower c = '-' then '_' else tolower c)).takeWhile (fun c => c != '.')

/-- The end of a search: the result of the loops when a file was opened, otherwise `-1` with
the directory emptied and the name pointing at it. -/
def search_finish (r : Int × OpenState) : Int × OpenState :=
  if r.1 ≥ 0 then r else (-1, { r.2 with dirresult := [], nameresult := some 0 })

/-- The directories a relative help file name is looked up in, in order: the base directory,
the list `helppath.temp`, the temporary path, the help path of the preferences, the search
path, and when the flag is set the list `helppath.static` and the static path. -/
def help_search_order (MAXPDSTRING : Nat) (sys_usestdpath : Int) (st : Registry) (dir : CStr) :
    List CStr :=
  [dir] ++ namedlist_getlist MAXPDSTRING st "helppath.temp".toList ++ st.st_temppath ++
    st.st_helppath ++ st.st_searchpath ++
    (if sys_usestdpath ≠ 0
      then namedlist_getlist MAXPDSTRING st "helppath.static".toList ++ st.st_staticpath
      else [])

/-- The order of the directories as the claim has it: the base directory, the list
`helppath.temp`, the temporary path, the search path, and when the flag is set the list
`helppath.static` and the static path. This follows the wording of the specification, not the
code. -/
def help_search_order_spec (MAXPDSTRING : Nat) (sys_usestdpath : Int) (st : Registry)
    (dir : CStr) : List CStr :=
  [dir] ++ namedlist_getlist MAXPDSTRING st "helppath.temp".toList ++ st.st_temppath ++
    st.st_searchpath ++
    (if sys_usestdpath ≠ 0
      then namedlist_getlist MAXPDSTRING st "helppath.static".toList ++ st.st_staticpath
      else [])

/-- Trying pairs of file name and extension in order with `do_open_via_helppath`, on buffers of
`MAXPDSTRING` bytes, up to the first pair that resolves. -/
def try_help_candidates (MAXPDSTRING : Nat) (home : Option CStr) (fs : CStr → Option Nat)
    (sys_usestdpath : Int) (st : Registry) (usedir : CStr) :
    List (CStr × CStr) → OpenState → Int × OpenState
  | [], m => (-1, m)
  | c :: rest, m =>
    if (do_open_via_helppath MAXPDSTRING home fs sys_usestdpath st usedir c.1 c.2
        MAXPDSTRING m).1 ≥ 0
    then do_open_via_helppath MAXPDSTRING home fs sys_usestdpath st usedir c.1 c.2 MAXPDSTRING m
    else try_help_candidates MAXPDSTRING home fs sys_usestdpath st usedir rest
      (do_open_via_helppath MAXPDSTRING home fs sys_usestdpath st usedir c.1 c.2
        MAXPDSTRING m).2

/-- The name the first three help candidates are built on: the first `MAXPDSTRING - 10`
characters of the name, without a trailing `.pd` when more than 3 characters long. -/
def help_realname (MAXPDSTRING : Nat) (name : CStr) : CStr :=
  if (name.take (MAXPDSTRING - 10)).length > 3 ∧
      (name.take (MAXPDSTRING - 10)).drop ((name.take (MAXPDSTRING - 10)).length - 3) =
        ".pd".toList
  then (name.take (MAXPDSTRING - 10)).take ((name.take (MAXPDSTRING - 10)).length - 3)
  else name.take (MAXPDSTRING - 10)

/-- The pairs of file name and extension the code tries for a help file, in order. -/
def help_candidates (MAXPDSTRING : Nat) (tags : LocaleTags) (name : CStr) :
    List (CStr × CStr) :=
  (if tags.ps_lang_region ≠ []
    then [(help_realname MAXPDSTRING name,
      "-help.".toList ++ tags.ps_lang_region ++ ".pd".toList)]
    else []) ++
  (if tags.ps_lang ≠ []
    then [(help_realname MAXPDSTRING name, "-help.".toList ++ tags.ps_lang ++ ".pd".toList)]
    else []) ++
  [(help_realname MAXPDSTRING name, "-help.pd".toList),
    ("help-".toList ++ name.take (MAXPDSTRING - 10), [])]

/-- The name after removing one trailing `.pd`, as the claim words it. This follows the
wording of the specification, not the code. -/
def strip_pd_spec (name : CStr) : CStr :=
  if name.drop (name.length - 3) = ".pd".toList then name.take (name.length - 3) else name

/-- The pairs of file name and extension as the claim lists them. This follows the wording of
the specification, not the code. -/
def help_candidates_spec (tags : LocaleTags) (name : CStr) : List (CStr × CStr) :=
  (if tags.ps_lang_region ≠ []
    then [(strip_pd_spec name, "-help.".toList ++ tags.ps_lang_region ++ ".pd".toList)]
    else []) ++
  (if tags.ps_lang ≠ []
    then [(strip_pd_spec name, "-help.".toList ++ tags.ps_lang ++ ".pd".toList)]
    else []) ++
  [(strip_pd_spec name, "-help.pd".toList), ("help-".toList ++ strip_pd_spec name, [])]

/-- The maximal runs of characters other than blanks of a string, in order: the pieces of the
string split at its blanks, the empty pieces left out. -/
def nonblank_runs (s : CStr) : List CStr :=
  (s.splitOnP isBlank).filter (fun r => r ≠ [])

/-- A command string without quote character, backslash and NUL. -/
def plain_command (s : CStr) : Prop :=
  '\'' ∉ s ∧ '"' ∉ s ∧ '\\' ∉ s ∧ '\x00' ∉ s

/-- The keys of the dynamic entries of a registry, in the order of the chain. -/
def dynamic_keys (st : Registry) : List CStr :=
  st.ps_namedlists.map t_namedlist.name

/-- The registries that can be reached from a registry without dynamic entry by calls of
`namedlist_append`, `namedlist_append_files`, `namedlist_free` and `do_set_path`, with any
arguments. -/
inductive Reachable (MAXPDSTRING : Nat) : Registry → Prop where
  | init (st : Registry) (h : st.ps_namedlists = []) : Reachable MAXPDSTRING st
  | append (st : Registry) (listname : CStr) (name : Option CStr) (allowdup : Int)
      (h : Reachable MAXPDSTRING st) :
      Reachable MAXPDSTRING (namedlist_append MAXPDSTRING st listname name allowdup)
  | append_files (st : Registry) (listname s : CStr) (h : Reachable MAXPDSTRING st) :
      Reachable MAXPDSTRING (namedlist_append_files MAXPDSTRING st listname s)
  | free (st : Registry) (listname : CStr) (h : Reachable MAXPDSTRING st) :
      Reachable MAXPDSTRING (namedlist_free MAXPDSTRING st listname)
  | set_path (st : Registry) (listname : CStr) (argv : List CStr)
      (h : Reachable MAXPDSTRING st) :
      Reachable MAXPDSTRING (do_set_path MAXPDSTRING st listname argv)

/-- The invariant of the chain: the keys are pairwise distinct and none of them is one that
`default_namedlist` maps to a built-in slot. -/
def keys_unique (MAXPDSTRING : Nat) (st : Registry) : Prop :=
  (dynamic_keys st).Nodup ∧ ∀ k ∈ dynamic_keys st, default_namedlist MAXPDSTRING k = none

/-- A key is registered: it is a built-in key or the name of a node of the chain. -/
def registered (MAXPDSTRING : Nat) (st : Registry) (listname : CStr) : Prop :=
  (default_namedlist MAXPDSTRING listname).isSome ∨
    ∃ nl ∈ st.ps_namedlists, nl.name = listname

instance registered_decidable (MAXPDSTRING : Nat) (st : Registry) (listname : CStr) :
    Decidable (registered MAXPDSTRING st listname) := by
  unfold registered
  infer_instance

/-! ## Lemmas on strings and name lists -/

theorem sys_unbashfilename_eq (s : CStr) : sys_unbashfilename s = s := by
  induction s with
  | nil => rfl
  | cons c cs ih => simp [sys_unbashfilename, ih]

theorem sys_bashfilename_eq (s : CStr) : sys_bashfilename s = s := by
  induction s with
  | nil => rfl
  | cons c cs ih => simp [sys_bashfilename, ih]

theorem strtokcpy_scan_length (delim : Char) (n : Nat) (s : CStr) :
    (strtokcpy_scan delim n s).1.length + (strtokcpy_scan delim n s).2.length = s.length := by
  induction n generalizing s with
  | zero => simp [strtokcpy_scan]
  | succ n ih =>
    cases s with
    | nil => simp [strtokcpy_scan]
    | cons c cs =>
      by_cases hc : c = delim
      · simp [strtokcpy_scan, hc]
      · have := ih cs
        simp [strtokcpy_scan, hc]
        omega

/-- The position `strtokcpy` returns lies strictly further in the string. -/
theorem strtokcpy_pos_length (to_len : Nat) (s : CStr) (delim : Char) (p : CStr)
    (h : (strtokcpy to_len s delim).2 = some p) : p.length < s.length := by
  have hlen := strtokcpy_scan_length delim (to_len - 1) s
  simp only [strtokcpy] at h
  split at h
  · rename_i hc
    have hp : p = (strtokcpy_scan delim (to_len - 1) s).2.drop 1 := by
      injection h with h
      exact h.symm
    subst hp
    have h1 : (strtokcpy_scan delim (to_len - 1) s).1.length ≠ 0 := hc.1
    simp only [List.length_drop]
    omega
  · exact absurd h (by simp)

/-- The bound on the iterations of the loop of `namelist_append_files` is never reached: any
larger bound gives the same result. -/
theorem namelist_append_files_loop_fuel (MAXPDSTRING : Nat) (fuel extra : Nat)
    (nl : List CStr) (npos : CStr) (h : npos.length < fuel) :
    namelist_append_files_loop MAXPDSTRING (fuel + extra) nl npos =
      namelist_append_files_loop MAXPDSTRING fuel nl npos := by
  induction fuel generalizing nl npos with
  | zero => omega
  | succ fuel ih =>
    have e : fuel + 1 + extra = (fuel + extra) + 1 := by omega
    rw [e]
    simp only [namelist_append_files_loop]
    cases hr : (strtokcpy MAXPDSTRING npos SEPARATOR).2 with
    | none => rfl
    | some p =>
      have := strtokcpy_pos_length MAXPDSTRING npos SEPARATOR p hr
      exact ih _ p (by omega)

/-- The bound on the iterations of the loop of `namedlist_append_files` is never reached: any
larger bound gives the same result. -/
theorem namedlist_append_files_loop_fuel (MAXPDSTRING : Nat) (k : CStr) (fuel extra : Nat)
    (st : Registry) (npos : CStr) (h : npos.length < fuel) :
    namedlist_append_files_loop MAXPDSTRING k (fuel + extra) st npos =
      namedlist_append_files_loop MAXPDSTRING k fuel st npos := by
  induction fuel generalizing st npos with
  | zero => omega
  | succ fuel ih =>
    have e : fuel + 1 + extra = (fuel + extra) + 1 := by omega
    rw [e]
    simp only [namedlist_append_files_loop]
    cases hr : (strtokcpy MAXPDSTRING npos SEPARATOR).2 with
    | none => rfl
    | some p =>
      have := strtokcpy_pos_length MAXPDSTRING npos SEPARATOR p hr
      exact ih _ p (by omega)

theorem namelist_append_walk_mem (nl2 s : CStr) (l : List CStr) (h : s ∈ l) :
    namelist_append_walk nl2 s 0 l = l := by
  induction l with
  | nil => simp at h
  | cons x rest ih =>
    by_cases hx : x = s
    · simp [namelist_append_walk, hx]
    · have hrest : s ∈ rest := by
        rcases List.mem_cons.mp h with h1 | h1
        · exact absurd h1.symm hx
        · exact h1
      have hne : rest ≠ [] := List.ne_nil_of_mem hrest
      simp [namelist_append_walk, hx, hne, ih hrest]

theorem namelist_append_walk_new (nl2 s : CStr) (allowdup : Int) (l : List CStr)
    (h : allowdup ≠ 0 ∨ s ∉ l) :
    namelist_append_walk nl2 s allowdup l = l ++ [nl2] := by
  induction l with
  | nil => simp [namelist_append_walk]
  | cons x rest ih =>
    have hcond : ¬ (allowdup = 0 ∧ x = s) := by
      rintro ⟨h0, hx⟩
      rcases h with h | h
      · exact h h0
      · exact h (by simp [hx])
    have hrest : allowdup ≠ 0 ∨ s ∉ rest := by
      rcases h with h | h
      · exact Or.inl h
      · exact Or.inr (fun hm => h (List.mem_cons_of_mem _ hm))
    by_cases hne : rest = []
    · subst hne
      simp [namelist_append_walk, hcond]
    · simp [namelist_append_walk, hcond, hne, ih hrest]

theorem namelist_append_of_mem (l : List CStr) (v : CStr) (h : v ∈ l) :
    namelist_append l v 0 = l := by
  have hne : l ≠ [] := List.ne_nil_of_mem h
  simp [namelist_append, hne, namelist_append_walk_mem _ _ _ h]

theorem namelist_append_of_new (l : List CStr) (v : CStr) (allowdup : Int)
    (h : allowdup ≠ 0 ∨ v ∉ l) : namelist_append l v allowdup = l ++ [v] := by
  by_cases hne : l = []
  · subst hne
    simp [namelist_append, sys_unbashfilename_eq]
  · simp [namelist_append, hne, namelist_append_walk_new _ _ _ _ h, sys_unbashfilename_eq]

/-! ## Lemmas on the registry -/

theorem strncmp_eq_iff (a b : CStr) (n : Nat) (h : b.length < n) :
    strncmp_eq a b n = true ↔ a = b := by
  have hb : b.take n = b := List.take_of_length_le (by omega)
  simp only [strncmp_eq, beq_iff_eq, hb]
  constructor
  · intro e
    by_cases ha : a.length ≤ n
    · rw [List.take_of_length_le ha] at e
      exact e
    · have hl := congrArg List.length e
      simp only [List.length_take] at hl
      omega
  · intro e
    subst e
    exact hb

/-- When `MAXPDSTRING` exceeds the length of the longest built-in key, `default_namedlist`
compares whole strings. -/
theorem default_namedlist_eq (MAXPDSTRING : Nat) (hM : 17 < MAXPDSTRING) (k : CStr) :
    default_namedlist MAXPDSTRING k =
      if k = "searchpath.temp".toList then some .st_temppath
      else if k = "searchpath.main".toList then some .st_searchpath
      else if k = "searchpath.static".toList then some .st_staticpath
      else if k = "helppath.main".toList then some .st_helppath
      else none := by
  have h1 := strncmp_eq_iff k "searchpath.temp".toList MAXPDSTRING
    (Nat.lt_of_le_of_lt (by decide) hM)
  have h2 := strncmp_eq_iff k "searchpath.main".toList MAXPDSTRING
    (Nat.lt_of_le_of_lt (by decide) hM)
  have h3 := strncmp_eq_iff k "searchpath.static".toList MAXPDSTRING
    (Nat.lt_of_le_of_lt (by decide) hM)
  have h4 := strncmp_eq_iff k "helppath.main".toList MAXPDSTRING
    (Nat.lt_of_le_of_lt (by decide) hM)
  simp only [default_namedlist, h1, h2, h3, h4]

theorem default_namedlist_not_named (MAXPDSTRING : Nat) (k : CStr) (i : Nat) :
    default_namedlist MAXPDSTRING k ≠ some (.named i) := by
  unfold default_namedlist
  split_ifs <;> simp

theorem default_namedlist_inj (MAXPDSTRING : Nat) (hM : 17 < MAXPDSTRING) (k k1 : CStr)
    (p : ListRef) (h : default_namedlist MAXPDSTRING k = some p)
    (h1 : default_namedlist MAXPDSTRING k1 = some p) : k1 = k := by
  rw [default_namedlist_eq MAXPDSTRING hM] at h h1
  split_ifs at h h1 <;> cases h <;> cases h1 <;> simp_all

theorem namedlist_find_store (k : CStr) (c : List t_namedlist) (i : Nat) (l : List CStr) :
    namedlist_find k (chain_store c i l) = namedlist_find k c := by
  induction c generalizing i with
  | nil => simp [chain_store]
  | cons nl rest ih =>
    cases i with
    | zero => simp [chain_store, namedlist_find]
    | succ i => simp [chain_store, namedlist_find, ih]

theorem chain_store_names (c : List t_namedlist) (i : Nat) (l : List CStr) :
    (chain_store c i l).map t_namedlist.name = c.map t_namedlist.name := by
  induction c generalizing i with
  | nil => simp [chain_store]
  | cons nl rest ih =>
    cases i with
    | zero => simp [chain_store]
    | succ i => simp [chain_store, ih]

theorem chain_list_store_same (k : CStr) (c : List t_namedlist) (i : Nat) (l : List CStr)
    (h : namedlist_find k c = some i) : chain_list (chain_store c i l) i = l := by
  induction c generalizing i with
  | nil => simp [namedlist_find] at h
  | cons nl rest ih =>
    cases i with
    | zero => simp [chain_store, chain_list]
    | succ i =>
      simp only [namedlist_find] at h
      split_ifs at h with hn
      · simp at h
      · simp only [Option.map_eq_some', Nat.add_right_cancel_iff] at h
        obtain ⟨j, hj, rfl⟩ := h
        simp [chain_store, chain_list, ih j hj]

theorem chain_list_store_other (c : List t_namedlist) (i j : Nat) (l : List CStr)
    (h : i ≠ j) : chain_list (chain_store c i l) j = chain_list c j := by
  induction c generalizing i j with
  | nil => simp [chain_store]
  | cons nl rest ih =>
    cases i with
    | zero =>
      cases j with
      | zero => exact absurd rfl h
      | succ j => simp [chain_store, chain_list]
    | succ i =>
      cases j with
      | zero => simp [chain_store, chain_list]
      | succ j => simp [chain_store, chain_list, ih i j (by omega)]

theorem namedlist_find_inj (k k1 : CStr) (c : List t_namedlist) (i : Nat)
    (h : namedlist_find k c = some i) (h1 : namedlist_find k1 c = some i) : k1 = k := by
  induction c generalizing i with
  | nil => simp [namedlist_find] at h
  | cons nl rest ih =>
    simp only [namedlist_find] at h h1
    split_ifs at h h1 with hn hn1 hn1
    · rw [← hn, ← hn1]
    · simp only [Option.some.injEq] at h
      subst h
      simp at h1
    · simp only [Option.some.injEq] at h1
      subst h1
      simp at h
    · simp only [Option.map_eq_some'] at h h1
      obtain ⟨j, hj, rfl⟩ := h
      obtain ⟨j1, hj1, e⟩ := h1
      have e1 : j1 = j := by omega
      rw [e1] at hj1
      exact ih j hj hj1

theorem namedlist_find_mem (k : CStr) (c : List t_namedlist) :
    (namedlist_find k c).isSome ↔ ∃ nl ∈ c, nl.name = k := by
  induction c with
  | nil => simp [namedlist_find]
  | cons nl rest ih =>
    by_cases hn : nl.name = k
    · simp [namedlist_find, hn]
    · simp [namedlist_find, hn, ← ih]

/-- Reading a key after a write through the address `namedlist_do_getlist` gave for it. -/
theorem getlist_store_same (MAXPDSTRING : Nat) (st : Registry) (k : CStr) (p : ListRef)
    (l : List CStr) (h : namedlist_do_getlist MAXPDSTRING st k = some p) :
    namedlist_getlist MAXPDSTRING (st.store p l) k = l := by
  unfold namedlist_do_getlist at h
  unfold namedlist_getlist namedlist_do_getlist
  cases hd : default_namedlist MAXPDSTRING k with
  | some q =>
    rw [hd] at h
    simp only [Option.some.injEq] at h
    subst h
    cases q with
    | named i => exact absurd hd (default_namedlist_not_named _ _ _)
    | st_temppath => simp [Registry.store, Registry.deref]
    | st_searchpath => simp [Registry.store, Registry.deref]
    | st_staticpath => simp [Registry.store, Registry.deref]
    | st_helppath => simp [Registry.store, Registry.deref]
  | none =>
    rw [hd] at h
    simp only [Option.map_eq_some'] at h
    obtain ⟨i, hi, rfl⟩ := h
    simp [Registry.store, Registry.deref, namedlist_find_store, hi,
      chain_list_store_same k _ i l hi]

/-- Reading another key after a write through the address of a key. -/
theorem getlist_store_other (MAXPDSTRING : Nat) (hM : 17 < MAXPDSTRING) (st : Registry)
    (k k1 : CStr) (p : ListRef) (l : List CStr)
    (h : namedlist_do_getlist MAXPDSTRING st k = some p) (hk : k1 ≠ k) :
    namedlist_getlist MAXPDSTRING (st.store p l) k1 = namedlist_getlist MAXPDSTRING st k1 := by
  have hfind : ∀ q, namedlist_find k1 (st.store q l).ps_namedlists =
      namedlist_find k1 st.ps_namedlists := by
    intro q
    cases q <;> simp [Registry.store, namedlist_find_store]
  unfold namedlist_getlist namedlist_do_getlist
  rw [hfind]
  unfold namedlist_do_getlist at h
  cases hd1 : default_namedlist MAXPDSTRING k1 with
  | some q =>
    have hqp : q ≠ p := by
      intro e
      subst e
      cases hd : default_namedlist MAXPDSTRING k with
      | some r =>
        rw [hd] at h
        simp only [Option.some.injEq] at h
        subst h
        exact hk (default_namedlist_inj MAXPDSTRING hM k k1 _ hd hd1)
      | none =>
        rw [hd] at h
        simp only [Option.map_eq_some'] at h
        obtain ⟨i, _, rfl⟩ := h
        exact default_namedlist_not_named _ _ _ hd1
    cases q with
    | named i => exact absurd hd1 (default_namedlist_not_named _ _ _)
    | st_temppath => cases p <;> simp_all [Registry.store, Registry.deref]
    | st_searchpath => cases p <;> simp_all [Registry.store, Registry.deref]
    | st_staticpath => cases p <;> simp_all [Registry.store, Registry.deref]
    | st_helppath => cases p <;> simp_all [Registry.store, Registry.deref]
  | none =>
    cases hf : namedlist_find k1 st.ps_namedlists with
    | none => simp
    | some j =>
      simp only [Option.map_some']
      cases p with
      | named i =>
        have hij : i ≠ j := by
          intro e
          subst e
          cases hd : default_namedlist MAXPDSTRING k with
          | some r =>
            rw [hd] at h
            simp only [Option.some.injEq] at h
            exact default_namedlist_not_named _ _ _ (h ▸ hd)
          | none =>
            rw [hd] at h
            simp only [Option.map_eq_some', ListRef.named.injEq, exists_eq_right] at h
            exact hk (namedlist_find_inj k k1 _ _ h hf)
        simp [Registry.store, Registry.deref, chain_list_store_other _ i j l hij]
      | st_temppath => simp [Registry.store, Registry.deref]
      | st_searchpath => simp [Registry.store, Registry.deref]
      | st_staticpath => simp [Registry.store, Registry.deref]
      | st_helppath => simp [Registry.store, Registry.deref]

theorem getlist_of_do_getlist (MAXPDSTRING : Nat) (st : Registry) (k : CStr) (p : ListRef)
    (h : namedlist_do_getlist MAXPDSTRING st k = some p) :
    namedlist_getlist MAXPDSTRING st k = st.deref p := by
  simp [namedlist_getlist, h]

theorem getlist_of_unknown (MAXPDSTRING : Nat) (st : Registry) (k : CStr)
    (h : namedlist_do_getlist MAXPDSTRING st k = none) :
    namedlist_getlist MAXPDSTRING st k = [] := by
  simp [namedlist_getlist, h]

/-- The registry with a fresh node for `k` linked at the head of the chain. -/
theorem do_getlist_fresh (MAXPDSTRING : Nat) (st : Registry) (k : CStr)
    (h : namedlist_do_getlist MAXPDSTRING st k = none) :
    namedlist_do_getlist MAXPDSTRING
      { st with ps_namedlists := { name := k, list := [] } :: st.ps_namedlists } k =
      some (.named 0) := by
  unfold namedlist_do_getlist at h ⊢
  cases hd : default_namedlist MAXPDSTRING k with
  | some q => simp [hd] at h
  | none => simp [namedlist_find]

theorem getlist_fresh_other (MAXPDSTRING : Nat) (st : Registry) (k k1 : CStr) (hk : k1 ≠ k) :
    namedlist_getlist MAXPDSTRING
      { st with ps_namedlists := { name := k, list := [] } :: st.ps_namedlists } k1 =
      namedlist_getlist MAXPDSTRING st k1 := by
  unfold namedlist_getlist namedlist_do_getlist
  cases hd : default_namedlist MAXPDSTRING k1 with
  | some q =>
    cases q with
    | named i => exact absurd hd (default_namedlist_not_named _ _ _)
    | st_temppath => simp [Registry.deref]
    | st_searchpath => simp [Registry.deref]
    | st_staticpath => simp [Registry.deref]
    | st_helppath => simp [Registry.deref]
  | none =>
    have hne : ¬ k = k1 := fun e => hk e.symm
    cases hf : namedlist_find k1 st.ps_namedlists with
    | none => simp [namedlist_find, hne, hf]
    | some j => simp [namedlist_find, hne, hf, Registry.deref, chain_list]

/-- After `namedlist_append` with a non-null name, the key is bound to what `namelist_append`
makes of the list it was bound to. -/
theorem getlist_append_same (MAXPDSTRING : Nat) (st : Registry) (k v : CStr) (allowdup : Int) :
    namedlist_getlist MAXPDSTRING (namedlist_append MAXPDSTRING st k (some v) allowdup) k =
      namelist_append (namedlist_getlist MAXPDSTRING st k) v allowdup := by
  cases h : namedlist_do_getlist MAXPDSTRING st k with
  | some p =>
    rw [getlist_of_do_getlist _ _ _ _ h]
    simp only [namedlist_append, h]
    exact getlist_store_same _ _ _ _ _ h
  | none =>
    rw [getlist_of_unknown _ _ _ h]
    simp only [namedlist_append, h]
    exact getlist_store_same _ _ _ _ _ (do_getlist_fresh _ _ _ h)

/-- After `namedlist_append`, every other key is bound to the list it was bound to. -/
theorem getlist_append_other (MAXPDSTRING : Nat) (hM : 17 < MAXPDSTRING) (st : Registry)
    (k k1 : CStr) (name : Option CStr) (allowdup : Int) (hk : k1 ≠ k) :
    namedlist_getlist MAXPDSTRING (namedlist_append MAXPDSTRING st k name allowdup) k1 =
      namedlist_getlist MAXPDSTRING st k1 := by
  cases name with
  | none => simp [namedlist_append]
  | some v =>
    cases h : namedlist_do_getlist MAXPDSTRING st k with
    | some p =>
      simp only [namedlist_append, h]
      exact getlist_store_other _ hM _ _ _ _ _ h hk
    | none =>
      simp only [namedlist_append, h]
      rw [getlist_store_other _ hM _ _ _ _ _ (do_getlist_fresh _ _ _ h) hk]
      exact getlist_fresh_other _ _ _ _ hk

theorem namedlist_append_null (MAXPDSTRING : Nat) (st : Registry) (k : CStr) (allowdup : Int) :
    namedlist_append MAXPDSTRING st k none allowdup = st := by
  simp [namedlist_append]

theorem store_names (st : Registry) (p : ListRef) (l : List CStr) :
    (st.store p l).ps_namedlists.map t_namedlist.name =
      st.ps_namedlists.map t_namedlist.name := by
  cases p <;> simp [Registry.store, chain_store_names]

/-- After `namedlist_free` the key is bound to the empty list. -/
theorem getlist_free_same (MAXPDSTRING : Nat) (st : Registry) (k : CStr) :
    namedlist_getlist MAXPDSTRING (namedlist_free MAXPDSTRING st k) k = [] := by
  unfold namedlist_free
  cases hd : default_namedlist MAXPDSTRING k with
  | some p =>
    have hg : ∀ s : Registry, namedlist_do_getlist MAXPDSTRING s k = some p := by
      intro s
      simp [namedlist_do_getlist, hd]
    simp only
    split_ifs with he
    · cases hf : namedlist_find k st.ps_namedlists with
      | none =>
        simp only
        rw [getlist_of_do_getlist _ _ _ _ (hg st)]
        exact he
      | some i =>
        simp only
        rw [getlist_of_do_getlist _ _ _ _ (hg _)]
        cases p with
        | named j => exact absurd hd (default_namedlist_not_named _ _ _)
        | st_temppath => simp [Registry.store, Registry.deref]
        | st_searchpath => simp [Registry.store, Registry.deref]
        | st_staticpath => simp [Registry.store, Registry.deref]
        | st_helppath => simp [Registry.store, Registry.deref]
    · exact getlist_store_same _ _ _ _ _ (hg st)
  | none =>
    simp only [if_true]
    cases hf : namedlist_find k st.ps_namedlists with
    | none =>
      simp only
      exact getlist_of_unknown _ _ _ (by simp [namedlist_do_getlist, hd, hf])
    | some i =>
      simp only
      exact getlist_store_same _ _ _ _ _ (by simp [namedlist_do_getlist, hd, hf])

/-- After `namedlist_free` every other key is bound to the list it was bound to. -/
theorem getlist_free_other (MAXPDSTRING : Nat) (hM : 17 < MAXPDSTRING) (st : Registry)
    (k k1 : CStr) (hk : k1 ≠ k) :
    namedlist_getlist MAXPDSTRING (namedlist_free MAXPDSTRING st k) k1 =
      namedlist_getlist MAXPDSTRING st k1 := by
  unfold namedlist_free
  cases hd : default_namedlist MAXPDSTRING k with
  | some p =>
    have hg : ∀ s : Registry, namedlist_do_getlist MAXPDSTRING s k = some p := by
      intro s
      simp [namedlist_do_getlist, hd]
    simp only
    split_ifs with he
    · cases hf : namedlist_find k st.ps_namedlists with
      | none => rfl
      | some i =>
        simp only
        have hfi : namedlist_find k (st.store p []).ps_namedlists = some i := by
          cases p <;> simp [Registry.store, namedlist_find_store, hf]
        have hnamed : ∀ s : Registry, namedlist_find k s.ps_namedlists = some i →
            namedlist_getlist MAXPDSTRING (s.store (.named i) []) k1 =
              namedlist_getlist MAXPDSTRING s k1 := by
          intro s hs
          have hfs : ∀ q, namedlist_find k1 (s.store q []).ps_namedlists =
              namedlist_find k1 s.ps_namedlists := by
            intro q
            cases q <;> simp [Registry.store, namedlist_find_store]
          unfold namedlist_getlist namedlist_do_getlist
          rw [hfs]
          cases hd1 : default_namedlist MAXPDSTRING k1 with
          | some q =>
            cases q with
            | named j => exact absurd hd1 (default_namedlist_not_named _ _ _)
            | st_temppath => simp [Registry.store, Registry.deref]
            | st_searchpath => simp [Registry.store, Registry.deref]
            | st_staticpath => simp [Registry.store, Registry.deref]
            | st_helppath => simp [Registry.store, Registry.deref]
          | none =>
            cases hf1 : namedlist_find k1 s.ps_namedlists with
            | none => simp
            | some j =>
              have hij : i ≠ j := by
                intro e
                subst e
                exact hk (namedlist_find_inj k k1 _ _ hs hf1)
              simp [Registry.store, Registry.deref, chain_list_store_other _ i j [] hij]
        rw [hnamed _ hfi]
        exact getlist_store_other _ hM _ _ _ _ _ (hg st) hk
    · exact getlist_store_other _ hM _ _ _ _ _ (hg st) hk
  | none =>
    simp only [if_true]
    cases hf : namedlist_find k st.ps_namedlists with
    | none => rfl
    | some i =>
      simp only
      exact getlist_store_other _ hM _ _ _ _ _ (by simp [namedlist_do_getlist, hd, hf]) hk

theorem free_names (MAXPDSTRING : Nat) (st : Registry) (k : CStr) :
    (namedlist_free MAXPDSTRING st k).ps_namedlists.map t_namedlist.name =
      st.ps_namedlists.map t_namedlist.name := by
  unfold namedlist_free
  simp only
  split_ifs
  · cases namedlist_find k st.ps_namedlists with
    | none => rfl
    | some i =>
      simp only
      rw [store_names]
      cases default_namedlist MAXPDSTRING k with
      | none => rfl
      | some p => exact store_names _ _ _
  · cases default_namedlist MAXPDSTRING k with
    | none => rfl
    | some p => exact store_names _ _ _

theorem getlist_append_files_loop (MAXPDSTRING : Nat) (k : CStr) (fuel : Nat) (st : Registry)
    (npos : CStr) :
    namedlist_getlist MAXPDSTRING (namedlist_append_files_loop MAXPDSTRING k fuel st npos) k =
      namelist_append_files_loop MAXPDSTRING fuel (namedlist_getlist MAXPDSTRING st k) npos := by
  induction fuel generalizing st npos with
  | zero => rfl
  | succ fuel ih =>
    simp only [namedlist_append_files_loop, namelist_append_files_loop]
    have hstep : namedlist_getlist MAXPDSTRING
        (if (strtokcpy MAXPDSTRING npos SEPARATOR).1 = [] then st
          else namedlist_append MAXPDSTRING st k (some (strtokcpy MAXPDSTRING npos SEPARATOR).1) 0) k =
        (if (strtokcpy MAXPDSTRING npos SEPARATOR).1 = [] then namedlist_getlist MAXPDSTRING st k
          else namelist_append (namedlist_getlist MAXPDSTRING st k)
            (strtokcpy MAXPDSTRING npos SEPARATOR).1 0) := by
      split_ifs
      · rfl
      · exact getlist_append_same _ _ _ _ _
    cases hr : (strtokcpy MAXPDSTRING npos SEPARATOR).2 with
    | none => exact hstep
    | some p =>
      simp only
      rw [ih, hstep]

/-- The list bound to a key after `namedlist_append_files` is what `namelist_append_files`
makes of the list it was bound to. -/
theorem getlist_append_files (MAXPDSTRING : Nat) (st : Registry) (k s : CStr) :
    namedlist_getlist MAXPDSTRING (namedlist_append_files MAXPDSTRING st k s) k =
      namelist_append_files MAXPDSTRING (namedlist_getlist MAXPDSTRING st k) s := by
  unfold namedlist_append_files namelist_append_files
  rw [namedlist_append_null]
  exact getlist_append_files_loop _ _ _ _ _

theorem getlist_set_fold (MAXPDSTRING : Nat) (k : CStr) (argv : List CStr) (st : Registry) :
    namedlist_getlist MAXPDSTRING
      (argv.foldl
        (fun acc a =>
          let s := sys_decodedialog MAXPDSTRING a
          if s ≠ [] then namedlist_append_files MAXPDSTRING acc k s else acc) st) k =
      argv.foldl
        (fun l a =>
          let s := sys_decodedialog MAXPDSTRING a
          if s ≠ [] then namelist_append_files MAXPDSTRING l s else l)
        (namedlist_getlist MAXPDSTRING st k) := by
  induction argv generalizing st with
  | nil => rfl
  | cons a rest ih =>
    simp only [List.foldl_cons]
    rw [ih]
    congr 1
    by_cases he : sys_decodedialog MAXPDSTRING a = []
    · simp [he]
    · simp [he, getlist_append_files]

/-! ## Lemmas on the search -/

theorem trytoopenone_fail (MAXPDSTRING : Nat) (home : Option CStr) (fs : CStr → Option Nat)
    (d name ext : CStr) (size : Nat) (m : OpenState)
    (h : probe_ok MAXPDSTRING home fs name ext size d = false) :
    (sys_trytoopenone MAXPDSTRING home fs d name ext size m).1 = -1 ∧
    (sys_trytoopenone MAXPDSTRING home fs d name ext size m).2.opened =
      m.opened ++ probed_paths MAXPDSTRING home name ext size [d] := by
  unfold probe_ok at h
  unfold sys_trytoopenone probed_paths
  cases hf : trytoopenone_fits d name ext size with
  | false => simp [hf]
  | true =>
    rw [hf] at h
    have hn : sys_open fs (trytoopenone_path MAXPDSTRING home d name ext) = none := by
      cases hs : sys_open fs (trytoopenone_path MAXPDSTRING home d name ext) with
      | none => rfl
      | some fd => simp [hs] at h
    simp [hf, hn]

theorem trytoopenone_ok (MAXPDSTRING : Nat) (home : Option CStr) (fs : CStr → Option Nat)
    (d name ext : CStr) (size : Nat) (m : OpenState)
    (h : probe_ok MAXPDSTRING home fs name ext size d = true) :
    (∃ fd : Nat, sys_open fs (trytoopenone_path MAXPDSTRING home d name ext) = some fd ∧
      (sys_trytoopenone MAXPDSTRING home fs d name ext size m).1 = (fd : Int)) ∧
    (sys_trytoopenone MAXPDSTRING home fs d name ext size m).2.opened =
      m.opened ++ [trytoopenone_path MAXPDSTRING home d name ext] := by
  unfold probe_ok at h
  simp only [Bool.and_eq_true] at h
  obtain ⟨hf, ho⟩ := h
  obtain ⟨fd, hfd⟩ := Option.isSome_iff_exists.mp ho
  unfold sys_trytoopenone
  refine ⟨⟨fd, hfd, ?_⟩, ?_⟩
  · simp only [hf, hfd]
    cases strrchr '/' (sys_unbashfilename (trytoopenone_path MAXPDSTRING home d name ext)) <;>
      simp
  · simp only [hf, hfd]
    cases strrchr '/' (sys_unbashfilename (trytoopenone_path MAXPDSTRING home d name ext)) <;>
      simp

/-- On success the buffer and the name pointer do not depend on the memory before. -/
theorem trytoopenone_ok_result (MAXPDSTRING : Nat) (home : Option CStr)
    (fs : CStr → Option Nat) (d name ext : CStr) (size : Nat) (m m1 : OpenState)
    (h : probe_ok MAXPDSTRING home fs name ext size d = true) :
    (sys_trytoopenone MAXPDSTRING home fs d name ext size m).1 =
      (sys_trytoopenone MAXPDSTRING home fs d name ext size m1).1 ∧
    (sys_trytoopenone MAXPDSTRING home fs d name ext size m).2.dirresult =
      (sys_trytoopenone MAXPDSTRING home fs d name ext size m1).2.dirresult ∧
    (sys_trytoopenone MAXPDSTRING home fs d name ext size m).2.nameresult =
      (sys_trytoopenone MAXPDSTRING home fs d name ext size m1).2.nameresult := by
  unfold probe_ok at h
  simp only [Bool.and_eq_true] at h
  obtain ⟨hf, ho⟩ := h
  obtain ⟨fd, hfd⟩ := Option.isSome_iff_exists.mp ho
  unfold sys_trytoopenone
  simp only [hf, hfd]
  cases strrchr '/' (sys_unbashfilename (trytoopenone_path MAXPDSTRING home d name ext)) <;>
    simp

theorem trytoopenone_nonneg_iff (MAXPDSTRING : Nat) (home : Option CStr)
    (fs : CStr → Option Nat) (d name ext : CStr) (size : Nat) (m : OpenState) :
    (sys_trytoopenone MAXPDSTRING home fs d name ext size m).1 ≥ 0 ↔
      probe_ok MAXPDSTRING home fs name ext size d = true := by
  cases h : probe_ok MAXPDSTRING home fs name ext size d with
  | false =>
    have := (trytoopenone_fail MAXPDSTRING home fs d name ext size m h).1
    simp [this]
  | true =>
    obtain ⟨⟨fd, _, h1⟩, _⟩ := trytoopenone_ok MAXPDSTRING home fs d name ext size m h
    simp [h1]

theorem try_namelist_append (MAXPDSTRING : Nat) (home : Option CStr) (fs : CStr → Option Nat)
    (name ext : CStr) (size : Nat) (l1 l2 : List CStr) (m : OpenState) :
    try_namelist MAXPDSTRING home fs name ext size (l1 ++ l2) m =
      if (try_namelist MAXPDSTRING home fs name ext size l1 m).1 ≥ 0
      then try_namelist MAXPDSTRING home fs name ext size l1 m
      else try_namelist MAXPDSTRING home fs name ext size l2
        (try_namelist MAXPDSTRING home fs name ext size l1 m).2 := by
  induction l1 generalizing m with
  | nil => simp [try_namelist]
  | cons x rest ih =>
    show try_namelist MAXPDSTRING home fs name ext size (x :: (rest ++ l2)) m = _
    by_cases h1 : (sys_trytoopenone MAXPDSTRING home fs x name ext size m).1 ≥ 0
    · simp only [try_namelist, h1, if_true]
    · simp only [try_namelist, h1, if_false]
      exact ih _

theorem try_namelist_single (MAXPDSTRING : Nat) (home : Option CStr) (fs : CStr → Option Nat)
    (name ext : CStr) (size : Nat) (d : CStr) (m : OpenState) :
    try_namelist MAXPDSTRING home fs name ext size [d] m =
      sys_trytoopenone MAXPDSTRING home fs d name ext size m := by
  simp only [try_namelist]
  split_ifs with h
  · rfl
  · have hp : probe_ok MAXPDSTRING home fs name ext size d = false := by
      cases hq : probe_ok MAXPDSTRING home fs name ext size d with
      | false => rfl
      | true => exact absurd ((trytoopenone_nonneg_iff _ _ _ _ _ _ _ _).mpr hq) h
    have h1 := (trytoopenone_fail MAXPDSTRING home fs d name ext size m hp).1
    exact Prod.ext h1.symm rfl

/-- When no directory of the list succeeds, the loop returns `-1` after having probed the
candidate of every directory that passes the length test. -/
theorem try_namelist_none (MAXPDSTRING : Nat) (home : Option CStr) (fs : CStr → Option Nat)
    (name ext : CStr) (size : Nat) (l : List CStr) (m : OpenState)
    (h : ∀ d ∈ l, probe_ok MAXPDSTRING home fs name ext size d = false) :
    (try_namelist MAXPDSTRING home fs name ext size l m).1 = -1 ∧
    (try_namelist MAXPDSTRING home fs name ext size l m).2.opened =
      m.opened ++ probed_paths MAXPDSTRING home name ext size l := by
  induction l generalizing m with
  | nil => simp [try_namelist, probed_paths]
  | cons x rest ih =>
    have hx := h x (List.mem_cons_self _ _)
    have hf := trytoopenone_fail MAXPDSTRING home fs x name ext size m hx
    have hrest := ih (sys_trytoopenone MAXPDSTRING home fs x name ext size m).2
      (fun d hd => h d (List.mem_cons_of_mem _ hd))
    have hneg : ¬ (sys_trytoopenone MAXPDSTRING home fs x name ext size m).1 ≥ 0 := by
      rw [hf.1]
      decide
    have heq : try_namelist MAXPDSTRING home fs name ext size (x :: rest) m =
        try_namelist MAXPDSTRING home fs name ext size rest
          (sys_trytoopenone MAXPDSTRING home fs x name ext size m).2 := by
      simp only [try_namelist, hneg, if_false]
    rw [heq]
    refine ⟨hrest.1, ?_⟩
    rw [hrest.2, hf.2]
    unfold probed_paths
    cases hfx : trytoopenone_fits x name ext size <;> simp [List.filter, hfx]

/-- When `d` is the first directory of the list that succeeds, the loop returns what the
attempt on `d` returns, after having probed the candidates of the directories before `d` that
pass the length test, then the candidate of `d`. -/
theorem try_namelist_some (MAXPDSTRING : Nat) (home : Option CStr) (fs : CStr → Option Nat)
    (name ext : CStr) (size : Nat) (l : List CStr) (m : OpenState) (d : CStr)
    (h : l.find? (probe_ok MAXPDSTRING home fs name ext size) = some d) :
    (try_namelist MAXPDSTRING home fs name ext size l m).1 =
      (sys_trytoopenone MAXPDSTRING home fs d name ext size m).1 ∧
    (try_namelist MAXPDSTRING home fs name ext size l m).2.dirresult =
      (sys_trytoopenone MAXPDSTRING home fs d name ext size m).2.dirresult ∧
    (try_namelist MAXPDSTRING home fs name ext size l m).2.nameresult =
      (sys_trytoopenone MAXPDSTRING home fs d name ext size m).2.nameresult ∧
    (try_namelist MAXPDSTRING home fs name ext size l m).2.opened =
      m.opened ++
        probed_paths MAXPDSTRING home name ext size
          (l.takeWhile (fun x => !probe_ok MAXPDSTRING home fs name ext size x)) ++
        [trytoopenone_path MAXPDSTRING home d name ext] := by
  induction l generalizing m with
  | nil => simp at h
  | cons x rest ih =>
    cases hx : probe_ok MAXPDSTRING home fs name ext size x with
    | true =>
      have hd : x = d := by
        simpa [List.find?, hx] using h
      subst hd
      have hpos := (trytoopenone_nonneg_iff MAXPDSTRING home fs x name ext size m).mpr hx
      have heq : try_namelist MAXPDSTRING home fs name ext size (x :: rest) m =
          sys_trytoopenone MAXPDSTRING home fs x name ext size m := by
        simp only [try_namelist, hpos, if_true]
      rw [heq]
      refine ⟨rfl, rfl, rfl, ?_⟩
      rw [(trytoopenone_ok MAXPDSTRING home fs x name ext size m hx).2]
      simp [List.takeWhile, hx, probed_paths]
    | false =>
      have hrest : rest.find? (probe_ok MAXPDSTRING home fs name ext size) = some d := by
        simpa [List.find?, hx] using h
      have hf := trytoopenone_fail MAXPDSTRING home fs x name ext size m hx
      have hneg : ¬ (sys_trytoopenone MAXPDSTRING home fs x name ext size m).1 ≥ 0 := by
        rw [hf.1]
        decide
      have hok : probe_ok MAXPDSTRING home fs name ext size d = true := by
        have := List.find?_some hrest
        simpa using this
      have hi := ih (sys_trytoopenone MAXPDSTRING home fs x name ext size m).2 hrest
      have hr := trytoopenone_ok_result MAXPDSTRING home fs d name ext size
        (sys_trytoopenone MAXPDSTRING home fs x name ext size m).2 m hok
      have heq : try_namelist MAXPDSTRING home fs name ext size (x :: rest) m =
          try_namelist MAXPDSTRING home fs name ext size rest
            (sys_trytoopenone MAXPDSTRING home fs x name ext size m).2 := by
        simp only [try_namelist, hneg, if_false]
      rw [heq]
      refine ⟨hi.1.trans hr.1, hi.2.1.trans hr.2.1, hi.2.2.1.trans hr.2.2, ?_⟩
      rw [hi.2.2.2, hf.2]
      unfold probed_paths
      cases hfx : trytoopenone_fits x name ext size <;>
        simp [List.takeWhile, hx, List.filter, hfx]

theorem try_namelist_nonneg_iff (MAXPDSTRING : Nat) (home : Option CStr)
    (fs : CStr → Option Nat) (name ext : CStr) (size : Nat) (l : List CStr) (m : OpenState) :
    (try_namelist MAXPDSTRING home fs name ext size l m).1 ≥ 0 ↔
      ∃ d ∈ l, probe_ok MAXPDSTRING home fs name ext size d = true := by
  cases hfind : l.find? (probe_ok MAXPDSTRING home fs name ext size) with
  | none =>
    have hall : ∀ d ∈ l, probe_ok MAXPDSTRING home fs name ext size d = false := by
      intro d hd
      have := List.find?_eq_none.mp hfind d hd
      simpa using this
    have h1 := (try_namelist_none MAXPDSTRING home fs name ext size l m hall).1
    constructor
    · intro hge
      rw [h1] at hge
      exact absurd hge (by decide)
    · rintro ⟨d, hd, hok⟩
      rw [hall d hd] at hok
      exact absurd hok (by decide)
  | some d =>
    have hok : probe_ok MAXPDSTRING home fs name ext size d = true := by
      have := List.find?_some hfind
      simpa using this
    have hmem : d ∈ l := List.mem_of_find?_eq_some hfind
    have h1 := (try_namelist_some MAXPDSTRING home fs name ext size l m d hfind).1
    constructor
    · intro _
      exact ⟨d, hmem, hok⟩
    · intro _
      rw [h1]
      exact (trytoopenone_nonneg_iff _ _ _ _ _ _ _ _).mpr hok

theorem try_namelist_nil (MAXPDSTRING : Nat) (home : Option CStr) (fs : CStr → Option Nat)
    (name ext : CStr) (size : Nat) (m : OpenState) :
    try_namelist MAXPDSTRING home fs name ext size [] m = (-1, m) := rfl

/-- For a name that does not look absolute, `do_open_via_path` is the loop over the whole
search order, followed by the reset of the results when nothing was found. -/
theorem do_open_via_path_relative (MAXPDSTRING : Nat) (home : Option CStr)
    (fs : CStr → Option Nat) (sys_usestdpath : Int) (st : Registry) (dir name ext : CStr)
    (size : Nat) (searchpath : List CStr) (m : OpenState)
    (hrel : sys_isabsolutepath name = false) :
    do_open_via_path MAXPDSTRING home fs sys_usestdpath st dir name ext size searchpath m =
      if (try_namelist MAXPDSTRING home fs name ext size
            (search_order sys_usestdpath st dir searchpath) m).1 ≥ 0
      then try_namelist MAXPDSTRING home fs name ext size
            (search_order sys_usestdpath st dir searchpath) m
      else (-1, { (try_namelist MAXPDSTRING home fs name ext size
            (search_order sys_usestdpath st dir searchpath) m).2 with
              dirresult := [], nameresult := some 0 }) := by
  have ha : sys_open_absolute MAXPDSTRING home fs name ext size (-1) m = (0, -1, m) := by
    simp [sys_open_absolute, hrel]
  unfold do_open_via_path search_order
  rw [ha]
  simp only [try_namelist_append, try_namelist_single]
  by_cases h1 : (sys_trytoopenone MAXPDSTRING home fs dir name ext size m).1 ≥ 0
  · simp [h1]
  · by_cases h2 : (try_namelist MAXPDSTRING home fs name ext size st.st_temppath
        (sys_trytoopenone MAXPDSTRING home fs dir name ext size m).2).1 ≥ 0
    · simp [h1, h2]
    · by_cases h3 : (try_namelist MAXPDSTRING home fs name ext size searchpath
          (try_namelist MAXPDSTRING home fs name ext size st.st_temppath
            (sys_trytoopenone MAXPDSTRING home fs dir name ext size m).2).2).1 ≥ 0
      · simp [h1, h2, h3]
      · by_cases hu : sys_usestdpath = 0
        · simp [h1, h2, h3, hu, try_namelist_nil]
        · simp [h1, h2, h3, hu]

theorem trytoopenone_overflow (MAXPDSTRING : Nat) (home : Option CStr)
    (fs : CStr → Option Nat) (dir name ext : CStr) (size : Nat) (m : OpenState)
    (h : dir.length + name.length + ext.length + 4 > size) :
    sys_trytoopenone MAXPDSTRING home fs dir name ext size m = (-1, m) := by
  simp [sys_trytoopenone, trytoopenone_fits, h]

/-- The record of filesystem calls after one attempt: the candidate is added when the length
test passes, nothing is added otherwise. -/
theorem trytoopenone_opened (MAXPDSTRING : Nat) (home : Option CStr)
    (fs : CStr → Option Nat) (d name ext : CStr) (size : Nat) (m : OpenState) :
    (sys_trytoopenone MAXPDSTRING home fs d name ext size m).2.opened =
      m.opened ++ (if trytoopenone_fits d name ext size = true
        then [trytoopenone_path MAXPDSTRING home d name ext] else []) := by
  cases hok : probe_ok MAXPDSTRING home fs name ext size d with
  | true =>
    rw [(trytoopenone_ok MAXPDSTRING home fs d name ext size m hok).2]
    unfold probe_ok at hok
    simp only [Bool.and_eq_true] at hok
    simp [hok.1]
  | false =>
    rw [(trytoopenone_fail MAXPDSTRING home fs d name ext size m hok).2]
    unfold probed_paths
    cases hf : trytoopenone_fits d name ext size <;> simp [List.filter, hf]

theorem strrchr_none_iff (c : Char) (s : CStr) : strrchr c s = none ↔ c ∉ s := by
  induction s with
  | nil => simp [strrchr]
  | cons x xs ih =>
    simp only [strrchr, List.mem_cons, not_or]
    cases hr : strrchr c xs with
    | some i =>
      have hmem : ¬ c ∉ xs := fun hn => by
        rw [ih.mpr hn] at hr
        exact absurd hr (by simp)
      simp [hmem]
    | none =>
      have hn := ih.mp hr
      by_cases hx : x = c
      · simp [hx]
      · have hx1 : ¬ c = x := fun e => hx e.symm
        simp [hx, hx1, hn]

/-- For a name that looks absolute and has a slash, `do_open_via_path` is the single attempt
on the name split at its last slash. -/
theorem do_open_via_path_absolute (MAXPDSTRING : Nat) (home : Option CStr)
    (fs : CStr → Option Nat) (sys_usestdpath : Int) (st : Registry) (dir name ext : CStr)
    (size : Nat) (searchpath : List CStr) (m : OpenState) (z : Nat)
    (habs : sys_isabsolutepath name = true) (hz : strrchr '/' name = some z) :
    do_open_via_path MAXPDSTRING home fs sys_usestdpath st dir name ext size searchpath m =
      sys_trytoopenone MAXPDSTRING home fs
        (name.take (if z > MAXPDSTRING - 1 then MAXPDSTRING - 1 else z))
        (name.drop ((if z > MAXPDSTRING - 1 then MAXPDSTRING - 1 else z) + 1)) ext size m := by
  unfold do_open_via_path sys_open_absolute
  simp [habs, hz]

/-! ## Properties of the name lists -/

/-- C3: when `strlen(dir) + strlen(name) + strlen(ext) + 4 > size`, `sys_trytoopenone`
returns `-1` and leaves the memory as it was: nothing is added to the record of filesystem
calls, and neither the result buffer nor the name pointer is written. -/
theorem C3_overflow_rejected_before_io (MAXPDSTRING : Nat) (home : Option CStr)
    (fs : CStr → Option Nat) (dir name ext : CStr) (size : Nat) (m : OpenState)
    (h : dir.length + name.length + ext.length + 4 > size) :
    sys_trytoopenone MAXPDSTRING home fs dir name ext size m = (-1, m) :=
  trytoopenone_overflow MAXPDSTRING home fs dir name ext size m h

theorem C3_overflow_rejected_before_io_witness :
    ("dir".toList.length + "name".toList.length + ".pd".toList.length + 4 > 8) ∧
    sys_trytoopenone 1000 none (fun _ => some 3) "dir".toList "name".toList ".pd".toList 8
      { dirresult := "old".toList, nameresult := none, opened := [] } =
      (-1, { dirresult := "old".toList, nameresult := none, opened := [] }) :=
  ⟨by decide, C3_overflow_rejected_before_io 1000 none (fun _ => some 3) "dir".toList
    "name".toList ".pd".toList 8 _ (by decide)⟩

/-- C4 (evaluation of the code at the failing input): with `MAXPDSTRING = 1000`,
`namelist_append_files` applied to the empty list and `a:b::c` gives `a`, `b` only, the scan
ending at the empty segment, while appending every non-empty segment of the split gives
`a`, `b`, `c`. -/
theorem C4_append_files_stops_at_empty_segment :
    namelist_append_files 1000 [] "a:b::c".toList = ["a".toList, "b".toList] ∧
    append_from_delimited_spec [] "a:b::c".toList = ["a".toList, "b".toList, "c".toList] ∧
    strtokcpy 1000 ":c".toList SEPARATOR = ([], none) := by
  refine ⟨by decide, by decide, by decide⟩

/-- C5: when `v` is already an entry of `l`, `namelist_append l v 0` is `l` itself; appending
`foo` twice to the empty list without duplicates gives a list of length 1. -/
theorem C5_duplicate_suppressed (l : List CStr) (v : CStr) (h : v ∈ l) :
    namelist_append l v 0 = l ∧
    (namelist_append (namelist_append [] "foo".toList 0) "foo".toList 0).length = 1 :=
  ⟨namelist_append_of_mem l v h, by decide⟩

theorem C5_duplicate_suppressed_witness :
    "b".toList ∈ ["a".toList, "b".toList, "c".toList] ∧
    namelist_append ["a".toList, "b".toList, "c".toList] "b".toList 0 =
      ["a".toList, "b".toList, "c".toList] :=
  ⟨by decide, (C5_duplicate_suppressed ["a".toList, "b".toList, "c".toList] "b".toList
    (by decide)).1⟩

/-- C6: when duplicates are allowed or `v` is not an entry of `l`, `namelist_append l v
allowdup` is `l` followed by the single new entry `v` (unchanged by `sys_unbashfilename` on a
POSIX target). -/
theorem C6_append_at_tail (l : List CStr) (v : CStr) (allowdup : Int)
    (h : allowdup ≠ 0 ∨ v ∉ l) : namelist_append l v allowdup = l ++ [v] :=
  namelist_append_of_new l v allowdup h

theorem C6_append_at_tail_witness :
    ((1 : Int) ≠ 0 ∨ "a".toList ∉ ["a".toList, "b".toList]) ∧
    namelist_append ["a".toList, "b".toList] "a".toList 1 =
      ["a".toList, "b".toList] ++ ["a".toList] :=
  ⟨by decide, C6_append_at_tail ["a".toList, "b".toList] "a".toList 1 (by decide)⟩

/-! ## Properties of the registry -/

/-- C7: for a key `k` and a non-null value `v`, after `namedlist_append k v allowdup` the
lookup of `k` gives `namelist_append L v allowdup`, where `L` is what the lookup of `k` gave
before; for an unknown key that is `[v]`; and the lookup of every other key is unchanged.
`MAXPDSTRING` is assumed larger than the longest built-in key, so that `strncmp` compares
whole keys. -/
theorem C7_registry_append (MAXPDSTRING : Nat) (hM : 17 < MAXPDSTRING) (st : Registry)
    (k v : CStr) (allowdup : Int) :
    namedlist_getlist MAXPDSTRING (namedlist_append MAXPDSTRING st k (some v) allowdup) k =
      namelist_append (namedlist_getlist MAXPDSTRING st k) v allowdup ∧
    (namedlist_do_getlist MAXPDSTRING st k = none →
      namedlist_getlist MAXPDSTRING st k = [] ∧
      namedlist_getlist MAXPDSTRING (namedlist_append MAXPDSTRING st k (some v) allowdup) k =
        [v]) ∧
    ∀ k1 : CStr, k1 ≠ k →
      namedlist_getlist MAXPDSTRING (namedlist_append MAXPDSTRING st k (some v) allowdup) k1 =
        namedlist_getlist MAXPDSTRING st k1 := by
  refine ⟨getlist_append_same _ _ _ _ _, ?_, ?_⟩
  · intro hu
    have h0 := getlist_of_unknown _ _ _ hu
    refine ⟨h0, ?_⟩
    rw [getlist_append_same, h0]
    simp [namelist_append, sys_unbashfilename_eq]
  · intro k1 hk
    exact getlist_append_other _ hM _ _ _ _ _ hk

theorem C7_registry_append_witness :
    17 < 1000 ∧
    namedlist_getlist 1000
      (namedlist_append 1000 empty_registry "extra".toList (some "/opt/pd".toList) 0)
      "extra".toList = ["/opt/pd".toList] :=
  ⟨by decide,
    ((C7_registry_append 1000 (by decide) empty_registry "extra".toList "/opt/pd".toList
      0).2.1 (by decide)).2⟩

/-- C8: `namedlist_append` with a null value returns the registry it was given, whatever the
key and the registry; so `namedlist_append_files` ends in the state its scan reached. -/
theorem C8_null_append_noop (MAXPDSTRING : Nat) (st : Registry) (k : CStr) (allowdup : Int) :
    namedlist_append MAXPDSTRING st k none allowdup = st ∧
    ∀ s : CStr, namedlist_append_files MAXPDSTRING st k s =
      namedlist_append_files_loop MAXPDSTRING k (s.length + 1) st s := by
  refine ⟨namedlist_append_null _ _ _ _, ?_⟩
  intro s
  unfold namedlist_append_files
  exact namedlist_append_null _ _ _ _

/-- C9 (counterexample to the claim as stated): setting `searchpath.main` from the single
argument `+foo` binds the key to the list holding `foo`, not to the list holding the argument
itself. -/
theorem C9_counterexample :
    namedlist_getlist 1000
      (do_set_path 1000 empty_registry "searchpath.main".toList ["+foo".toList])
      "searchpath.main".toList = ["foo".toList] ∧
    set_list_spec 1000 ["+foo".toList] = ["+foo".toList] ∧
    ¬ (namedlist_getlist 1000
      (do_set_path 1000 empty_registry "searchpath.main".toList ["+foo".toList])
      "searchpath.main".toList = set_list_spec 1000 ["+foo".toList]) := by
  refine ⟨by decide, by decide, by decide⟩

/-- C9 (amended): the list bound to `k` after `do_set_path k argv` is the result of feeding
every argument, decoded by `sys_decodedialog` and kept when the decoded string is not empty,
in order through `namelist_append_files` starting from the empty list; it is the same
whatever the registry was before. -/
theorem C9_set_path_replaces (MAXPDSTRING : Nat) (st : Registry) (k : CStr)
    (argv : List CStr) :
    namedlist_getlist MAXPDSTRING (do_set_path MAXPDSTRING st k argv) k =
      set_list_decoded MAXPDSTRING argv ∧
    ∀ st1 : Registry,
      namedlist_getlist MAXPDSTRING (do_set_path MAXPDSTRING st1 k argv) k =
        namedlist_getlist MAXPDSTRING (do_set_path MAXPDSTRING st k argv) k := by
  have key : ∀ s : Registry,
      namedlist_getlist MAXPDSTRING (do_set_path MAXPDSTRING s k argv) k =
        set_list_decoded MAXPDSTRING argv := by
    intro s
    unfold do_set_path set_list_decoded
    rw [getlist_set_fold, getlist_free_same]
  exact ⟨key st, fun st1 => (key st1).trans (key st).symm⟩

/-- C10: for a registered key `k`, after `namedlist_free k` the lookup of `k` is empty, the
chain holds the same names in the same order (a node named `k` is still there), and the
lookup of every other key is unchanged. `MAXPDSTRING` is assumed larger than the longest
built-in key. -/
theorem C10_free_clears_keeps_key (MAXPDSTRING : Nat) (hM : 17 < MAXPDSTRING) (st : Registry)
    (k : CStr) (_hreg : registered MAXPDSTRING st k) :
    namedlist_getlist MAXPDSTRING (namedlist_free MAXPDSTRING st k) k = [] ∧
    ((namedlist_free MAXPDSTRING st k).ps_namedlists.map t_namedlist.name =
      st.ps_namedlists.map t_namedlist.name) ∧
    ((∃ nl ∈ st.ps_namedlists, nl.name = k) →
      ∃ nl ∈ (namedlist_free MAXPDSTRING st k).ps_namedlists, nl.name = k) ∧
    ∀ k1 : CStr, k1 ≠ k →
      namedlist_getlist MAXPDSTRING (namedlist_free MAXPDSTRING st k) k1 =
        namedlist_getlist MAXPDSTRING st k1 := by
  refine ⟨getlist_free_same _ _ _, free_names _ _ _, ?_, ?_⟩
  · rintro ⟨nl, hnl, hname⟩
    have hmem : k ∈ st.ps_namedlists.map t_namedlist.name :=
      List.mem_map.mpr ⟨nl, hnl, hname⟩
    rw [← free_names MAXPDSTRING st k] at hmem
    obtain ⟨nl1, h1, h2⟩ := List.mem_map.mp hmem
    exact ⟨nl1, h1, h2⟩
  · intro k1 hk
    exact getlist_free_other _ hM _ _ _ hk

theorem C10_free_clears_keeps_key_witness :
    17 < 1000 ∧
    registered 1000
      { empty_registry with
        ps_namedlists := [{ name := "extra".toList, list := ["/opt/pd".toList] }] }
      "extra".toList ∧
    namedlist_getlist 1000
      (namedlist_free 1000
        { empty_registry with
          ps_namedlists := [{ name := "extra".toList, list := ["/opt/pd".toList] }] }
        "extra".toList) "extra".toList = [] :=
  ⟨by decide, by decide,
    (C10_free_clears_keeps_key 1000 (by decide) _ "extra".toList (by decide)).1⟩

/-! ## Properties of the search -/

/-- A base directory of 997 characters with the name `f`, a buffer of 1000 bytes and a
filesystem in which every path opens: the candidate of the base directory opens, and
`do_open_via_path` returns `-1` without a filesystem call. -/
theorem long_base_dir_rejected (d : CStr) (hd : d.length = 997) :
    (search_order 1 empty_registry d []).find?
      (candidate_opens 1000 none (fun _ => some 3) "f".toList []) = some d ∧
    do_open_via_path 1000 none (fun _ => some 3) 1 empty_registry d "f".toList [] 1000 []
      { dirresult := [], nameresult := none, opened := [] } =
      (-1, { dirresult := [], nameresult := some 0, opened := [] }) := by
  constructor
  · simp [search_order, empty_registry, candidate_opens, sys_open]
  · rw [do_open_via_path_relative _ _ _ _ _ _ _ _ _ _ _ (by decide)]
    have hs : search_order 1 empty_registry d [] = [d] := by
      simp [search_order, empty_registry]
    rw [hs, try_namelist_single, trytoopenone_overflow _ _ _ _ _ _ _ _ (by simp [hd])]
    simp

/-- C1 (counterexample to the claim as stated): with `MAXPDSTRING = 1000`, a buffer of 1000
bytes, a base directory of 997 characters and a filesystem in which every path opens, the
name `f` does not look absolute and the candidate of the base directory opens, yet
`do_open_via_path` returns `-1` and hands nothing to the filesystem. -/
theorem C1_counterexample :
    sys_isabsolutepath "f".toList = false ∧
    (search_order 1 empty_registry (List.replicate 997 'd') []).find?
      (candidate_opens 1000 none (fun _ => some 3) "f".toList []) =
        some (List.replicate 997 'd') ∧
    do_open_via_path 1000 none (fun _ => some 3) 1 empty_registry (List.replicate 997 'd')
      "f".toList [] 1000 []
      { dirresult := [], nameresult := none, opened := [] } =
      (-1, { dirresult := [], nameresult := some 0, opened := [] }) := by
  exact ⟨by decide,
    long_base_dir_rejected (List.replicate 997 'd') (List.length_replicate 997 'd')⟩

/-- C1 (amended): for a name that does not look absolute, let the search order be the base
directory, the temporary path, the caller's search path and, when `sys_usestdpath` is
non-zero, the static path. The buffer is at most `MAXPDSTRING` bytes long and, for every
directory of the order that passes the length test of `sys_trytoopenone`, the path built from
the expanded directory is shorter than the buffer (outside these calls the C code writes past
the end of a buffer). If `d` is the first directory of that order whose candidate passes the
length test and opens, `do_open_via_path` returns the descriptor, the buffer and the name
pointer of the attempt on `d`, having handed to the filesystem the candidates of the earlier
directories that pass the length test and then the candidate of `d`. If there is no such
directory it returns `-1`, having handed to the filesystem the candidates of all the
directories of the order that pass the length test. It returns `-1` exactly when no directory
of the order passes the test and opens. -/
theorem C1_resolution_order (MAXPDSTRING : Nat) (home : Option CStr)
    (fs : CStr → Option Nat) (sys_usestdpath : Int) (st : Registry) (dir name ext : CStr)
    (size : Nat) (searchpath : List CStr) (m : OpenState)
    (hrel : sys_isabsolutepath name = false) (_hsize : size ≤ MAXPDSTRING)
    (_hfit : ∀ d ∈ search_order sys_usestdpath st dir searchpath,
      candidate_fits MAXPDSTRING home name ext size d = true) :
    (∀ d : CStr,
      (search_order sys_usestdpath st dir searchpath).find?
        (probe_ok MAXPDSTRING home fs name ext size) = some d →
      0 ≤ (do_open_via_path MAXPDSTRING home fs sys_usestdpath st dir name ext size
        searchpath m).1 ∧
      (do_open_via_path MAXPDSTRING home fs sys_usestdpath st dir name ext size
        searchpath m).1 = (sys_trytoopenone MAXPDSTRING home fs d name ext size m).1 ∧
      (do_open_via_path MAXPDSTRING home fs sys_usestdpath st dir name ext size
        searchpath m).2.dirresult =
          (sys_trytoopenone MAXPDSTRING home fs d name ext size m).2.dirresult ∧
      (do_open_via_path MAXPDSTRING home fs sys_usestdpath st dir name ext size
        searchpath m).2.nameresult =
          (sys_trytoopenone MAXPDSTRING home fs d name ext size m).2.nameresult ∧
      (do_open_via_path MAXPDSTRING home fs sys_usestdpath st dir name ext size
        searchpath m).2.opened =
          m.opened ++
            probed_paths MAXPDSTRING home name ext size
              ((search_order sys_usestdpath st dir searchpath).takeWhile
                (fun x => !probe_ok MAXPDSTRING home fs name ext size x)) ++
            [trytoopenone_path MAXPDSTRING home d name ext]) ∧
    ((search_order sys_usestdpath st dir searchpath).find?
        (probe_ok MAXPDSTRING home fs name ext size) = none →
      (do_open_via_path MAXPDSTRING home fs sys_usestdpath st dir name ext size
        searchpath m).2.opened =
          m.opened ++ probed_paths MAXPDSTRING home name ext size
            (search_order sys_usestdpath st dir searchpath)) ∧
    ((do_open_via_path MAXPDSTRING home fs sys_usestdpath st dir name ext size
        searchpath m).1 = -1 ↔
      ∀ d ∈ search_order sys_usestdpath st dir searchpath,
        probe_ok MAXPDSTRING home fs name ext size d = false) := by
  rw [do_open_via_path_relative MAXPDSTRING home fs sys_usestdpath st dir name ext size
    searchpath m hrel]
  have hiff := try_namelist_nonneg_iff MAXPDSTRING home fs name ext size
    (search_order sys_usestdpath st dir searchpath) m
  refine ⟨?_, ?_, ?_⟩
  · intro d hd
    have hsome := try_namelist_some MAXPDSTRING home fs name ext size
      (search_order sys_usestdpath st dir searchpath) m d hd
    have hok : probe_ok MAXPDSTRING home fs name ext size d = true := by
      have := List.find?_some hd
      simpa using this
    have hge : (try_namelist MAXPDSTRING home fs name ext size
        (search_order sys_usestdpath st dir searchpath) m).1 ≥ 0 :=
      hiff.mpr ⟨d, List.mem_of_find?_eq_some hd, hok⟩
    rw [if_pos hge]
    exact ⟨hge, hsome⟩
  · intro hnone
    have hall : ∀ d ∈ search_order sys_usestdpath st dir searchpath,
        probe_ok MAXPDSTRING home fs name ext size d = false := by
      intro d hd
      have := List.find?_eq_none.mp hnone d hd
      simpa using this
    have hn := try_namelist_none MAXPDSTRING home fs name ext size
      (search_order sys_usestdpath st dir searchpath) m hall
    have hneg : ¬ (try_namelist MAXPDSTRING home fs name ext size
        (search_order sys_usestdpath st dir searchpath) m).1 ≥ 0 := by
      rw [hn.1]
      decide
    rw [if_neg hneg]
    exact hn.2
  · by_cases hge : (try_namelist MAXPDSTRING home fs name ext size
        (search_order sys_usestdpath st dir searchpath) m).1 ≥ 0
    · rw [if_pos hge]
      obtain ⟨d, hd, hok⟩ := hiff.mp hge
      constructor
      · intro h1
        rw [h1] at hge
        exact absurd hge (by decide)
      · intro hall
        rw [hall d hd] at hok
        exact absurd hok (by decide)
    · rw [if_neg hge]
      constructor
      · intro _ d hd
        cases hq : probe_ok MAXPDSTRING home fs name ext size d with
        | false => rfl
        | true => exact absurd (hiff.mpr ⟨d, hd, hq⟩) hge
      · intro _
        rfl

theorem C1_resolution_order_witness :
    sys_isabsolutepath "f".toList = false ∧ 1000 ≤ 1000 ∧
    (∀ d ∈ search_order 1
        { empty_registry with st_temppath := ["t".toList], st_staticpath := ["x".toList] }
        "d".toList ["s".toList],
      candidate_fits 1000 none "f".toList ".pd".toList 1000 d = true) ∧
    (do_open_via_path 1000 none (fun p => if p = "s/f.pd".toList then some 3 else none) 1
      { empty_registry with st_temppath := ["t".toList], st_staticpath := ["x".toList] }
      "d".toList "f".toList ".pd".toList 1000 ["s".toList]
      { dirresult := [], nameresult := none, opened := [] }).2.opened =
      [] ++
        probed_paths 1000 none "f".toList ".pd".toList 1000
          ((search_order 1
            { empty_registry with st_temppath := ["t".toList], st_staticpath := ["x".toList] }
            "d".toList ["s".toList]).takeWhile
            (fun x => !probe_ok 1000 none
              (fun p => if p = "s/f.pd".toList then some 3 else none)
              "f".toList ".pd".toList 1000 x)) ++
        [trytoopenone_path 1000 none "s".toList "f".toList ".pd".toList] :=
  ⟨by decide, by decide, by decide,
    ((C1_resolution_order 1000 none (fun p => if p = "s/f.pd".toList then some 3 else none) 1
      { empty_registry with st_temppath := ["t".toList], st_staticpath := ["x".toList] }
      "d".toList "f".toList ".pd".toList 1000 ["s".toList]
      { dirresult := [], nameresult := none, opened := [] } (by decide) (by decide)
      (by decide)).1
      "s".toList (by decide)).2.2.2.2⟩

/-- A name made of `/a/` followed by 1000 characters without a slash, a buffer of 1000
bytes: `do_open_via_path` hands nothing to the filesystem. -/
theorem long_absolute_name_rejected (n : CStr) (hn : n.length = 1000) (hs : '/' ∉ n) :
    (do_open_via_path 1000 none (fun _ => some 3) 1 empty_registry "d".toList
      ('/' :: 'a' :: '/' :: n) [] 1000 []
      { dirresult := [], nameresult := none, opened := [] }).2.opened = [] := by
  have hz : strrchr '/' ('/' :: 'a' :: '/' :: n) = some 2 := by
    simp [strrchr, (strrchr_none_iff '/' n).mpr hs]
  rw [do_open_via_path_absolute _ _ _ _ _ _ _ _ _ _ _ 2 (by simp [sys_isabsolutepath]) hz]
  rw [trytoopenone_overflow _ _ _ _ _ _ _ _ (by simp [hn])]

/-- C2 (counterexample to the claim as stated): with `MAXPDSTRING = 1000` and a buffer of 1000
bytes, (a) the name `~f` starts with a tilde, and with base directory `d`, temporary path `t`
and nothing that opens, two locations are probed, built from the base directory and from the
tier entry; (b) a name made of `/a/` followed by 1000 letters starts with a slash, and no
location at all is probed. -/
theorem C2_counterexample :
    (sys_isabsolutepath "~f".toList = true ∧
      (do_open_via_path 1000 none (fun _ => none) 1
        { empty_registry with st_temppath := ["t".toList] }
        "d".toList "~f".toList ".pd".toList 1000 []
        { dirresult := [], nameresult := none, opened := [] }).2.opened =
        ["d/~f.pd".toList, "t/~f.pd".toList]) ∧
    (sys_isabsolutepath ('/' :: 'a' :: '/' :: List.replicate 1000 'n') = true ∧
      (do_open_via_path 1000 none (fun _ => some 3) 1 empty_registry "d".toList
        ('/' :: 'a' :: '/' :: List.replicate 1000 'n') [] 1000 []
        { dirresult := [], nameresult := none, opened := [] }).2.opened = []) := by
  refine ⟨⟨by decide, by decide⟩, ⟨rfl, ?_⟩⟩
  exact long_absolute_name_rejected (List.replicate 1000 'n') (List.length_replicate 1000 'n')
    (fun h => absurd (List.eq_of_mem_replicate h) (by decide))

/-- C2 (amended): for a name whose first character is a slash or a tilde and whose last slash
is at offset `z`, take as directory part the name before that slash, cut to
`MAXPDSTRING - 1` characters, and as file part what follows. When the directory part is
neither empty nor ended by a slash, the buffer is at most `MAXPDSTRING` bytes long and the
path built from the two parts is shorter than the buffer whenever it passes the length test,
`do_open_via_path` is the single attempt of `sys_trytoopenone` on the two parts, whatever the
base directory, the lists and the flag; it hands to the filesystem the one candidate of that
attempt when the length test passes and nothing when it fails, whether the attempt succeeds
or not. -/
theorem C2_absolute_short_circuit (MAXPDSTRING : Nat) (home : Option CStr)
    (fs : CStr → Option Nat) (sys_usestdpath : Int) (st : Registry) (dir name ext : CStr)
    (size : Nat) (searchpath : List CStr) (m : OpenState) (z : Nat)
    (habs : sys_isabsolutepath name = true) (hz : strrchr '/' name = some z)
    (_hdirpart : name.take (absolute_dirlen MAXPDSTRING z) ≠ [] ∧
      (name.take (absolute_dirlen MAXPDSTRING z)).getLast? ≠ some '/')
    (_hsize : size ≤ MAXPDSTRING)
    (_hfit : candidate_fits MAXPDSTRING home (name.drop (absolute_dirlen MAXPDSTRING z + 1))
      ext size (name.take (absolute_dirlen MAXPDSTRING z)) = true) :
    do_open_via_path MAXPDSTRING home fs sys_usestdpath st dir name ext size searchpath m =
      sys_trytoopenone MAXPDSTRING home fs (name.take (absolute_dirlen MAXPDSTRING z))
        (name.drop (absolute_dirlen MAXPDSTRING z + 1)) ext size m ∧
    (do_open_via_path MAXPDSTRING home fs sys_usestdpath st dir name ext size
      searchpath m).2.opened =
      m.opened ++
        (if trytoopenone_fits (name.take (absolute_dirlen MAXPDSTRING z))
            (name.drop (absolute_dirlen MAXPDSTRING z + 1)) ext size = true
          then [trytoopenone_path MAXPDSTRING home (name.take (absolute_dirlen MAXPDSTRING z))
            (name.drop (absolute_dirlen MAXPDSTRING z + 1)) ext]
          else []) := by
  unfold absolute_dirlen
  refine ⟨?_, ?_⟩
  · exact do_open_via_path_absolute _ _ _ _ _ _ _ _ _ _ _ z habs hz
  · rw [do_open_via_path_absolute _ _ _ _ _ _ _ _ _ _ _ z habs hz]
    exact trytoopenone_opened _ _ _ _ _ _ _ _

theorem C2_absolute_short_circuit_witness :
    sys_isabsolutepath "/abs/f".toList = true ∧ strrchr '/' "/abs/f".toList = some 4 ∧
    ("/abs/f".toList.take (absolute_dirlen 1000 4) ≠ [] ∧
      ("/abs/f".toList.take (absolute_dirlen 1000 4)).getLast? ≠ some '/') ∧
    1000 ≤ 1000 ∧
    candidate_fits 1000 none ("/abs/f".toList.drop (absolute_dirlen 1000 4 + 1)) ".pd".toList
      1000 ("/abs/f".toList.take (absolute_dirlen 1000 4)) = true ∧
    do_open_via_path 1000 none (fun _ => none) 1
      { empty_registry with st_temppath := ["t".toList] }
      "d".toList "/abs/f".toList ".pd".toList 1000 ["s".toList]
      { dirresult := [], nameresult := none, opened := [] } =
      sys_trytoopenone 1000 none (fun _ => none)
        ("/abs/f".toList.take (absolute_dirlen 1000 4))
        ("/abs/f".toList.drop (absolute_dirlen 1000 4 + 1))
        ".pd".toList 1000 { dirresult := [], nameresult := none, opened := [] } :=
  ⟨by decide, by decide, by decide, by decide, by decide,
    (C2_absolute_short_circuit 1000 none (fun _ => none) 1
      { empty_registry with st_temppath := ["t".toList] }
      "d".toList "/abs/f".toList ".pd".toList 1000 ["s".toList]
      { dirresult := [], nameresult := none, opened := [] } 4 (by decide) (by decide)
      (by decide) (by decide) (by decide)).1⟩

/-! ## Lemmas on the splitting into arguments -/

theorem string2args_argument_cons (quote ch : Char) (cp : CStr) :
    string2args_argument quote (ch :: cp) =
      if isBlank ch ∧ quote = '\x00' then .ok ([], cp)
      else if ch = '\\' then
        match cp with
        | [] => .error 10
        | ch1 :: cp1 => (string2args_argument quote cp1).map (fun r => (ch1 :: r.1, r.2))
      else if ch = quote then string2args_argument '\x00' cp
      else if quote = '\x00' ∧ (ch = '\'' ∨ ch = '"') then string2args_argument ch cp
      else (string2args_argument quote cp).map (fun r => (ch :: r.1, r.2)) := by
  cases cp <;> rfl

theorem except_map_ok {ε α β : Type} (f : α → β) (x : Except ε α) (b : β)
    (h : Except.map f x = .ok b) : ∃ a, x = .ok a ∧ f a = b := by
  cases x with
  | error e => simp [Except.map] at h
  | ok a =>
    simp only [Except.map, Except.ok.injEq] at h
    exact ⟨a, rfl, h⟩

/-- Collecting an argument consumes at least one character of a non-empty input. -/
theorem string2args_argument_rest (n : Nat) :
    ∀ (quote : Char) (cp argument rest : CStr), cp.length ≤ n →
      string2args_argument quote cp = .ok (argument, rest) →
      rest.length ≤ cp.length ∧ (cp ≠ [] → rest.length < cp.length) := by
  induction n with
  | zero =>
    intro quote cp argument rest hn h
    have hcp : cp = [] := List.length_eq_zero.mp (Nat.le_zero.mp hn)
    subst hcp
    simp only [string2args_argument] at h
    split_ifs at h
    simp only [Except.ok.injEq, Prod.mk.injEq] at h
    simp [← h.2]
  | succ n ih =>
    intro quote cp argument rest hn h
    cases cp with
    | nil =>
      simp only [string2args_argument] at h
      split_ifs at h
      simp only [Except.ok.injEq, Prod.mk.injEq] at h
      simp [← h.2]
    | cons ch cp =>
      have hlen : cp.length ≤ n := by
        simp only [List.length_cons] at hn
        omega
      rw [string2args_argument_cons] at h
      have key : rest.length ≤ cp.length := by
        split_ifs at h with h1 h2 h3 h4
        · simp only [Except.ok.injEq, Prod.mk.injEq] at h
          simp [← h.2]
        · cases cp with
          | nil => simp at h
          | cons ch1 cp1 =>
            simp only at h
            obtain ⟨a, ha, hf⟩ := except_map_ok _ _ _ h
            have hl1 : cp1.length ≤ n := by
              simp only [List.length_cons] at hlen
              omega
            have := (ih quote cp1 a.1 a.2 hl1 (by rw [ha])).1
            simp only [Prod.mk.injEq] at hf
            rw [← hf.2]
            simp only [List.length_cons]
            omega
        · exact (ih _ cp argument rest hlen h).1
        · exact (ih _ cp argument rest hlen h).1
        · obtain ⟨a, ha, hf⟩ := except_map_ok _ _ _ h
          have := (ih quote cp a.1 a.2 hlen (by rw [ha])).1
          simp only [Prod.mk.injEq] at hf
          rw [← hf.2]
          exact this
      simp only [List.length_cons]
      exact ⟨by omega, fun _ => by omega⟩

theorem skip_blanks_length (cp : CStr) : (skip_blanks cp).length ≤ cp.length := by
  induction cp with
  | nil => simp [skip_blanks]
  | cons ch cp ih =>
    simp only [skip_blanks]
    split_ifs
    · simp only [List.length_cons]
      omega
    · exact Nat.le_refl _

theorem skip_blanks_of_not_blank (ch : Char) (cp : CStr) (h : isBlank ch = false) :
    skip_blanks (ch :: cp) = ch :: cp := by
  simp [skip_blanks, h]

/-- The bound on the iterations of the outer loop of `string2args` is never reached: any
larger bound gives the same result. -/
theorem string2args_loop_fuel (fuel extra : Nat) (cp : CStr) (h : cp.length < fuel) :
    string2args_loop (fuel + extra) cp = string2args_loop fuel cp := by
  induction fuel generalizing cp with
  | zero => omega
  | succ fuel ih =>
    have e : fuel + 1 + extra = (fuel + extra) + 1 := by omega
    rw [e]
    cases cp with
    | nil => rfl
    | cons ch cp =>
      simp only [string2args_loop]
      cases hr : string2args_argument '\x00' (ch :: cp) with
      | error errCode => rfl
      | ok r =>
        obtain ⟨argument, cp1⟩ := r
        simp only
        have h1 := (string2args_argument_rest _ _ _ _ _ (Nat.le_refl _) hr).2 (by simp)
        have h2 := skip_blanks_length cp1
        rw [ih (skip_blanks cp1) (by omega)]

/-- The result of `string2args` when the loop gives an argument table. -/
theorem string2args_of_loop_ok (MAXPDSTRING : Nat) (cmd : CStr) (argTable : List CStr)
    (hlen : cmd.length < MAXPDSTRING)
    (h : string2args_loop (cmd.length + 1) cmd = .ok argTable) :
    string2args MAXPDSTRING cmd =
      { ret := argTable.length, retArgc := argTable.length, retArgv := some argTable } := by
  have hn : ¬ cmd.length ≥ MAXPDSTRING := by omega
  simp [string2args, hn, h]

/-- The result of `string2args` when the loop gives an error. -/
theorem string2args_of_loop_error (MAXPDSTRING : Nat) (cmd : CStr) (errCode : Int)
    (hlen : cmd.length < MAXPDSTRING)
    (h : string2args_loop (cmd.length + 1) cmd = .error errCode) :
    string2args MAXPDSTRING cmd = { ret := -errCode, retArgc := 0, retArgv := none } := by
  have hn : ¬ cmd.length ≥ MAXPDSTRING := by omega
  simp [string2args, hn, h]

theorem string2args_loop_nil (fuel : Nat) : string2args_loop fuel [] = .ok [] := by
  cases fuel <;> rfl

theorem except_map_map_ok {ε α β : Type} (f : α → β) (a : α) :
    Except.map f (Except.ok a : Except ε α) = .ok (f a) := rfl

/-- A command string made of pieces joined by single spaces, where every piece starts with a
character that is not a blank and is collected as one argument whatever follows it, is split
into the arguments of its pieces. -/
theorem string2args_loop_pieces (pieces : List (CStr × CStr))
    (hp : ∀ x ∈ pieces,
      (∃ c r, x.1 = c :: r ∧ isBlank c = false) ∧
      ∀ rest : CStr, string2args_argument '\x00' (x.1 ++ rest) =
        (string2args_argument '\x00' rest).map (fun r => (x.2 ++ r.1, r.2))) :
    ∀ fuel : Nat, (join_blank (pieces.map Prod.fst)).length < fuel →
      string2args_loop fuel (join_blank (pieces.map Prod.fst)) = .ok (pieces.map Prod.snd) := by
  induction pieces with
  | nil =>
    intro fuel _
    exact string2args_loop_nil fuel
  | cons x rest ih =>
    intro fuel hfuel
    obtain ⟨⟨c, r, hx, hc⟩, harg⟩ := hp x (List.mem_cons_self _ _)
    cases fuel with
    | zero => omega
    | succ fuel =>
      cases rest with
      | nil =>
        have hj : join_blank (List.map Prod.fst [x]) = c :: r := by
          simp [join_blank, hx]
        have ha : string2args_argument '\x00' (c :: r) = .ok (x.2, []) := by
          have := harg []
          rw [List.append_nil, hx] at this
          rw [this]
          simp [string2args_argument, Except.map]
        rw [hj]
        simp only [string2args_loop, ha, skip_blanks, string2args_loop_nil]
        rfl
      | cons y rest1 =>
        obtain ⟨⟨c1, r1, hy, hc1⟩, _⟩ := hp y (List.mem_cons_of_mem _ (List.mem_cons_self _ _))
        have hj : join_blank (List.map Prod.fst (x :: y :: rest1)) =
            c :: (r ++ ' ' :: join_blank (List.map Prod.fst (y :: rest1))) := by
          simp [join_blank, hx]
        have hj1 : ∃ tl, join_blank (List.map Prod.fst (y :: rest1)) = c1 :: tl := by
          cases rest1 with
          | nil => exact ⟨r1, by simp [join_blank, hy]⟩
          | cons z rest2 => exact ⟨_, by simp [join_blank, hy]; rfl⟩
        obtain ⟨tl, htl⟩ := hj1
        have ha : string2args_argument '\x00'
            (c :: (r ++ ' ' :: join_blank (List.map Prod.fst (y :: rest1)))) =
            .ok (x.2, join_blank (List.map Prod.fst (y :: rest1))) := by
          have := harg (' ' :: join_blank (List.map Prod.fst (y :: rest1)))
          rw [hx] at this
          rw [List.cons_append] at this
          rw [this, string2args_argument_cons]
          simp [isBlank, Except.map]
        have hlen : (join_blank (List.map Prod.fst (y :: rest1))).length < fuel := by
          rw [hj] at hfuel
          simp only [List.length_cons, List.length_append] at hfuel
          omega
        have hrec := ih (fun z hz => hp z (List.mem_cons_of_mem _ hz)) fuel hlen
        rw [hj]
        simp only [string2args_loop, ha]
        rw [htl, skip_blanks_of_not_blank c1 tl hc1, ← htl, hrec]
        rfl

/-- Inside a quote, characters other than the backslash and the quote character are stored
up to the closing quote. -/
theorem string2args_argument_quoted (q : Char) (hq : q = '"' ∨ q = '\'') (t rest : CStr)
    (ht : '\\' ∉ t ∧ q ∉ t) :
    string2args_argument q (t ++ q :: rest) =
      (string2args_argument '\x00' rest).map (fun r => (t ++ r.1, r.2)) := by
  have hq0 : q ≠ '\x00' := by
    rcases hq with h | h <;> subst h <;> decide
  have hqb : q ≠ '\\' := by
    rcases hq with h | h <;> subst h <;> decide
  induction t with
  | nil =>
    rw [List.nil_append, string2args_argument_cons]
    have h1 : ¬ (isBlank q = true ∧ q = '\x00') := fun h => hq0 h.2
    simp only [h1, hqb, if_false, if_true, List.nil_append]
    cases string2args_argument '\x00' rest with
    | error e => rfl
    | ok r => rfl
  | cons c t ih =>
    have hc : c ≠ '\\' := fun e => ht.1 (by simp [e])
    have hcq : c ≠ q := fun e => ht.2 (by simp [e])
    have ht1 : '\\' ∉ t ∧ q ∉ t :=
      ⟨fun h => ht.1 (List.mem_cons_of_mem _ h), fun h => ht.2 (List.mem_cons_of_mem _ h)⟩
    rw [List.cons_append, string2args_argument_cons]
    have h1 : ¬ (isBlank c = true ∧ q = '\x00') := fun h => hq0 h.2
    have h2 : ¬ (q = '\x00' ∧ (c = '\'' ∨ c = '"')) := fun h => hq0 h.1
    simp only [h1, hc, hcq, h2, if_false]
    rw [ih ht1]
    cases string2args_argument '\x00' rest with
    | error e => rfl
    | ok r => rfl

/-- Outside a quote, a string wrapped in quotes is collected without its quotes. -/
theorem string2args_argument_wrapped (q : Char) (hq : q = '"' ∨ q = '\'') (t rest : CStr)
    (ht : '\\' ∉ t ∧ q ∉ t) :
    string2args_argument '\x00' (quote_wrap q t ++ rest) =
      (string2args_argument '\x00' rest).map (fun r => (t ++ r.1, r.2)) := by
  have hqb : q ≠ '\\' := by
    rcases hq with h | h <;> subst h <;> decide
  have hq0 : q ≠ '\x00' := by
    rcases hq with h | h <;> subst h <;> decide
  have hbl : isBlank q = false := by
    rcases hq with h | h <;> subst h <;> decide
  have hq1 : q = '\'' ∨ q = '"' := hq.symm
  have e : quote_wrap q t ++ rest = q :: (t ++ q :: rest) := by
    simp [quote_wrap]
  rw [e, string2args_argument_cons]
  simp only [hbl, Bool.false_eq_true, false_and, hqb, hq0, hq1, if_false, if_true, true_and]
  exact string2args_argument_quoted q hq t rest ht

/-- Outside a quote, a string with every character escaped is collected without the
backslashes. -/
theorem string2args_argument_escaped (t rest : CStr) :
    string2args_argument '\x00' (escape_all t ++ rest) =
      (string2args_argument '\x00' rest).map (fun r => (t ++ r.1, r.2)) := by
  induction t with
  | nil =>
    simp only [escape_all, List.nil_append]
    cases string2args_argument '\x00' rest with
    | error e => rfl
    | ok r => rfl
  | cons c t ih =>
    simp only [escape_all, List.cons_append]
    rw [string2args_argument_cons]
    have h1 : ¬ (isBlank '\\' = true ∧ ('\x00' : Char) = '\x00') := by decide
    simp only [h1, if_false, if_true]
    rw [ih]
    cases string2args_argument '\x00' rest with
    | error e => rfl
    | ok r => rfl

theorem odd_backslashes_tail (c : Char) (s : CStr) (hc : c ≠ '\\')
    (h : ends_in_odd_backslashes (c :: s)) : ends_in_odd_backslashes s := by
  obtain ⟨pre, k, he, hl⟩ := h
  cases pre with
  | nil =>
    rw [List.nil_append, List.replicate_succ] at he
    exact absurd (List.cons.inj he).1 hc
  | cons a pre1 =>
    rw [List.cons_append] at he
    refine ⟨pre1, k, (List.cons.inj he).2, ?_⟩
    cases pre1 with
    | nil => simp
    | cons b pre2 =>
      rw [List.getLast?_cons_cons] at hl
      exact hl

theorem odd_backslashes_tail2 (c : Char) (s : CStr)
    (h : ends_in_odd_backslashes ('\\' :: c :: s)) : ends_in_odd_backslashes s := by
  obtain ⟨pre, k, he, hl⟩ := h
  cases pre with
  | nil =>
    cases k with
    | zero =>
      rw [List.nil_append] at he
      simp at he
    | succ k =>
      have e : 2 * (k + 1) + 1 = (2 * k + 1) + 1 + 1 := by omega
      rw [List.nil_append, e, List.replicate_succ, List.replicate_succ] at he
      refine ⟨[], k, ?_, by simp⟩
      rw [List.nil_append]
      exact (List.cons.inj (List.cons.inj he).2).2
  | cons a pre1 =>
    cases pre1 with
    | nil =>
      rw [List.cons_append, List.nil_append] at he
      have ha : a = '\\' := (List.cons.inj he).1.symm
      subst ha
      simp at hl
    | cons b pre2 =>
      rw [List.cons_append, List.cons_append] at he
      refine ⟨pre2, k, (List.cons.inj (List.cons.inj he).2).2, ?_⟩
      cases pre2 with
      | nil => simp
      | cons d pre3 =>
        rw [List.getLast?_cons_cons, List.getLast?_cons_cons] at hl
        exact hl

theorem odd_backslashes_ne_nil (s : CStr) (h : ends_in_odd_backslashes s) : s ≠ [] := by
  obtain ⟨pre, k, he, _⟩ := h
  intro e
  rw [e, List.replicate_succ] at he
  cases pre <;> simp at he

theorem isBlank_ne_backslash (ch : Char) (h : isBlank ch = true) : ch ≠ '\\' := by
  intro e
  subst e
  exact absurd h (by decide)

/-- On a string that ends in an odd run of backslashes, collecting an argument fails with
error 10 or stops at a blank before the run. -/
theorem string2args_argument_odd_backslashes (n : Nat) :
    ∀ (quote : Char) (cp : CStr), cp.length ≤ n → ends_in_odd_backslashes cp →
      string2args_argument quote cp = .error 10 ∨
      ∃ argument rest, string2args_argument quote cp = .ok (argument, rest) ∧
        ends_in_odd_backslashes rest := by
  induction n with
  | zero =>
    intro quote cp hn h
    exact absurd (List.length_eq_zero.mp (Nat.le_zero.mp hn)) (odd_backslashes_ne_nil cp h)
  | succ n ih =>
    intro quote cp hn h
    cases cp with
    | nil => exact absurd rfl (odd_backslashes_ne_nil [] h)
    | cons ch cp =>
      have hlen : cp.length ≤ n := by
        simp only [List.length_cons] at hn
        omega
      have hmap : ∀ (c : Char) (q : Char) (l : CStr), l.length ≤ n →
          ends_in_odd_backslashes l →
          Except.map (fun r : CStr × CStr => (c :: r.1, r.2)) (string2args_argument q l) =
            .error 10 ∨
          ∃ argument rest,
            Except.map (fun r : CStr × CStr => (c :: r.1, r.2)) (string2args_argument q l) =
              .ok (argument, rest) ∧ ends_in_odd_backslashes rest := by
        intro c q l hl ho
        rcases ih q l hl ho with he | ⟨a, r, he, hr⟩
        · left
          rw [he]
          rfl
        · right
          exact ⟨c :: a, r, by rw [he]; rfl, hr⟩
      rw [string2args_argument_cons]
      split_ifs with h1 h2 h3 h4
      · right
        exact ⟨[], cp, rfl, odd_backslashes_tail ch cp (isBlank_ne_backslash ch h1.1) h⟩
      · subst h2
        cases cp with
        | nil =>
          left
          rfl
        | cons ch1 cp1 =>
          have hl1 : cp1.length ≤ n := by
            simp only [List.length_cons] at hlen
            omega
          exact hmap ch1 quote cp1 hl1 (odd_backslashes_tail2 ch1 cp1 h)
      · exact ih _ cp hlen (odd_backslashes_tail ch cp h2 h)
      · exact ih _ cp hlen (odd_backslashes_tail ch cp h2 h)
      · exact hmap ch quote cp hlen (odd_backslashes_tail ch cp h2 h)

theorem skip_blanks_odd_backslashes (cp : CStr) (h : ends_in_odd_backslashes cp) :
    ends_in_odd_backslashes (skip_blanks cp) := by
  induction cp with
  | nil => exact h
  | cons ch cp ih =>
    simp only [skip_blanks]
    split_ifs with hb
    · exact ih (odd_backslashes_tail ch cp (isBlank_ne_backslash ch hb) h)
    · exact h

/-- On a string that ends in an odd run of backslashes the outer loop fails with error 10. -/
theorem string2args_loop_odd_backslashes (fuel : Nat) (cp : CStr) (hf : cp.length < fuel)
    (h : ends_in_odd_backslashes cp) : string2args_loop fuel cp = .error 10 := by
  induction fuel generalizing cp with
  | zero => omega
  | succ fuel ih =>
    cases cp with
    | nil => exact absurd rfl (odd_backslashes_ne_nil [] h)
    | cons ch cp =>
      simp only [string2args_loop]
      rcases string2args_argument_odd_backslashes _ '\x00' (ch :: cp) (Nat.le_refl _) h with
        he | ⟨a, r, he, hr⟩
      · rw [he]
      · rw [he]
        simp only
        have h1 := (string2args_argument_rest _ _ _ _ _ (Nat.le_refl _) he).2 (by simp)
        have h2 := skip_blanks_length r
        rw [ih (skip_blanks r) (by omega) (skip_blanks_odd_backslashes r hr)]
        rfl

theorem isBlank_ne_quote (ch : Char) (h : isBlank ch = true) : ch ≠ '"' := by
  intro e
  subst e
  exact absurd h (by decide)

/-- On a string without backslash and single quote, read outside a quote with an odd number of
double quotes left or inside a double quote with an even number left, collecting an argument
fails with error 11 or stops at a blank with an odd number of double quotes left. -/
theorem string2args_argument_odd_quotes (cp : CStr) :
    ∀ quote : Char, '\\' ∉ cp → '\'' ∉ cp →
      ((quote = '\x00' ∧ cp.count '"' % 2 = 1) ∨ (quote = '"' ∧ cp.count '"' % 2 = 0)) →
      string2args_argument quote cp = .error 11 ∨
      ∃ argument rest, string2args_argument quote cp = .ok (argument, rest) ∧
        odd_double_quotes rest := by
  induction cp with
  | nil =>
    intro quote _ _ hq
    rcases hq with ⟨_, h⟩ | ⟨hq, _⟩
    · simp at h
    · subst hq
      left
      rfl
  | cons ch cp ih =>
    intro quote hb hs hq
    have hb1 : '\\' ∉ cp := fun h => hb (List.mem_cons_of_mem _ h)
    have hs1 : '\'' ∉ cp := fun h => hs (List.mem_cons_of_mem _ h)
    have hcb : ch ≠ '\\' := fun e => hb (by simp [e])
    have hcs : ch ≠ '\'' := fun e => hs (by simp [e])
    have hmap : ∀ (q : Char),
        ((q = '\x00' ∧ cp.count '"' % 2 = 1) ∨ (q = '"' ∧ cp.count '"' % 2 = 0)) →
        Except.map (fun r : CStr × CStr => (ch :: r.1, r.2)) (string2args_argument q cp) =
          .error 11 ∨
        ∃ argument rest,
          Except.map (fun r : CStr × CStr => (ch :: r.1, r.2)) (string2args_argument q cp) =
            .ok (argument, rest) ∧ odd_double_quotes rest := by
      intro q hq1
      rcases ih q hb1 hs1 hq1 with he | ⟨a, r, he, hr⟩
      · left
        rw [he]
        rfl
      · right
        exact ⟨ch :: a, r, by rw [he]; rfl, hr⟩
    have hcount : ch ≠ '"' → (ch :: cp).count '"' = cp.count '"' := by
      intro hne
      simp [List.count_cons, hne]
    have hcount1 : (('"' : Char) :: cp).count '"' = cp.count '"' + 1 := by
      simp [List.count_cons]
    rw [string2args_argument_cons]
    rcases hq with ⟨hq0, hodd⟩ | ⟨hqd, heven⟩
    · subst hq0
      by_cases h1 : isBlank ch = true
      · right
        refine ⟨[], cp, by simp [h1], hb1, hs1, ?_⟩
        rw [← hcount (isBlank_ne_quote ch h1)]
        exact hodd
      · simp only [h1, false_and, hcb, if_false]
        by_cases h3 : ch = '\x00'
        · simp only [h3, if_true]
          have hne : ch ≠ '"' := by
            rw [h3]
            decide
          rw [hcount hne] at hodd
          exact ih _ hb1 hs1 (Or.inl ⟨rfl, hodd⟩)
        · simp only [h3, if_false]
          by_cases h4 : ch = '"'
          · subst h4
            simp only [or_true, and_self, if_true]
            rw [hcount1] at hodd
            exact ih _ hb1 hs1 (Or.inr ⟨rfl, by omega⟩)
          · simp only [hcs, h4, or_self, and_false, if_false]
            rw [hcount h4] at hodd
            exact hmap _ (Or.inl ⟨rfl, hodd⟩)
    · subst hqd
      have h1n : ¬ (isBlank ch = true ∧ ('"' : Char) = '\x00') := fun h => by
        exact absurd h.2 (by decide)
      simp only [h1n, hcb, if_false]
      by_cases h3 : ch = '"'
      · subst h3
        simp only [if_true]
        rw [hcount1] at heven
        exact ih _ hb1 hs1 (Or.inl ⟨rfl, by omega⟩)
      · have h4n : ¬ (('"' : Char) = '\x00' ∧ (ch = '\'' ∨ ch = '"')) := fun h => by
          exact absurd h.1 (by decide)
        simp only [h3, h4n, if_false]
        rw [hcount h3] at heven
        exact hmap _ (Or.inr ⟨rfl, heven⟩)

theorem skip_blanks_odd_quotes (cp : CStr) (h : odd_double_quotes cp) :
    odd_double_quotes (skip_blanks cp) := by
  induction cp with
  | nil => exact h
  | cons ch cp ih =>
    simp only [skip_blanks]
    split_ifs with hb
    · apply ih
      obtain ⟨h1, h2, h3⟩ := h
      refine ⟨fun hm => h1 (List.mem_cons_of_mem _ hm), fun hm => h2 (List.mem_cons_of_mem _ hm),
        ?_⟩
      have hne : ch ≠ '"' := isBlank_ne_quote ch hb
      simpa [List.count_cons, hne] using h3
    · exact h

/-- On a string without backslash and single quote and with an odd number of double quotes the
outer loop fails with error 11. -/
theorem string2args_loop_odd_quotes (fuel : Nat) (cp : CStr) (hf : cp.length < fuel)
    (h : odd_double_quotes cp) : string2args_loop fuel cp = .error 11 := by
  induction fuel generalizing cp with
  | zero => omega
  | succ fuel ih =>
    cases cp with
    | nil =>
      obtain ⟨_, _, h3⟩ := h
      simp at h3
    | cons ch cp =>
      simp only [string2args_loop]
      rcases string2args_argument_odd_quotes (ch :: cp) '\x00' h.1 h.2.1
        (Or.inl ⟨rfl, h.2.2⟩) with he | ⟨a, r, he, hr⟩
      · rw [he]
      · rw [he]
        simp only
        have h1 := (string2args_argument_rest _ _ _ _ _ (Nat.le_refl _) he).2 (by simp)
        have h2 := skip_blanks_length r
        rw [ih (skip_blanks r) (by omega) (skip_blanks_odd_quotes r hr)]
        rfl

/-! ## Properties of the splitting into arguments -/

/-- C16: for a quote character `q` (double or single) and strings `ts` none of which contains
a backslash or `q`, the command string made by wrapping every element in `q` and joining the
results with single spaces, when shorter than `MAXPDSTRING`, is split by `string2args` into
exactly `ts`, the returned value and the count being the number of elements; and with
`MAXPDSTRING = 1000` the string `a "b c" d` gives `a`, `b c`, `d`. -/
theorem C16_quoting_round_trip (MAXPDSTRING : Nat) (q : Char) (hq : q = '"' ∨ q = '\'')
    (ts : List CStr) (hts : ∀ t ∈ ts, '\\' ∉ t ∧ q ∉ t)
    (hlen : (join_blank (ts.map (quote_wrap q))).length < MAXPDSTRING) :
    string2args MAXPDSTRING (join_blank (ts.map (quote_wrap q))) =
      { ret := ts.length, retArgc := ts.length, retArgv := some ts } ∧
    string2args 1000 "a \"b c\" d".toList =
      { ret := 3, retArgc := 3, retArgv := some ["a".toList, "b c".toList, "d".toList] } := by
  refine ⟨?_, by decide⟩
  have hpieces := string2args_loop_pieces (ts.map (fun t => (quote_wrap q t, t)))
    (by
      intro x hx
      obtain ⟨t, ht, rfl⟩ := List.mem_map.mp hx
      refine ⟨⟨q, t ++ [q], rfl, ?_⟩, fun rest => ?_⟩
      · rcases hq with h | h <;> subst h <;> decide
      · exact string2args_argument_wrapped q hq t rest (hts t ht))
  have e1 : (ts.map (fun t => (quote_wrap q t, t))).map Prod.fst = ts.map (quote_wrap q) := by
    simp [List.map_map, Function.comp_def]
  have e2 : (ts.map (fun t => (quote_wrap q t, t))).map Prod.snd = ts := by
    simp [List.map_map, Function.comp_def]
  rw [e1, e2] at hpieces
  exact string2args_of_loop_ok MAXPDSTRING _ ts hlen (hpieces _ (Nat.lt_succ_self _))

theorem C16_quoting_round_trip_witness :
    (('"' : Char) = '"' ∨ ('"' : Char) = '\'') ∧
    (∀ t ∈ ["b c".toList, "it's".toList, "".toList], '\\' ∉ t ∧ '"' ∉ t) ∧
    (join_blank (["b c".toList, "it's".toList, "".toList].map (quote_wrap '"'))).length <
      1000 ∧
    string2args 1000 (join_blank (["b c".toList, "it's".toList, "".toList].map (quote_wrap '"'))) =
      { ret := 3, retArgc := 3, retArgv := some ["b c".toList, "it's".toList, "".toList] } :=
  ⟨by decide, by decide, by decide,
    (C16_quoting_round_trip 1000 '"' (by decide) ["b c".toList, "it's".toList, "".toList]
      (by decide) (by decide)).1⟩

/-- C17: for non-empty strings `ts`, the command string made by putting a backslash before
every character of every element and joining the elements with single spaces, when shorter
than `MAXPDSTRING`, is split by `string2args` into exactly `ts`; and with `MAXPDSTRING = 1000`
the string made of `a`, a backslash, a space and `b` gives the single argument `a b`. -/
theorem C17_escape_round_trip (MAXPDSTRING : Nat) (ts : List CStr)
    (hts : ∀ t ∈ ts, t ≠ [])
    (hlen : (join_blank (ts.map escape_all)).length < MAXPDSTRING) :
    string2args MAXPDSTRING (join_blank (ts.map escape_all)) =
      { ret := ts.length, retArgc := ts.length, retArgv := some ts } ∧
    string2args 1000 "a\\ b".toList =
      { ret := 1, retArgc := 1, retArgv := some ["a b".toList] } := by
  refine ⟨?_, by decide⟩
  have hpieces := string2args_loop_pieces (ts.map (fun t => (escape_all t, t)))
    (by
      intro x hx
      obtain ⟨t, ht, rfl⟩ := List.mem_map.mp hx
      refine ⟨?_, fun rest => string2args_argument_escaped t rest⟩
      cases t with
      | nil => exact absurd rfl (hts [] ht)
      | cons c t => exact ⟨'\\', c :: escape_all t, rfl, by decide⟩)
  have e1 : (ts.map (fun t => (escape_all t, t))).map Prod.fst = ts.map escape_all := by
    simp [List.map_map, Function.comp_def]
  have e2 : (ts.map (fun t => (escape_all t, t))).map Prod.snd = ts := by
    simp [List.map_map, Function.comp_def]
  rw [e1, e2] at hpieces
  exact string2args_of_loop_ok MAXPDSTRING _ ts hlen (hpieces _ (Nat.lt_succ_self _))

theorem C17_escape_round_trip_witness :
    (∀ t ∈ ["a b".toList, "\\\"'".toList], t ≠ []) ∧
    (join_blank (["a b".toList, "\\\"'".toList].map escape_all)).length < 1000 ∧
    string2args 1000 (join_blank (["a b".toList, "\\\"'".toList].map escape_all)) =
      { ret := 2, retArgc := 2, retArgv := some ["a b".toList, "\\\"'".toList] } :=
  ⟨by decide, by decide,
    (C17_escape_round_trip 1000 ["a b".toList, "\\\"'".toList] (by decide) (by decide)).1⟩

/-- C18 (evaluation of the code at the failing input): with `MAXPDSTRING = 1000`, the empty
command string gives 0 and an empty table, but a command string made of one space, or of a
space, a tab and a space, gives 1 and a table holding one empty argument. -/
theorem C18_blank_input_gives_empty_argument :
    string2args 1000 [] = { ret := 0, retArgc := 0, retArgv := some [] } ∧
    string2args 1000 " ".toList = { ret := 1, retArgc := 1, retArgv := some [[]] } ∧
    string2args 1000 " \t ".toList = { ret := 1, retArgc := 1, retArgv := some [[]] } := by
  refine ⟨by decide, by decide, by decide⟩

/-- C19: a command string shorter than `MAXPDSTRING` that ends in a run of an odd number of
backslashes makes `string2args` return `-10`, the count left at 0 and the table null,
whatever precedes the run. -/
theorem C19_trailing_escape_error (MAXPDSTRING : Nat) (cmd : CStr)
    (hlen : cmd.length < MAXPDSTRING) (h : ends_in_odd_backslashes cmd) :
    string2args MAXPDSTRING cmd = { ret := -10, retArgc := 0, retArgv := none } :=
  string2args_of_loop_error MAXPDSTRING cmd 10 hlen
    (string2args_loop_odd_backslashes _ cmd (Nat.lt_succ_self _) h)

theorem C19_trailing_escape_error_witness :
    "a \"b\\\\\\".toList.length < 1000 ∧
    ends_in_odd_backslashes "a \"b\\\\\\".toList ∧
    string2args 1000 "a \"b\\\\\\".toList = { ret := -10, retArgc := 0, retArgv := none } :=
  ⟨by decide, ⟨"a \"b".toList, 1, by decide, by decide⟩,
    C19_trailing_escape_error 1000 "a \"b\\\\\\".toList (by decide)
      ⟨"a \"b".toList, 1, by decide, by decide⟩⟩

/-- C20: a command string shorter than `MAXPDSTRING` that has no backslash, no single quote and
an odd number of double quotes makes `string2args` return `-11`, the count left at 0 and the
table null. -/
theorem C20_unterminated_quote_error (MAXPDSTRING : Nat) (cmd : CStr)
    (hlen : cmd.length < MAXPDSTRING) (h : odd_double_quotes cmd) :
    string2args MAXPDSTRING cmd = { ret := -11, retArgc := 0, retArgv := none } :=
  string2args_of_loop_error MAXPDSTRING cmd 11 hlen
    (string2args_loop_odd_quotes _ cmd (Nat.lt_succ_self _) h)

theorem C20_unterminated_quote_error_witness :
    "a \"b".toList.length < 1000 ∧
    odd_double_quotes "a \"b".toList ∧
    string2args 1000 "a \"b".toList = { ret := -11, retArgc := 0, retArgv := none } :=
  ⟨by decide, ⟨by decide, by decide, by decide⟩,
    C20_unterminated_quote_error 1000 "a \"b".toList (by decide)
      ⟨by decide, by decide, by decide⟩⟩

/-! ## Lemmas on the language tags -/

theorem tolower_ne_nul (c : Char) (h : c ≠ '\x00') : tolower c ≠ '\x00' := by
  unfold tolower Char.toLower
  simp only
  split_ifs with hr
  · have hc : c = Char.ofNat c.toNat := (Char.ofNat_toNat c).symm
    obtain ⟨h1, h2⟩ := hr
    generalize c.toNat = n at h1 h2
    interval_cases n <;> decide
  · exact h

/-- The normalising loop on a string without NUL: what is left is the string lower-cased,
with `-` replaced by `_`, cut at the first `.`; the index recorded is that of the last `_`
of it, counted from `idx`, or the index given when there is none. -/
theorem locale_normalize_loop_eq (l : CStr) :
    ∀ (idx region : Nat), '\x00' ∉ l →
      locale_normalize_loop idx region l =
        ((l.map (fun c => if tolower c = '-' then '_' else tolower c)).takeWhile
            (fun c => c != '.'),
          match strrchr '_' ((l.map (fun c => if tolower c = '-' then '_' else tolower c)).takeWhile
              (fun c => c != '.')) with
          | some i => idx + i
          | none => region) := by
  induction l with
  | nil =>
    intro idx region _
    simp [locale_normalize_loop, strrchr]
  | cons ch rest ih =>
    intro idx region hnul
    have hrest : '\x00' ∉ rest := fun h => hnul (List.mem_cons_of_mem _ h)
    have hch : tolower ch ≠ '\x00' := tolower_ne_nul ch (fun e => hnul (by simp [e]))
    by_cases h1 : tolower ch = '-'
    · simp only [locale_normalize_loop, List.map_cons, h1, if_true]
      rw [ih _ _ hrest]
      have hu : (('_' : Char) = '\x00') = False := by decide
      have hd : (('_' : Char) != '.') = true := by decide
      simp only [hu, if_false, List.takeWhile_cons, hd, if_true, strrchr]
      cases strrchr '_' ((rest.map (fun c => if tolower c = '-' then '_' else tolower c)).takeWhile
          (fun c => c != '.')) with
      | none => simp
      | some i =>
        simp only [Prod.mk.injEq, true_and]
        exact Nat.add_right_comm idx 1 i
    · by_cases h2 : tolower ch = '.'
      · have hd : (('.' : Char) != '.') = false := by decide
        simp [locale_normalize_loop, h2, hd, strrchr]
      · have hd : (tolower ch != '.') = true := by simp [h2]
        simp only [locale_normalize_loop, List.map_cons, h1, h2, hch, if_false,
          List.takeWhile_cons, hd, if_true, strrchr]
        rw [ih _ _ hrest]
        cases hs : strrchr '_' ((rest.map (fun c => if tolower c = '-' then '_' else tolower c)).takeWhile
            (fun c => c != '.')) with
        | none =>
          by_cases h3 : tolower ch = '_'
          · have h3' : '_' = tolower ch := h3.symm
            simp [h3, h3']
          · have h3' : ¬ '_' = tolower ch := fun e => h3 e.symm
            simp [h3, h3']
        | some i =>
          simp only [Prod.mk.injEq, true_and]
          exact Nat.add_right_comm idx 1 i

theorem locale_value_length (value : CStr) :
    (locale_value value).length ≤ MAXPDLOCALESTRING - 1 := by
  unfold locale_value
  refine Nat.le_trans (List.Sublist.length_le (List.takeWhile_sublist _)) ?_
  simp [List.length_take]

/-- The tags `s_path_newpdinstance` stores, in terms of the value normalised as the code
does. -/
theorem s_path_newpdinstance_eq (value : CStr) (hnul : '\x00' ∉ value) :
    s_path_newpdinstance (some value) =
      if locale_value value ≠ "c".toList ∧ locale_value value ≠ "posix".toList then
        match strrchr '_' (locale_value value) with
        | some (i + 1) =>
          { ps_lang := (locale_value value).take (i + 1), ps_lang_region := locale_value value }
        | _ => { ps_lang := locale_value value, ps_lang_region := [] }
      else { ps_lang := [], ps_lang_region := [] } := by
  have hnul1 : '\x00' ∉ strncpy_term value MAXPDLOCALESTRING :=
    fun h => hnul (List.mem_of_mem_take h)
  have hlen := locale_value_length value
  have htake : (locale_value value).take (MAXPDLOCALESTRING - 1) = locale_value value :=
    List.take_of_length_le hlen
  unfold s_path_newpdinstance
  simp only [locale_normalize_loop_eq _ 0 0 hnul1]
  have hv : (List.map (fun c => if tolower c = '-' then '_' else tolower c)
      (strncpy_term value MAXPDLOCALESTRING)).takeWhile (fun c => c != '.') =
      locale_value value := rfl
  rw [hv]
  by_cases hc : locale_value value ≠ "c".toList ∧ locale_value value ≠ "posix".toList
  · rw [if_pos hc, if_pos hc]
    cases hs : strrchr '_' (locale_value value) with
    | none => simp [htake]
    | some i =>
      cases i with
      | zero => simp [htake]
      | succ i =>
        have h2 : ((locale_value value).take (i + 1)).take (MAXPDLOCALESTRING - 1) =
            (locale_value value).take (i + 1) :=
          List.take_of_length_le (by
            simp only [List.length_take]
            omega)
        simp [htake, h2]
  · rw [if_neg hc, if_neg hc]

/-- When the value lower-cased and cut at the first `.` is a string `w` shorter than the
bound, without `-` and NUL, the normalising loop leaves `w`. -/
theorem locale_normalize_loop_cut (value : CStr) :
    ∀ (n idx region : Nat) (w : CStr),
      (value.map tolower).takeWhile (fun c => c != '.') = w → w.length < n →
      (∀ c ∈ w, c ≠ '-' ∧ c ≠ '\x00') →
      (locale_normalize_loop idx region (value.take n)).1 = w := by
  induction value with
  | nil =>
    intro n idx region w hw _ _
    simp only [List.map_nil, List.takeWhile_nil] at hw
    simp [locale_normalize_loop, ← hw]
  | cons x xs ih =>
    intro n idx region w hw hlen hall
    cases n with
    | zero => omega
    | succ n =>
      simp only [List.map_cons, List.takeWhile_cons] at hw
      by_cases hd : tolower x = '.'
      · have hd1 : (tolower x != '.') = false := by simp [hd]
        rw [hd1] at hw
        simp only [Bool.false_eq_true, if_false] at hw
        subst hw
        have hne : ¬ (('.' : Char) = '-') := by decide
        simp [List.take, locale_normalize_loop, hd, hne]
      · have hd1 : (tolower x != '.') = true := by simp [hd]
        rw [hd1] at hw
        simp only [if_true] at hw
        subst hw
        have hx := hall (tolower x) (List.mem_cons_self _ _)
        have hrec := ih n (idx + 1) (if '_' = tolower x then idx else region) _ rfl
          (by
            simp only [List.length_cons] at hlen
            omega)
          (fun c hc => hall c (List.mem_cons_of_mem _ hc))
        simp only [List.take, locale_normalize_loop, hx.1, hd, hx.2, if_false]
        rw [hrec]

theorem s_path_newpdinstance_default (value : CStr)
    (h : (value.map tolower).takeWhile (fun c => c != '.') = "c".toList ∨
      (value.map tolower).takeWhile (fun c => c != '.') = "posix".toList) :
    s_path_newpdinstance (some value) = { ps_lang := [], ps_lang_region := [] } := by
  have hl : (locale_normalize_loop 0 0 (strncpy_term value MAXPDLOCALESTRING)).1 = "c".toList ∨
      (locale_normalize_loop 0 0 (strncpy_term value MAXPDLOCALESTRING)).1 = "posix".toList := by
    rcases h with h | h
    · left
      exact locale_normalize_loop_cut value 9 0 0 _ h (by decide) (by decide)
    · right
      exact locale_normalize_loop_cut value 9 0 0 _ h (by decide) (by decide)
  unfold s_path_newpdinstance
  simp only
  rcases hl with hl | hl
  · rw [hl]
    rfl
  · rw [hl]
    rfl

/-! ## Properties of the language tags -/

/-- C11: for a key that is none of the four built-in keys and names no node of the chain,
`namedlist_free` returns the registry it was given. `MAXPDSTRING` is assumed larger than the
longest built-in key. -/
theorem C11_free_unknown_noop (MAXPDSTRING : Nat) (hM : 17 < MAXPDSTRING) (st : Registry)
    (k : CStr) (hb : k ∉ builtin_keys) (hd : ∀ nl ∈ st.ps_namedlists, nl.name ≠ k) :
    namedlist_free MAXPDSTRING st k = st := by
  have hdef : default_namedlist MAXPDSTRING k = none := by
    rw [default_namedlist_eq MAXPDSTRING hM]
    simp only [builtin_keys, List.mem_cons, List.mem_singleton, not_or, List.not_mem_nil,
      or_false] at hb
    rw [if_neg hb.1, if_neg hb.2.1, if_neg hb.2.2.1, if_neg hb.2.2.2]
  have hfind : namedlist_find k st.ps_namedlists = none := by
    cases hf : namedlist_find k st.ps_namedlists with
    | none => rfl
    | some i =>
      have hs : (namedlist_find k st.ps_namedlists).isSome = true := by simp [hf]
      obtain ⟨nl, hnl, hname⟩ := (namedlist_find_mem k st.ps_namedlists).mp hs
      exact absurd hname (hd nl hnl)
  simp [namedlist_free, hdef, hfind]

theorem C11_free_unknown_noop_witness :
    17 < 1000 ∧ "extra".toList ∉ builtin_keys ∧
    (∀ nl ∈ ({ empty_registry with
        st_searchpath := ["/opt/pd".toList],
        ps_namedlists := [{ name := "other".toList, list := ["x".toList] }] } :
        Registry).ps_namedlists, nl.name ≠ "extra".toList) ∧
    namedlist_free 1000
      { empty_registry with
        st_searchpath := ["/opt/pd".toList],
        ps_namedlists := [{ name := "other".toList, list := ["x".toList] }] }
      "extra".toList =
      { empty_registry with
        st_searchpath := ["/opt/pd".toList],
        ps_namedlists := [{ name := "other".toList, list := ["x".toList] }] } :=
  ⟨by decide, by decide, by decide,
    C11_free_unknown_noop 1000 (by decide) _ "extra".toList (by decide) (by decide)⟩

/-- C12 (counterexample to the claim as stated): (a) for the value `no_NO_NY` the code cuts the
language before the last `_` and stores `no_no`, where the claim gives `no`; (b) for the value
`de_DE@euro` the code keeps 9 characters only and stores the region tag `de_de@eur`, where the
claim gives `de_de@euro`; (c) for the value `_x` the code stores the language `_x` and an
empty region tag, where the claim gives an empty language and the region tag `_x`. -/
theorem C12_counterexample :
    (s_path_newpdinstance (some "no_NO_NY".toList) =
        { ps_lang := "no_no".toList, ps_lang_region := "no_no_ny".toList } ∧
      locale_tags_spec "no_NO_NY".toList =
        { ps_lang := "no".toList, ps_lang_region := "no_no_ny".toList }) ∧
    (s_path_newpdinstance (some "de_DE@euro".toList) =
        { ps_lang := "de".toList, ps_lang_region := "de_de@eur".toList } ∧
      locale_tags_spec "de_DE@euro".toList =
        { ps_lang := "de".toList, ps_lang_region := "de_de@euro".toList }) ∧
    (s_path_newpdinstance (some "_x".toList) =
        { ps_lang := "_x".toList, ps_lang_region := [] } ∧
      locale_tags_spec "_x".toList = { ps_lang := [], ps_lang_region := "_x".toList }) := by
  refine ⟨⟨by decide, by decide⟩, ⟨by decide, by decide⟩, ⟨by decide, by decide⟩⟩

/-- C12 (amended): let `v` be the first 9 characters of the value of the locale variable, every
character lower-cased, every `-` replaced by `_`, cut at the first `.`. If `v` is neither `c`
nor `posix`: when the last `_` of `v` is at a position `i` other than the first, the region
tag is `v` and the language is the part of `v` before that last `_`; when `v` has no `_`, or
its only `_` is its first character, the language is `v` and the region tag is empty. The
value `en_US.UTF-8` gives the language `en` and the region tag `en_us`. -/
theorem C12_locale_tags (value : CStr) (hnul : '\x00' ∉ value)
    (hc : locale_value value ≠ "c".toList) (hp : locale_value value ≠ "posix".toList) :
    (∀ i : Nat, strrchr '_' (locale_value value) = some i → 0 < i →
      s_path_newpdinstance (some value) =
        { ps_lang := (locale_value value).take i, ps_lang_region := locale_value value }) ∧
    ((strrchr '_' (locale_value value) = none ∨ strrchr '_' (locale_value value) = some 0) →
      s_path_newpdinstance (some value) =
        { ps_lang := locale_value value, ps_lang_region := [] }) ∧
    s_path_newpdinstance (some "en_US.UTF-8".toList) =
      { ps_lang := "en".toList, ps_lang_region := "en_us".toList } := by
  have heq := s_path_newpdinstance_eq value hnul
  rw [if_pos ⟨hc, hp⟩] at heq
  refine ⟨?_, ?_, by decide⟩
  · intro i hi hpos
    cases i with
    | zero => omega
    | succ i =>
      rw [heq, hi]
  · intro h
    rcases h with h | h
    · rw [heq, h]
    · rw [heq, h]

theorem C12_locale_tags_witness :
    '\x00' ∉ "pt-BR.UTF-8".toList ∧
    locale_value "pt-BR.UTF-8".toList ≠ "c".toList ∧
    locale_value "pt-BR.UTF-8".toList ≠ "posix".toList ∧
    strrchr '_' (locale_value "pt-BR.UTF-8".toList) = some 2 ∧
    s_path_newpdinstance (some "pt-BR.UTF-8".toList) =
      { ps_lang := (locale_value "pt-BR.UTF-8".toList).take 2,
        ps_lang_region := locale_value "pt-BR.UTF-8".toList } :=
  ⟨by decide, by decide, by decide, by decide,
    (C12_locale_tags "pt-BR.UTF-8".toList (by decide) (by decide) (by decide)).1 2
      (by decide) (by decide)⟩

/-- C13: when the locale variable is unset, or its value lower-cased and cut at the first `.`
is `c` or `posix`, `s_path_newpdinstance` leaves both tags empty; so do the values `C`,
`POSIX`, `C.UTF-8` and `Posix.utf8`. -/
theorem C13_default_locale (LANG : Option CStr)
    (h : LANG = none ∨ ∃ value : CStr, LANG = some value ∧
      ((value.map tolower).takeWhile (fun c => c != '.') = "c".toList ∨
        (value.map tolower).takeWhile (fun c => c != '.') = "posix".toList)) :
    s_path_newpdinstance LANG = { ps_lang := [], ps_lang_region := [] } ∧
    s_path_newpdinstance (some "C".toList) = { ps_lang := [], ps_lang_region := [] } ∧
    s_path_newpdinstance (some "POSIX".toList) = { ps_lang := [], ps_lang_region := [] } ∧
    s_path_newpdinstance (some "C.UTF-8".toList) = { ps_lang := [], ps_lang_region := [] } ∧
    s_path_newpdinstance (some "Posix.utf8".toList) =
      { ps_lang := [], ps_lang_region := [] } := by
  refine ⟨?_, by decide, by decide, by decide, by decide⟩
  rcases h with h | ⟨value, hv, h⟩
  · subst h
    rfl
  · subst hv
    exact s_path_newpdinstance_default value h

theorem C13_default_locale_witness :
    (some "POSIX.ISO-8859-15".toList = (none : Option CStr) ∨
      ∃ value : CStr, some "POSIX.ISO-8859-15".toList = some value ∧
        ((value.map tolower).takeWhile (fun c => c != '.') = "c".toList ∨
          (value.map tolower).takeWhile (fun c => c != '.') = "posix".toList)) ∧
    s_path_newpdinstance (some "POSIX.ISO-8859-15".toList) =
      { ps_lang := [], ps_lang_region := [] } :=
  ⟨Or.inr ⟨_, rfl, Or.inr (by decide)⟩,
    (C13_default_locale (some "POSIX.ISO-8859-15".toList)
      (Or.inr ⟨_, rfl, Or.inr (by decide)⟩)).1⟩

/-! ## Lemmas on the help files -/

/-- For a name that does not look absolute, `do_open_via_helppath` is the loop over the whole
help search order, followed by the reset of the results when nothing was found. -/
theorem do_open_via_helppath_relative (MAXPDSTRING : Nat) (home : Option CStr)
    (fs : CStr → Option Nat) (sys_usestdpath : Int) (st : Registry) (dir name ext : CStr)
    (size : Nat) (m : OpenState) (hrel : sys_isabsolutepath name = false) :
    do_open_via_helppath MAXPDSTRING home fs sys_usestdpath st dir name ext size m =
      search_finish (try_namelist MAXPDSTRING home fs name ext size
        (help_search_order MAXPDSTRING sys_usestdpath st dir) m) := by
  have ha : sys_open_absolute MAXPDSTRING home fs name ext size (-1) m = (0, -1, m) := by
    simp [sys_open_absolute, hrel]
  unfold do_open_via_helppath help_search_order search_finish
  rw [ha]
  generalize namedlist_getlist MAXPDSTRING st "helppath.temp".toList = lt
  generalize namedlist_getlist MAXPDSTRING st "helppath.static".toList = ls
  by_cases hu : sys_usestdpath = 0
  · simp only [hu, ne_eq, not_true_eq_false, if_false, List.append_nil, try_namelist_append,
      try_namelist_single]
    generalize sys_trytoopenone MAXPDSTRING home fs dir name ext size m = r1
    by_cases h1 : r1.1 ≥ 0
    · simp [h1]
    · simp only [h1, if_false]
      generalize try_namelist MAXPDSTRING home fs name ext size lt r1.2 = r2
      by_cases h2 : r2.1 ≥ 0
      · simp [h2]
      · simp only [h2, if_false]
        generalize try_namelist MAXPDSTRING home fs name ext size st.st_temppath r2.2 = r3
        by_cases h3 : r3.1 ≥ 0
        · simp [h3]
        · simp only [h3, if_false]
          generalize try_namelist MAXPDSTRING home fs name ext size st.st_helppath r3.2 = r4
          by_cases h4 : r4.1 ≥ 0
          · simp [h4]
          · simp only [h4, if_false]
            generalize try_namelist MAXPDSTRING home fs name ext size st.st_searchpath r4.2 = r5
            by_cases h5 : r5.1 ≥ 0
            · simp [h5]
            · simp [h5]
  · simp only [hu, ne_eq, not_false_eq_true, if_true, try_namelist_append, try_namelist_single]
    generalize sys_trytoopenone MAXPDSTRING home fs dir name ext size m = r1
    by_cases h1 : r1.1 ≥ 0
    · simp [h1]
    · simp only [h1, if_false]
      generalize try_namelist MAXPDSTRING home fs name ext size lt r1.2 = r2
      by_cases h2 : r2.1 ≥ 0
      · simp [h2]
      · simp only [h2, if_false]
        generalize try_namelist MAXPDSTRING home fs name ext size st.st_temppath r2.2 = r3
        by_cases h3 : r3.1 ≥ 0
        · simp [h3]
        · simp only [h3, if_false]
          generalize try_namelist MAXPDSTRING home fs name ext size st.st_helppath r3.2 = r4
          by_cases h4 : r4.1 ≥ 0
          · simp [h4]
          · simp only [h4, if_false]
            generalize try_namelist MAXPDSTRING home fs name ext size st.st_searchpath r4.2 = r5
            by_cases h5 : r5.1 ≥ 0
            · simp [h5]
            · simp only [h5, if_false]
              generalize try_namelist MAXPDSTRING home fs name ext size ls r5.2 = r6
              by_cases h6 : r6.1 ≥ 0
              · simp [h6]
              · simp [h6]

/-- The result of a search over an order of directories: the first directory that passes the
length test and opens gives the result; the paths probed are the candidates of the directories
that pass the test, up to that one; failure is returned exactly when there is none. -/
theorem search_finish_spec (MAXPDSTRING : Nat) (home : Option CStr) (fs : CStr → Option Nat)
    (name ext : CStr) (size : Nat) (seq : List CStr) (m : OpenState) :
    (∀ d : CStr, seq.find? (probe_ok MAXPDSTRING home fs name ext size) = some d →
      0 ≤ (search_finish (try_namelist MAXPDSTRING home fs name ext size seq m)).1 ∧
      (search_finish (try_namelist MAXPDSTRING home fs name ext size seq m)).1 =
        (sys_trytoopenone MAXPDSTRING home fs d name ext size m).1 ∧
      (search_finish (try_namelist MAXPDSTRING home fs name ext size seq m)).2.dirresult =
        (sys_trytoopenone MAXPDSTRING home fs d name ext size m).2.dirresult ∧
      (search_finish (try_namelist MAXPDSTRING home fs name ext size seq m)).2.nameresult =
        (sys_trytoopenone MAXPDSTRING home fs d name ext size m).2.nameresult ∧
      (search_finish (try_namelist MAXPDSTRING home fs name ext size seq m)).2.opened =
        m.opened ++
          probed_paths MAXPDSTRING home name ext size
            (seq.takeWhile (fun x => !probe_ok MAXPDSTRING home fs name ext size x)) ++
          [trytoopenone_path MAXPDSTRING home d name ext]) ∧
    (seq.find? (probe_ok MAXPDSTRING home fs name ext size) = none →
      (search_finish (try_namelist MAXPDSTRING home fs name ext size seq m)).2.opened =
        m.opened ++ probed_paths MAXPDSTRING home name ext size seq) ∧
    ((search_finish (try_namelist MAXPDSTRING home fs name ext size seq m)).1 = -1 ↔
      ∀ d ∈ seq, probe_ok MAXPDSTRING home fs name ext size d = false) := by
  unfold search_finish
  have hiff := try_namelist_nonneg_iff MAXPDSTRING home fs name ext size seq m
  refine ⟨?_, ?_, ?_⟩
  · intro d hd
    have hsome := try_namelist_some MAXPDSTRING home fs name ext size seq m d hd
    have hok : probe_ok MAXPDSTRING home fs name ext size d = true := by
      have := List.find?_some hd
      simpa using this
    have hge : (try_namelist MAXPDSTRING home fs name ext size seq m).1 ≥ 0 :=
      hiff.mpr ⟨d, List.mem_of_find?_eq_some hd, hok⟩
    rw [if_pos hge]
    exact ⟨hge, hsome⟩
  · intro hnone
    have hall : ∀ d ∈ seq, probe_ok MAXPDSTRING home fs name ext size d = false := by
      intro d hd
      have := List.find?_eq_none.mp hnone d hd
      simpa using this
    have hn := try_namelist_none MAXPDSTRING home fs name ext size seq m hall
    have hneg : ¬ (try_namelist MAXPDSTRING home fs name ext size seq m).1 ≥ 0 := by
      rw [hn.1]
      decide
    rw [if_neg hneg]
    exact hn.2
  · by_cases hge : (try_namelist MAXPDSTRING home fs name ext size seq m).1 ≥ 0
    · rw [if_pos hge]
      obtain ⟨d, hd, hok⟩ := hiff.mp hge
      constructor
      · intro h1
        rw [h1] at hge
        exact absurd hge (by decide)
      · intro hall
        rw [hall d hd] at hok
        exact absurd hok (by decide)
    · rw [if_neg hge]
      constructor
      · intro _ d hd
        cases hq : probe_ok MAXPDSTRING home fs name ext size d with
        | false => rfl
        | true => exact absurd (hiff.mpr ⟨d, hd, hq⟩) hge
      · intro _
        rfl

theorem snprintf_localext_eq (tag : CStr) (h : tag.length < MAXPDLOCALESTRING) :
    snprintf_localext tag = "-help.".toList ++ tag ++ ".pd".toList := by
  unfold snprintf_localext
  apply List.take_of_length_le
  have h6 : "-help.".toList.length = 6 := by decide
  have h3 : ".pd".toList.length = 3 := by decide
  simp only [List.length_append, h6, h3]
  unfold MAXPDLOCALESTRING at h ⊢
  omega

theorem help_legacy_name_eq (MAXPDSTRING : Nat) (hM : 10 ≤ MAXPDSTRING) (name : CStr) :
    ("help-".toList ++ name.take (MAXPDSTRING - 10)).take (MAXPDSTRING - 1) =
      "help-".toList ++ name.take (MAXPDSTRING - 10) := by
  apply List.take_of_length_le
  have h5 : "help-".toList.length = 5 := by decide
  simp only [List.length_append, h5, List.length_take]
  omega

/-- The function `open_via_helppath` tries the pairs of `help_candidates` in order, in the
directory given, or `./` when none is given, up to the first that resolves. -/
theorem open_via_helppath_eq (MAXPDSTRING : Nat) (hM : 10 ≤ MAXPDSTRING) (home : Option CStr)
    (fs : CStr → Option Nat) (sys_usestdpath : Int) (st : Registry) (tags : LocaleTags)
    (name dir : CStr) (m : OpenState)
    (hlang : tags.ps_lang.length < MAXPDLOCALESTRING)
    (hregion : tags.ps_lang_region.length < MAXPDLOCALESTRING) :
    open_via_helppath MAXPDSTRING home fs sys_usestdpath st tags name dir m =
      try_help_candidates MAXPDSTRING home fs sys_usestdpath st
        (if dir ≠ [] then dir else "./".toList) (help_candidates MAXPDSTRING tags name) m := by
  unfold open_via_helppath help_candidates
  rw [snprintf_localext_eq _ hlang, snprintf_localext_eq _ hregion,
    help_legacy_name_eq MAXPDSTRING hM name]
  have hreal : (if (name.take (MAXPDSTRING - 10)).length > 3 ∧
        (name.take (MAXPDSTRING - 10)).drop ((name.take (MAXPDSTRING - 10)).length - 3) =
          ".pd".toList
      then (name.take (MAXPDSTRING - 10)).take ((name.take (MAXPDSTRING - 10)).length - 3)
      else name.take (MAXPDSTRING - 10)) = help_realname MAXPDSTRING name := rfl
  simp only [hreal]
  generalize help_realname MAXPDSTRING name = realname
  generalize (if dir ≠ [] then dir else "./".toList) = usedir
  by_cases hr : tags.ps_lang_region = []
  · by_cases hl : tags.ps_lang = []
    · simp only [hr, hl, ne_eq, not_true_eq_false, if_false, List.nil_append,
        try_help_candidates]
      have hneg : ¬ ((-1 : Int) ≥ 0) := by decide
      simp only [hneg, if_false]
    · simp only [hr, hl, ne_eq, not_true_eq_false, not_false_eq_true, if_false, if_true,
        List.nil_append, List.singleton_append, try_help_candidates]
      have hneg : ¬ ((-1 : Int) ≥ 0) := by decide
      simp only [hneg, if_false]
  · by_cases hl : tags.ps_lang = []
    · simp only [hr, hl, ne_eq, not_true_eq_false, not_false_eq_true, if_false, if_true,
        List.append_nil, List.singleton_append, try_help_candidates]
      have hneg : ¬ ((-1 : Int) ≥ 0) := by decide
      by_cases h1 : (do_open_via_helppath MAXPDSTRING home fs sys_usestdpath st usedir realname
          ("-help.".toList ++ tags.ps_lang_region ++ ".pd".toList) MAXPDSTRING m).1 ≥ 0
      · simp only [h1, if_true]
      · simp only [h1, hneg, if_false]
    · simp only [hr, hl, ne_eq, not_false_eq_true, if_true, List.singleton_append,
        List.cons_append, List.nil_append, try_help_candidates]

/-- With nothing in the filesystem, an empty registry and the base directory `d`, the search
for a relative name fails after probing the candidate of `d` when it passes the length test. -/
theorem do_open_via_helppath_nothing (name ext : CStr) (m : OpenState)
    (hrel : sys_isabsolutepath name = false) :
    (do_open_via_helppath 1000 none (fun _ => none) 1 empty_registry "d".toList name ext
      1000 m).1 = -1 ∧
    (do_open_via_helppath 1000 none (fun _ => none) 1 empty_registry "d".toList name ext
      1000 m).2.opened = m.opened ++ probed_paths 1000 none name ext 1000 ["d".toList] := by
  have hseq : help_search_order 1000 1 empty_registry "d".toList = ["d".toList] := by decide
  have hall : ∀ x ∈ ["d".toList], probe_ok 1000 none (fun _ => none) name ext 1000 x = false := by
    intro x _
    simp [probe_ok, sys_open]
  have hspec := search_finish_spec 1000 none (fun _ => none) name ext 1000 ["d".toList] m
  rw [do_open_via_helppath_relative _ _ _ _ _ _ _ _ _ _ hrel, hseq]
  refine ⟨hspec.2.2.mpr hall, hspec.2.1 ?_⟩
  exact List.find?_eq_none.mpr (fun x hx => by simp [hall x hx])

/-- A name of 995 letters `n`, looked up from the directory `d` with nothing in the
filesystem: the only path probed is `d/help-` followed by the first 990 letters. -/
theorem long_help_name_truncated (nm : CStr) (hlen : nm.length = 995)
    (hall : ∀ c ∈ nm, c = 'n') :
    (open_via_helppath 1000 none (fun _ => none) 1 empty_registry
      { ps_lang := [], ps_lang_region := [] } nm "d".toList
      { dirresult := [], nameresult := none, opened := [] }).2.opened =
      ["d/help-".toList ++ nm.take 990] := by
  have hreal : help_realname 1000 nm = nm.take 990 := by
    unfold help_realname
    rw [if_neg]
    rintro ⟨_, he⟩
    have hmem : '.' ∈ (nm.take (1000 - 10)).drop ((nm.take (1000 - 10)).length - 3) := by
      rw [he]
      decide
    have := hall '.' (List.mem_of_mem_take (List.mem_of_mem_drop hmem))
    exact absurd this (by decide)
  have hcand : help_candidates 1000 { ps_lang := [], ps_lang_region := [] } nm =
      [(nm.take 990, "-help.pd".toList), ("help-".toList ++ nm.take 990, [])] := by
    simp [help_candidates, hreal]
  have hne : nm ≠ [] := by
    intro e
    rw [e] at hlen
    simp at hlen
  have hrel1 : sys_isabsolutepath (nm.take 990) = false := by
    cases nm with
    | nil => exact absurd rfl hne
    | cons c t =>
      have hc := hall c (List.mem_cons_self _ _)
      subst hc
      rfl
  have hrel2 : sys_isabsolutepath ("help-".toList ++ nm.take 990) = false := rfl
  have htake : (nm.take 990).length = 990 := by
    simp [List.length_take, hlen]
  rw [open_via_helppath_eq 1000 (by decide) _ _ _ _ _ _ _ _ (by decide) (by decide), hcand]
  have hd : (if "d".toList ≠ [] then "d".toList else "./".toList) = "d".toList := by decide
  rw [hd]
  have h1 := do_open_via_helppath_nothing (nm.take 990) "-help.pd".toList
    { dirresult := [], nameresult := none, opened := [] } hrel1
  have hneg1 : ¬ (do_open_via_helppath 1000 none (fun _ => none) 1 empty_registry "d".toList
      (nm.take 990) "-help.pd".toList 1000
      { dirresult := [], nameresult := none, opened := [] }).1 ≥ 0 := by
    rw [h1.1]
    decide
  have h2 := do_open_via_helppath_nothing ("help-".toList ++ nm.take 990) []
    (do_open_via_helppath 1000 none (fun _ => none) 1 empty_registry "d".toList
      (nm.take 990) "-help.pd".toList 1000
      { dirresult := [], nameresult := none, opened := [] }).2 hrel2
  have hneg2 : ¬ (do_open_via_helppath 1000 none (fun _ => none) 1 empty_registry "d".toList
      ("help-".toList ++ nm.take 990) [] 1000
      (do_open_via_helppath 1000 none (fun _ => none) 1 empty_registry "d".toList
        (nm.take 990) "-help.pd".toList 1000
        { dirresult := [], nameresult := none, opened := [] }).2).1 ≥ 0 := by
    rw [h2.1]
    decide
  simp only [try_help_candidates, hneg1, hneg2, if_false]
  rw [h2.2, h1.2]
  have hp1 : probed_paths 1000 none (nm.take 990) "-help.pd".toList 1000 ["d".toList] = [] := by
    simp [probed_paths, trytoopenone_fits, htake]
  have hp2 : probed_paths 1000 none ("help-".toList ++ nm.take 990) [] 1000 ["d".toList] =
      ["d/help-".toList ++ nm.take 990] := by
    simp [probed_paths, trytoopenone_fits, htake, trytoopenone_path, sys_expandpath,
      strncpy_term]
  rw [hp1, hp2]
  rfl

/-- A name of 995 letters `n` has no trailing `.pd`: the claim's candidates carry the whole
name. -/
theorem long_help_name_spec (nm : CStr) (hall : ∀ c ∈ nm, c = 'n') :
    help_candidates_spec { ps_lang := [], ps_lang_region := [] } nm =
      [(nm, "-help.pd".toList), ("help-".toList ++ nm, [])] := by
  have hstrip : strip_pd_spec nm = nm := by
    unfold strip_pd_spec
    rw [if_neg]
    intro he
    have hmem : '.' ∈ nm.drop (nm.length - 3) := by
      rw [he]
      decide
    exact absurd (hall '.' (List.mem_of_mem_drop hmem)) (by decide)
  simp [help_candidates_spec, hstrip]

/-- A base directory of 997 characters, the name `f`, buffers of 1000 bytes, an empty registry
and a filesystem in which every path opens: the candidate of the base directory opens, and
`do_open_via_helppath` returns `-1` without a filesystem call. -/
theorem long_help_dir_rejected (d : CStr) (hd : d.length = 997) :
    (help_search_order_spec 1000 1 empty_registry d).find?
      (candidate_opens 1000 none (fun _ => some 3) "f".toList []) = some d ∧
    do_open_via_helppath 1000 none (fun _ => some 3) 1 empty_registry d "f".toList [] 1000
      { dirresult := [], nameresult := none, opened := [] } =
      (-1, { dirresult := [], nameresult := some 0, opened := [] }) := by
  have ht : namedlist_getlist 1000 empty_registry "helppath.temp".toList = [] := by decide
  have hs : namedlist_getlist 1000 empty_registry "helppath.static".toList = [] := by decide
  constructor
  · simp [help_search_order_spec, ht, candidate_opens, sys_open]
  · rw [do_open_via_helppath_relative _ _ _ _ _ _ _ _ _ _ (by decide)]
    have hseq : help_search_order 1000 1 empty_registry d = [d] := by
      unfold help_search_order
      rw [ht, hs]
      simp [empty_registry]
    rw [hseq, try_namelist_single, trytoopenone_overflow _ _ _ _ _ _ _ _ (by simp [hd])]
    simp [search_finish]

/-! ## Properties of the help files -/

/-- C14 (counterexample to the claim as stated): with `MAXPDSTRING = 1000`, no language tags
and no directory given, (a) for the name `foo.pd` and a filesystem holding `./help-foo` only,
the code probes `./foo-help.pd` and `./help-foo.pd` and gives up, while the claim's candidates
end in `help-foo`, which resolves; (b) for the name `.pd` and a filesystem holding only the
file `-help.pd` of the directory `./`, the code probes `./.pd-help.pd` and `./help-.pd` and gives up, while the
claim's first candidate is `-help.pd`, which resolves; (c) for a name of 995 letters looked up
from the directory `d`, the only path the code probes is `d/help-` followed by the first 990
letters, while the claim's last candidate carries all 995. -/
theorem C14_counterexample :
    (open_via_helppath 1000 none (fun p => if p = "./help-foo".toList then some 3 else none) 1
        empty_registry { ps_lang := [], ps_lang_region := [] } "foo.pd".toList []
        { dirresult := [], nameresult := none, opened := [] } =
        (-1, { dirresult := [], nameresult := some 0,
               opened := ["./foo-help.pd".toList, "./help-foo.pd".toList] }) ∧
      help_candidates_spec { ps_lang := [], ps_lang_region := [] } "foo.pd".toList =
        [("foo".toList, "-help.pd".toList), ("help-foo".toList, [])] ∧
      (try_help_candidates 1000 none (fun p => if p = "./help-foo".toList then some 3 else none)
        1 empty_registry "./".toList
        (help_candidates_spec { ps_lang := [], ps_lang_region := [] } "foo.pd".toList)
        { dirresult := [], nameresult := none, opened := [] }).1 = 3) ∧
    (open_via_helppath 1000 none (fun p => if p = ("./".toList ++ "-help.pd".toList) then some 3 else none) 1
        empty_registry { ps_lang := [], ps_lang_region := [] } ".pd".toList []
        { dirresult := [], nameresult := none, opened := [] } =
        (-1, { dirresult := [], nameresult := some 0,
               opened := ["./.pd-help.pd".toList, "./help-.pd".toList] }) ∧
      help_candidates_spec { ps_lang := [], ps_lang_region := [] } ".pd".toList =
        [([], "-help.pd".toList), ("help-".toList, [])] ∧
      (try_help_candidates 1000 none (fun p => if p = ("./".toList ++ "-help.pd".toList) then some 3 else none)
        1 empty_registry "./".toList
        (help_candidates_spec { ps_lang := [], ps_lang_region := [] } ".pd".toList)
        { dirresult := [], nameresult := none, opened := [] }).1 = 3) ∧
    ((open_via_helppath 1000 none (fun _ => none) 1 empty_registry
        { ps_lang := [], ps_lang_region := [] } (List.replicate 995 'n') "d".toList
        { dirresult := [], nameresult := none, opened := [] }).2.opened =
        ["d/help-".toList ++ (List.replicate 995 'n').take 990] ∧
      help_candidates_spec { ps_lang := [], ps_lang_region := [] } (List.replicate 995 'n') =
        [(List.replicate 995 'n', "-help.pd".toList),
          ("help-".toList ++ List.replicate 995 'n', [])]) := by
  refine ⟨⟨by decide, by decide, by decide⟩, ⟨by decide, by decide, by decide⟩, ⟨?_, ?_⟩⟩
  · exact long_help_name_truncated (List.replicate 995 'n') (List.length_replicate 995 'n')
      (fun c hc => List.eq_of_mem_replicate hc)
  · exact long_help_name_spec (List.replicate 995 'n') (fun c hc => List.eq_of_mem_replicate hc)

/-- C14 (amended): for every input name, with `name1` the first `MAXPDSTRING - 10` characters
of the name and `n` the string `name1` without one trailing `.pd` when `name1` is longer than
3 characters, `open_via_helppath` tries these pairs of file name and extension in exactly this
order, in the directory given (`./` when none is given), and stops at the first that
resolves: `n` with `-help.<language_region>.pd` only if the region tag is non-empty; `n` with
`-help.<language>.pd` only if the language is non-empty; `n` with `-help.pd`; `help-` followed
by `name1`, its `.pd` kept, with the empty extension. `MAXPDSTRING` is assumed to be at least
10 and the tags to fit their buffers of `MAXPDLOCALESTRING` bytes; and for each of the pairs,
every path the lookup can build in the buffer of `MAXPDSTRING` bytes is assumed to be shorter
than the buffer whenever it passes the length test of `sys_trytoopenone` (outside these calls
the C code writes past the end of a buffer). -/
theorem C14_help_naming_order (MAXPDSTRING : Nat) (hM : 10 ≤ MAXPDSTRING)
    (home : Option CStr) (fs : CStr → Option Nat) (sys_usestdpath : Int) (st : Registry)
    (tags : LocaleTags) (name dir : CStr) (m : OpenState)
    (hlang : tags.ps_lang.length < MAXPDLOCALESTRING)
    (hregion : tags.ps_lang_region.length < MAXPDLOCALESTRING)
    (_hfit : ∀ c ∈ help_candidates MAXPDSTRING tags name,
      resolution_fits MAXPDSTRING home c.1 c.2 MAXPDSTRING
        (help_search_order MAXPDSTRING sys_usestdpath st
          (if dir ≠ [] then dir else "./".toList)) = true) :
    open_via_helppath MAXPDSTRING home fs sys_usestdpath st tags name dir m =
      try_help_candidates MAXPDSTRING home fs sys_usestdpath st
        (if dir ≠ [] then dir else "./".toList) (help_candidates MAXPDSTRING tags name) m :=
  open_via_helppath_eq MAXPDSTRING hM home fs sys_usestdpath st tags name dir m hlang hregion

theorem C14_help_naming_order_witness :
    10 ≤ 1000 ∧
    "en".toList.length < MAXPDLOCALESTRING ∧ "en_us".toList.length < MAXPDLOCALESTRING ∧
    (∀ c ∈ help_candidates 1000 { ps_lang := "en".toList, ps_lang_region := "en_us".toList }
        "osc~.pd".toList,
      resolution_fits 1000 none c.1 c.2 1000
        (help_search_order 1000 1 empty_registry
          (if ([] : CStr) ≠ [] then [] else "./".toList)) = true) ∧
    help_candidates 1000 { ps_lang := "en".toList, ps_lang_region := "en_us".toList }
      "osc~.pd".toList =
      [("osc~".toList, "-help.en_us.pd".toList), ("osc~".toList, "-help.en.pd".toList),
        ("osc~".toList, "-help.pd".toList), ("help-osc~.pd".toList, [])] ∧
    open_via_helppath 1000 none (fun p => if p = "./osc~-help.pd".toList then some 3 else none)
      1 empty_registry { ps_lang := "en".toList, ps_lang_region := "en_us".toList }
      "osc~.pd".toList [] { dirresult := [], nameresult := none, opened := [] } =
      try_help_candidates 1000 none
        (fun p => if p = "./osc~-help.pd".toList then some 3 else none) 1 empty_registry
        (if ([] : CStr) ≠ [] then [] else "./".toList)
        (help_candidates 1000 { ps_lang := "en".toList, ps_lang_region := "en_us".toList }
          "osc~.pd".toList)
        { dirresult := [], nameresult := none, opened := [] } :=
  ⟨by decide, by decide, by decide, by decide, by decide,
    C14_help_naming_order 1000 (by decide) none
      (fun p => if p = "./osc~-help.pd".toList then some 3 else none) 1 empty_registry
      { ps_lang := "en".toList, ps_lang_region := "en_us".toList } "osc~.pd".toList []
      { dirresult := [], nameresult := none, opened := [] } (by decide) (by decide)
      (by decide)⟩

/-- C15 (counterexample to the claim as stated): with `MAXPDSTRING = 1000` and buffers of 1000
bytes, (a) with the help path of the preferences holding `h` and a filesystem holding
`h/f.pd` only, no directory of the claim's order has a candidate that opens, yet
`do_open_via_helppath` probes `d/f.pd`, then `h/f.pd`, and succeeds there; (b) with a base
directory of 997 characters and a filesystem in which every path opens, the candidate of the
base directory opens, yet the call returns `-1` without a filesystem call. -/
theorem C15_counterexample :
    (sys_isabsolutepath "f".toList = false ∧
      (help_search_order_spec 1000 1 { empty_registry with st_helppath := ["h".toList] }
        "d".toList).find?
        (candidate_opens 1000 none (fun p => if p = "h/f.pd".toList then some 3 else none)
          "f".toList ".pd".toList) = none ∧
      do_open_via_helppath 1000 none (fun p => if p = "h/f.pd".toList then some 3 else none) 1
        { empty_registry with st_helppath := ["h".toList] } "d".toList "f".toList
        ".pd".toList 1000 { dirresult := [], nameresult := none, opened := [] } =
        (3, { dirresult := "h\x00f.pd".toList, nameresult := some 2,
              opened := ["d/f.pd".toList, "h/f.pd".toList] })) ∧
    ((help_search_order_spec 1000 1 empty_registry (List.replicate 997 'd')).find?
        (candidate_opens 1000 none (fun _ => some 3) "f".toList []) =
        some (List.replicate 997 'd') ∧
      do_open_via_helppath 1000 none (fun _ => some 3) 1 empty_registry
        (List.replicate 997 'd') "f".toList [] 1000
        { dirresult := [], nameresult := none, opened := [] } =
        (-1, { dirresult := [], nameresult := some 0, opened := [] })) := by
  refine ⟨⟨by decide, by decide, by decide⟩, ?_⟩
  exact long_help_dir_rejected (List.replicate 997 'd') (List.length_replicate 997 'd')

/-- C15 (amended): for a name that does not look absolute, let the help search order be the
base directory, the list `helppath.temp`, the temporary path, the help path of the
preferences (`st_helppath`), the search path and, when `sys_usestdpath` is non-zero, the list
`helppath.static` and the static path. The buffer is at most `MAXPDSTRING` bytes long and, for
every directory of the order that passes the length test of `sys_trytoopenone`, the path built
from the expanded directory is shorter than the buffer (outside these calls the C code writes
past the end of a buffer). If `d` is the first directory of that order whose
candidate passes the length test and opens, `do_open_via_helppath`
returns the descriptor, the buffer and the name pointer of the attempt on `d`, having handed
to the filesystem the candidates of the earlier directories that pass the length test and then
the candidate of `d`. If there is no such directory it hands to the filesystem the candidates
of all the directories of the order that pass the length test. It returns `-1` exactly when no
directory of the order passes the test and opens. -/
theorem C15_help_tier_order (MAXPDSTRING : Nat) (home : Option CStr)
    (fs : CStr → Option Nat) (sys_usestdpath : Int) (st : Registry) (dir name ext : CStr)
    (size : Nat) (m : OpenState) (hrel : sys_isabsolutepath name = false)
    (_hsize : size ≤ MAXPDSTRING)
    (_hfit : ∀ d ∈ help_search_order MAXPDSTRING sys_usestdpath st dir,
      candidate_fits MAXPDSTRING home name ext size d = true) :
    (∀ d : CStr,
      (help_search_order MAXPDSTRING sys_usestdpath st dir).find?
        (probe_ok MAXPDSTRING home fs name ext size) = some d →
      0 ≤ (do_open_via_helppath MAXPDSTRING home fs sys_usestdpath st dir name ext size m).1 ∧
      (do_open_via_helppath MAXPDSTRING home fs sys_usestdpath st dir name ext size m).1 =
        (sys_trytoopenone MAXPDSTRING home fs d name ext size m).1 ∧
      (do_open_via_helppath MAXPDSTRING home fs sys_usestdpath st dir name ext size
        m).2.dirresult = (sys_trytoopenone MAXPDSTRING home fs d name ext size m).2.dirresult ∧
      (do_open_via_helppath MAXPDSTRING home fs sys_usestdpath st dir name ext size
        m).2.nameresult =
          (sys_trytoopenone MAXPDSTRING home fs d name ext size m).2.nameresult ∧
      (do_open_via_helppath MAXPDSTRING home fs sys_usestdpath st dir name ext size
        m).2.opened =
          m.opened ++
            probed_paths MAXPDSTRING home name ext size
              ((help_search_order MAXPDSTRING sys_usestdpath st dir).takeWhile
                (fun x => !probe_ok MAXPDSTRING home fs name ext size x)) ++
            [trytoopenone_path MAXPDSTRING home d name ext]) ∧
    ((help_search_order MAXPDSTRING sys_usestdpath st dir).find?
        (probe_ok MAXPDSTRING home fs name ext size) = none →
      (do_open_via_helppath MAXPDSTRING home fs sys_usestdpath st dir name ext size
        m).2.opened =
          m.opened ++ probed_paths MAXPDSTRING home name ext size
            (help_search_order MAXPDSTRING sys_usestdpath st dir)) ∧
    ((do_open_via_helppath MAXPDSTRING home fs sys_usestdpath st dir name ext size m).1 = -1 ↔
      ∀ d ∈ help_search_order MAXPDSTRING sys_usestdpath st dir,
        probe_ok MAXPDSTRING home fs name ext size d = false) := by
  rw [do_open_via_helppath_relative MAXPDSTRING home fs sys_usestdpath st dir name ext size m
    hrel]
  exact search_finish_spec MAXPDSTRING home fs name ext size
    (help_search_order MAXPDSTRING sys_usestdpath st dir) m

theorem C15_help_tier_order_witness :
    sys_isabsolutepath "f".toList = false ∧ 1000 ≤ 1000 ∧
    (∀ d ∈ help_search_order 1000 1
        { empty_registry with
          st_temppath := ["t".toList], st_searchpath := ["s".toList],
          st_staticpath := ["x".toList], st_helppath := ["h".toList],
          ps_namedlists := [{ name := "helppath.temp".toList, list := ["ht".toList] },
            { name := "helppath.static".toList, list := ["hs".toList] }] }
        "d".toList,
      candidate_fits 1000 none "f".toList ".pd".toList 1000 d = true) ∧
    help_search_order 1000 1
      { empty_registry with
        st_temppath := ["t".toList], st_searchpath := ["s".toList],
        st_staticpath := ["x".toList], st_helppath := ["h".toList],
        ps_namedlists := [{ name := "helppath.temp".toList, list := ["ht".toList] },
          { name := "helppath.static".toList, list := ["hs".toList] }] }
      "d".toList =
      ["d".toList, "ht".toList, "t".toList, "h".toList, "s".toList, "hs".toList,
        "x".toList] ∧
    (do_open_via_helppath 1000 none (fun _ => none) 1
      { empty_registry with
        st_temppath := ["t".toList], st_searchpath := ["s".toList],
        st_staticpath := ["x".toList], st_helppath := ["h".toList],
        ps_namedlists := [{ name := "helppath.temp".toList, list := ["ht".toList] },
          { name := "helppath.static".toList, list := ["hs".toList] }] }
      "d".toList "f".toList ".pd".toList 1000
      { dirresult := [], nameresult := none, opened := [] }).2.opened =
      [] ++ probed_paths 1000 none "f".toList ".pd".toList 1000
        (help_search_order 1000 1
          { empty_registry with
            st_temppath := ["t".toList], st_searchpath := ["s".toList],
            st_staticpath := ["x".toList], st_helppath := ["h".toList],
            ps_namedlists := [{ name := "helppath.temp".toList, list := ["ht".toList] },
              { name := "helppath.static".toList, list := ["hs".toList] }] }
          "d".toList) :=
  ⟨by decide, by decide, by decide, by decide,
    (C15_help_tier_order 1000 none (fun _ => none) 1
      { empty_registry with
        st_temppath := ["t".toList], st_searchpath := ["s".toList],
        st_staticpath := ["x".toList], st_helppath := ["h".toList],
        ps_namedlists := [{ name := "helppath.temp".toList, list := ["ht".toList] },
          { name := "helppath.static".toList, list := ["hs".toList] }] }
      "d".toList "f".toList ".pd".toList 1000
      { dirresult := [], nameresult := none, opened := [] } (by decide) (by decide)
      (by decide)).2.1 (by decide)⟩

/-! ## Lemmas on the splitting at blanks -/

theorem plain_command_tail (c : Char) (s : CStr) (h : plain_command (c :: s)) :
    plain_command s :=
  ⟨fun hm => h.1 (List.mem_cons_of_mem _ hm), fun hm => h.2.1 (List.mem_cons_of_mem _ hm),
    fun hm => h.2.2.1 (List.mem_cons_of_mem _ hm), fun hm => h.2.2.2 (List.mem_cons_of_mem _ hm)⟩

/-- Outside a quote, on a plain command string, the argument collected is the leading run of
characters other than blanks, and what is left starts after the blank that ends it. -/
theorem string2args_argument_plain (s : CStr) (h : plain_command s) :
    string2args_argument '\x00' s =
      .ok (s.takeWhile (fun c => !isBlank c), (s.dropWhile (fun c => !isBlank c)).drop 1) := by
  induction s with
  | nil => rfl
  | cons ch cp ih =>
    have hrec := ih (plain_command_tail ch cp h)
    have h1 : ch ≠ '\'' := fun e => h.1 (by simp [e])
    have h2 : ch ≠ '"' := fun e => h.2.1 (by simp [e])
    have h3 : ch ≠ '\\' := fun e => h.2.2.1 (by simp [e])
    have h4 : ch ≠ '\x00' := fun e => h.2.2.2 (by simp [e])
    rw [string2args_argument_cons]
    by_cases hb : isBlank ch = true
    · simp [hb]
    · have hb1 : isBlank ch = false := by simpa using hb
      simp only [hb1, Bool.false_eq_true, false_and, h3, h4, h1, h2, or_self, and_false,
        if_false, hrec, List.takeWhile_cons, List.dropWhile_cons, Bool.not_false, if_true]
      rfl

theorem nonblank_runs_nil : nonblank_runs [] = [] := by
  simp [nonblank_runs]

theorem nonblank_runs_blank (c : Char) (s : CStr) (h : isBlank c = true) :
    nonblank_runs (c :: s) = nonblank_runs s := by
  simp [nonblank_runs, List.splitOnP_cons, h]

theorem nonblank_runs_skip_blanks (s : CStr) : nonblank_runs (skip_blanks s) = nonblank_runs s := by
  induction s with
  | nil => rfl
  | cons c s ih =>
    simp only [skip_blanks]
    split_ifs with hb
    · rw [ih, nonblank_runs_blank c s hb]
    · rfl

/-- The runs of a string that starts with a character other than a blank: the leading run,
then the runs of what follows the blank that ends it. -/
theorem nonblank_runs_cons (c : Char) (s : CStr) (h : isBlank c = false) :
    nonblank_runs (c :: s) =
      (c :: s).takeWhile (fun x => !isBlank x) ::
        nonblank_runs (((c :: s).dropWhile (fun x => !isBlank x)).drop 1) := by
  have hsplit := List.takeWhile_append_dropWhile (fun x => !isBlank x) (c :: s)
  have hrun : ∀ x ∈ (c :: s).takeWhile (fun x => !isBlank x), ¬ isBlank x = true := by
    intro x hx
    have := List.mem_takeWhile_imp hx
    simpa using this
  have hne : (c :: s).takeWhile (fun x => !isBlank x) ≠ [] := by
    simp [List.takeWhile_cons, h]
  cases hd : (c :: s).dropWhile (fun x => !isBlank x) with
  | nil =>
    rw [hd, List.append_nil] at hsplit
    have hall : ∀ x ∈ c :: s, ¬ isBlank x = true := by
      rw [← hsplit]
      exact hrun
    have h1 : nonblank_runs (c :: s) = [c :: s] := by
      unfold nonblank_runs
      rw [List.splitOnP_eq_single isBlank (c :: s) hall]
      simp
    rw [h1, hsplit]
    simp [nonblank_runs_nil]
  | cons sep rest =>
    have hsep : isBlank sep = true := by
      have := List.head_dropWhile_not (fun x => !isBlank x) (c :: s) (by rw [hd]; simp)
      simp only [hd, List.head_cons] at this
      simpa using this
    rw [hd] at hsplit
    have h1 : nonblank_runs (c :: s) =
        (c :: s).takeWhile (fun x => !isBlank x) :: nonblank_runs rest := by
      have hsp := List.splitOnP_first isBlank _ hrun sep hsep rest
      rw [hsplit] at hsp
      unfold nonblank_runs
      rw [hsp, List.filter_cons]
      simp [hne]
    rw [h1]
    rfl

theorem skip_blanks_head (s : CStr) :
    ∀ c : Char, (skip_blanks s).head? = some c → isBlank c = false := by
  induction s with
  | nil =>
    intro c h
    simp [skip_blanks] at h
  | cons x s ih =>
    intro c h
    simp only [skip_blanks] at h
    split_ifs at h with hb
    · exact ih c h
    · simp only [List.head?_cons, Option.some.injEq] at h
      rw [← h]
      simpa using hb

theorem skip_blanks_plain (s : CStr) (h : plain_command s) : plain_command (skip_blanks s) := by
  induction s with
  | nil => exact h
  | cons x s ih =>
    simp only [skip_blanks]
    split_ifs
    · exact ih (plain_command_tail x s h)
    · exact h

theorem plain_command_drop (s : CStr) (n : Nat) (h : plain_command s) :
    plain_command (s.drop n) :=
  ⟨fun hm => h.1 (List.mem_of_mem_drop hm), fun hm => h.2.1 (List.mem_of_mem_drop hm),
    fun hm => h.2.2.1 (List.mem_of_mem_drop hm), fun hm => h.2.2.2 (List.mem_of_mem_drop hm)⟩

theorem plain_command_dropWhile (s : CStr) (p : Char → Bool) (h : plain_command s) :
    plain_command (s.dropWhile p) := by
  have hsub : ∀ c, c ∈ s.dropWhile p → c ∈ s := fun c hc =>
    (List.dropWhile_sublist p).subset hc
  exact ⟨fun hm => h.1 (hsub _ hm), fun hm => h.2.1 (hsub _ hm),
    fun hm => h.2.2.1 (hsub _ hm), fun hm => h.2.2.2 (hsub _ hm)⟩

/-- On a plain command string that does not start with a blank, the outer loop gives the runs
of characters other than blanks. -/
theorem string2args_loop_plain (fuel : Nat) :
    ∀ s : CStr, s.length < fuel → plain_command s →
      (∀ c : Char, s.head? = some c → isBlank c = false) →
      string2args_loop fuel s = .ok (nonblank_runs s) := by
  induction fuel with
  | zero =>
    intro s hf _ _
    omega
  | succ fuel ih =>
    intro s hf hp hh
    cases s with
    | nil => rfl
    | cons ch cp =>
      have hb : isBlank ch = false := hh ch rfl
      have ha := string2args_argument_plain (ch :: cp) hp
      simp only [string2args_loop, ha]
      have hlen : (skip_blanks (((ch :: cp).dropWhile (fun c => !isBlank c)).drop 1)).length <
          fuel := by
        have h1 := skip_blanks_length (((ch :: cp).dropWhile (fun c => !isBlank c)).drop 1)
        have h2 : (((ch :: cp).dropWhile (fun c => !isBlank c)).drop 1).length ≤ cp.length := by
          simp only [List.dropWhile_cons, hb, Bool.not_false, if_true, List.length_drop]
          have := (List.dropWhile_sublist (fun c => !isBlank c) (l := cp)).length_le
          omega
        simp only [List.length_cons] at hf
        omega
      rw [ih _ hlen
        (skip_blanks_plain _ (plain_command_drop _ 1 (plain_command_dropWhile _ _ hp)))
        (skip_blanks_head _)]
      rw [nonblank_runs_skip_blanks, nonblank_runs_cons ch cp hb]
      rfl

/-! ## Properties of the splitting at blanks -/

/-- C21: for a command string shorter than `MAXPDSTRING` with no quote character, no backslash
(and no NUL, being a C string) that does not begin with a space or a tab, `string2args` gives
exactly the maximal runs of characters other than blanks, in order, and returns their
number. -/
theorem C21_blank_splitting (MAXPDSTRING : Nat) (cmd : CStr)
    (hlen : cmd.length < MAXPDSTRING) (hplain : plain_command cmd)
    (hhead : ∀ c : Char, cmd.head? = some c → isBlank c = false) :
    string2args MAXPDSTRING cmd =
      { ret := (nonblank_runs cmd).length, retArgc := (nonblank_runs cmd).length,
        retArgv := some (nonblank_runs cmd) } :=
  string2args_of_loop_ok MAXPDSTRING cmd _ hlen
    (string2args_loop_plain _ cmd (Nat.lt_succ_self _) hplain hhead)

theorem C21_blank_splitting_witness :
    "-nogui  -open\tmain.pd \t ".toList.length < 1000 ∧
    plain_command "-nogui  -open\tmain.pd \t ".toList ∧
    (∀ c : Char, "-nogui  -open\tmain.pd \t ".toList.head? = some c → isBlank c = false) ∧
    nonblank_runs "-nogui  -open\tmain.pd \t ".toList =
      ["-nogui".toList, "-open".toList, "main.pd".toList] ∧
    string2args 1000 "-nogui  -open\tmain.pd \t ".toList =
      { ret := (nonblank_runs "-nogui  -open\tmain.pd \t ".toList).length,
        retArgc := (nonblank_runs "-nogui  -open\tmain.pd \t ".toList).length,
        retArgv := some (nonblank_runs "-nogui  -open\tmain.pd \t ".toList) } :=
  ⟨by decide, ⟨by decide, by decide, by decide, by decide⟩, by decide, by decide,
    C21_blank_splitting 1000 "-nogui  -open\tmain.pd \t ".toList (by decide)
      ⟨by decide, by decide, by decide, by decide⟩ (by decide)⟩

/-! ## Lemmas on the results of a resolution -/

theorem strrchr_some_split (c : Char) (p : CStr) :
    ∀ i : Nat, strrchr c p = some i →
      (p.take i).length = i ∧ p = p.take i ++ c :: p.drop (i + 1) ∧ c ∉ p.drop (i + 1) := by
  induction p with
  | nil =>
    intro i h
    simp [strrchr] at h
  | cons x xs ih =>
    intro i h
    simp only [strrchr] at h
    cases hr : strrchr c xs with
    | some j =>
      rw [hr] at h
      simp only [Option.some.injEq] at h
      subst h
      obtain ⟨h1, h2, h3⟩ := ih j hr
      refine ⟨by simp [h1], ?_, ?_⟩
      · simp only [List.take_succ_cons, List.drop_succ_cons, List.cons_append]
        rw [← h2]
      · simp only [List.drop_succ_cons]
        exact h3
    | none =>
      rw [hr] at h
      simp only at h
      split_ifs at h with hx
      simp only [Option.some.injEq] at h
      subst h
      subst hx
      exact ⟨rfl, rfl, (strrchr_none_iff x xs).mp hr⟩

theorem set_at_split (a b : List Char) (c z : Char) :
    (a ++ c :: b).set a.length z = a ++ z :: b := by
  induction a with
  | nil => rfl
  | cons x a ih => simp [List.set, ih]

theorem takeWhile_not_nul (a : List Char) (h : '\x00' ∉ a) (b : List Char) :
    (a ++ '\x00' :: b).takeWhile (fun c => c != '\x00') = a := by
  induction a with
  | nil => simp
  | cons x a ih =>
    have hx : x ≠ '\x00' := fun e => h (by simp [e])
    have ha : '\x00' ∉ a := fun hm => h (List.mem_cons_of_mem _ hm)
    simp [List.takeWhile_cons, hx, ih ha]

theorem takeWhile_not_nul_all (a : List Char) (h : '\x00' ∉ a) :
    a.takeWhile (fun c => c != '\x00') = a := by
  induction a with
  | nil => rfl
  | cons x a ih =>
    have hx : x ≠ '\x00' := fun e => h (by simp [e])
    have ha : '\x00' ∉ a := fun hm => h (List.mem_cons_of_mem _ hm)
    simp [List.takeWhile_cons, hx, ih ha]

theorem drop_past_split (a b : List Char) (z : Char) :
    (a ++ z :: b).drop (a.length + 1) = b := by
  induction a with
  | nil => rfl
  | cons x a _ => simp

/-- The buffer after the terminator was put over the slash at offset `i`: the C string at its
start is the part before the slash, the C string after the terminator is the part after the
slash. -/
theorem cstr_at_split (p : CStr) (i : Nat) (hnul : '\x00' ∉ p)
    (hs : strrchr '/' p = some i) :
    cstr_at (p.set i '\x00') 0 = p.take i ∧
    cstr_at (p.set i '\x00') (i + 1) = p.drop (i + 1) := by
  obtain ⟨h1, h2, _⟩ := strrchr_some_split '/' p i hs
  have ha : '\x00' ∉ p.take i := fun hm => hnul (List.mem_of_mem_take hm)
  have hb : '\x00' ∉ p.drop (i + 1) := fun hm => hnul (List.mem_of_mem_drop hm)
  have hset : p.set i '\x00' = p.take i ++ '\x00' :: p.drop (i + 1) := by
    have := set_at_split (p.take i) (p.drop (i + 1)) '/' '\x00'
    rw [h1, ← h2] at this
    exact this
  unfold cstr_at
  rw [hset]
  constructor
  · rw [List.drop_zero]
    exact takeWhile_not_nul _ ha _
  · have hd := drop_past_split (p.take i) (p.drop (i + 1)) '\x00'
    rw [h1] at hd
    rw [hd]
    exact takeWhile_not_nul_all _ hb

theorem sys_expandpath_mem (home : Option CStr) (src : CStr) (bufsize : Nat) (c : Char)
    (h : c ∈ sys_expandpath home src bufsize) :
    c ∈ src ∨ ∃ hm : CStr, home = some hm ∧ c ∈ hm := by
  unfold sys_expandpath at h
  split_ifs at h
  · cases home with
    | none => simp at h
    | some hm =>
      simp only [strncpy_term] at h
      have h1 := List.mem_of_mem_take h
      rcases List.mem_append.mp h1 with h2 | h2
      · exact Or.inr ⟨hm, rfl, List.mem_of_mem_take h2⟩
      · exact Or.inl (List.mem_of_mem_drop (List.mem_of_mem_take h2))
  · exact Or.inl (List.mem_of_mem_take h)

/-- The path built from C strings has no NUL in it. -/
theorem trytoopenone_path_nul (MAXPDSTRING : Nat) (home : Option CStr) (dir name ext : CStr)
    (hhome : ∀ hm : CStr, home = some hm → '\x00' ∉ hm) (hdir : '\x00' ∉ dir)
    (hname : '\x00' ∉ name) (hext : '\x00' ∉ ext) :
    '\x00' ∉ trytoopenone_path MAXPDSTRING home dir name ext := by
  have hexp : '\x00' ∉ sys_expandpath home dir MAXPDSTRING := by
    intro hm
    rcases sys_expandpath_mem home dir MAXPDSTRING _ hm with h | ⟨x, hx, h⟩
    · exact hdir h
    · exact hhome x hx h
  unfold trytoopenone_path
  simp only
  intro hm
  rcases List.mem_append.mp hm with h | h
  · rcases List.mem_append.mp h with h | h
    · split_ifs at h
      · rcases List.mem_append.mp h with h | h
        · exact hexp h
        · simp at h
      · exact hexp h
    · exact hname h
  · exact hext h

/-- The buffer and the name pointer after a successful attempt. -/
theorem trytoopenone_success (MAXPDSTRING : Nat) (home : Option CStr)
    (fs : CStr → Option Nat) (dir name ext : CStr) (size : Nat) (m : OpenState)
    (hok : probe_ok MAXPDSTRING home fs name ext size dir = true) :
    (sys_trytoopenone MAXPDSTRING home fs dir name ext size m).2.dirresult =
      (match strrchr '/' (trytoopenone_path MAXPDSTRING home dir name ext) with
        | some slash => (trytoopenone_path MAXPDSTRING home dir name ext).set slash '\x00'
        | none => trytoopenone_path MAXPDSTRING home dir name ext) ∧
    (sys_trytoopenone MAXPDSTRING home fs dir name ext size m).2.nameresult =
      some (match strrchr '/' (trytoopenone_path MAXPDSTRING home dir name ext) with
        | some slash => slash + 1
        | none => 0) := by
  unfold probe_ok at hok
  simp only [Bool.and_eq_true] at hok
  obtain ⟨hf, ho⟩ := hok
  obtain ⟨fd, hfd⟩ := Option.isSome_iff_exists.mp ho
  unfold sys_trytoopenone
  simp only [hf, hfd, sys_unbashfilename_eq]
  cases strrchr '/' (trytoopenone_path MAXPDSTRING home dir name ext) <;> simp

/-! ## Properties of the results of a resolution -/

/-- C22 (counterexample to the claim as stated): the list `a`, `b` has no entry at position
`-1`, yet `namelist_get` gives its first entry there, not null. -/
theorem C22_counterexample :
    namelist_get ["a".toList, "b".toList] (-1) = some "a".toList ∧
    ¬ (namelist_get ["a".toList, "b".toList] (-1) = none) := by
  refine ⟨by decide, by decide⟩

/-- C22 (amended): for every list `l` and every position `i` that is not negative,
`namelist_get l i` is the entry at position `i` (counted from 0) when `i` is less than the
length of `l`, and null when it is not. -/
theorem C22_positional_lookup (l : List CStr) (i : Nat) :
    namelist_get l (i : Int) = l[i]? ∧
    (∀ h : i < l.length, namelist_get l (i : Int) = some (l.get ⟨i, h⟩)) ∧
    (l.length ≤ i → namelist_get l (i : Int) = none) := by
  have h0 : namelist_get l (i : Int) = l[i]? := by
    unfold namelist_get
    simp [List.head?_drop]
  refine ⟨h0, ?_, ?_⟩
  · intro h
    rw [h0]
    simp [List.getElem?_eq_getElem h]
  · intro h
    rw [h0]
    exact List.getElem?_eq_none h

/-- C23 (counterexample to the claim as stated): with an empty directory, the name `f` and no
extension, the path opened is `f`; the attempt succeeds and leaves `f` in the buffer with the
name pointer at its start, so that directory, slash and file name make `f/f`, not `f`. -/
theorem C23_counterexample :
    sys_trytoopenone 1000 none (fun _ => some 3) [] "f".toList [] 1000
      { dirresult := [], nameresult := none, opened := [] } =
      (3, { dirresult := "f".toList, nameresult := some 0, opened := ["f".toList] }) ∧
    cstr_at "f".toList 0 ++ '/' :: cstr_at "f".toList 0 = "f/f".toList ∧
    ¬ (cstr_at "f".toList 0 ++ '/' :: cstr_at "f".toList 0 = "f".toList) := by
  refine ⟨by decide, by decide, by decide⟩

/-- C23 (amended): for C strings `dir`, `name`, `ext` and `HOME`, a buffer of at most
`MAXPDSTRING` bytes and a path (expanded directory, a slash if needed, name, extension) that
is shorter than the buffer, when `sys_trytoopenone` succeeds the name pointer is set, the file name it points at contains no slash, and: if the
path opened contains a slash, then directory, slash and file name make exactly the path
opened; if it contains none, the name pointer is at the start of the buffer, and directory and
file name are both the whole path opened. -/
theorem C23_success_splits_path (MAXPDSTRING : Nat) (home : Option CStr)
    (fs : CStr → Option Nat) (dir name ext : CStr) (size : Nat) (m : OpenState)
    (hhome : ∀ hm : CStr, home = some hm → '\x00' ∉ hm) (hdir : '\x00' ∉ dir)
    (hname : '\x00' ∉ name) (hext : '\x00' ∉ ext) (_hsize : size ≤ MAXPDSTRING)
    (_hfit : (trytoopenone_path MAXPDSTRING home dir name ext).length < size)
    (hok : 0 ≤ (sys_trytoopenone MAXPDSTRING home fs dir name ext size m).1) :
    ∃ off : Nat,
      (sys_trytoopenone MAXPDSTRING home fs dir name ext size m).2.nameresult = some off ∧
      '/' ∉ cstr_at (sys_trytoopenone MAXPDSTRING home fs dir name ext size m).2.dirresult off ∧
      ('/' ∈ trytoopenone_path MAXPDSTRING home dir name ext →
        cstr_at (sys_trytoopenone MAXPDSTRING home fs dir name ext size m).2.dirresult 0 ++
          '/' :: cstr_at (sys_trytoopenone MAXPDSTRING home fs dir name ext size m).2.dirresult
            off = trytoopenone_path MAXPDSTRING home dir name ext) ∧
      ('/' ∉ trytoopenone_path MAXPDSTRING home dir name ext →
        off = 0 ∧
        cstr_at (sys_trytoopenone MAXPDSTRING home fs dir name ext size m).2.dirresult 0 =
          trytoopenone_path MAXPDSTRING home dir name ext) := by
  have hprobe : probe_ok MAXPDSTRING home fs name ext size dir = true :=
    (trytoopenone_nonneg_iff MAXPDSTRING home fs dir name ext size m).mp hok
  have hnul := trytoopenone_path_nul MAXPDSTRING home dir name ext hhome hdir hname hext
  obtain ⟨hd, hn⟩ := trytoopenone_success MAXPDSTRING home fs dir name ext size m hprobe
  rw [hd, hn]
  cases hs : strrchr '/' (trytoopenone_path MAXPDSTRING home dir name ext) with
  | some i =>
    obtain ⟨h1, h2, h3⟩ := strrchr_some_split '/' _ i hs
    obtain ⟨c1, c2⟩ := cstr_at_split _ i hnul hs
    refine ⟨i + 1, rfl, ?_, ?_, ?_⟩
    · simp only
      rw [c2]
      exact h3
    · intro _
      simp only
      rw [c1, c2]
      exact h2.symm
    · intro hno
      exact absurd hs (by rw [(strrchr_none_iff '/' _).mpr hno]; simp)
  | none =>
    have hno : '/' ∉ trytoopenone_path MAXPDSTRING home dir name ext :=
      (strrchr_none_iff '/' _).mp hs
    have hall : cstr_at (trytoopenone_path MAXPDSTRING home dir name ext) 0 =
        trytoopenone_path MAXPDSTRING home dir name ext := by
      unfold cstr_at
      rw [List.drop_zero]
      exact takeWhile_not_nul_all _ hnul
    refine ⟨0, rfl, ?_, ?_, ?_⟩
    · simp only
      rw [hall]
      exact hno
    · intro hyes
      exact absurd hyes hno
    · intro _
      exact ⟨rfl, hall⟩

theorem C23_success_splits_path_witness :
    (∀ hm : CStr, some "/home/u".toList = some hm → '\x00' ∉ hm) ∧
    '\x00' ∉ "~/pd".toList ∧ '\x00' ∉ "sub/f".toList ∧ '\x00' ∉ ".pd".toList ∧
    1000 ≤ 1000 ∧
    (trytoopenone_path 1000 (some "/home/u".toList) "~/pd".toList "sub/f".toList
      ".pd".toList).length < 1000 ∧
    0 ≤ (sys_trytoopenone 1000 (some "/home/u".toList) (fun _ => some 3) "~/pd".toList
      "sub/f".toList ".pd".toList 1000
      { dirresult := [], nameresult := none, opened := [] }).1 ∧
    ∃ off : Nat,
      (sys_trytoopenone 1000 (some "/home/u".toList) (fun _ => some 3) "~/pd".toList
        "sub/f".toList ".pd".toList 1000
        { dirresult := [], nameresult := none, opened := [] }).2.nameresult = some off ∧
      '/' ∉ cstr_at (sys_trytoopenone 1000 (some "/home/u".toList) (fun _ => some 3)
        "~/pd".toList "sub/f".toList ".pd".toList 1000
        { dirresult := [], nameresult := none, opened := [] }).2.dirresult off :=
  ⟨fun hm h => by
      cases h
      decide,
    by decide, by decide, by decide, by decide, by decide, by decide,
    (C23_success_splits_path 1000 (some "/home/u".toList) (fun _ => some 3) "~/pd".toList
      "sub/f".toList ".pd".toList 1000 { dirresult := [], nameresult := none, opened := [] }
      (fun hm h => by
        cases h
        decide)
      (by decide) (by decide) (by decide) (by decide) (by decide) (by decide)).imp
      (fun _ h => ⟨h.1, h.2.1⟩)⟩

/-! ## Lemmas on failure and on the length of the path -/

theorem sys_open_absolute_skip (MAXPDSTRING : Nat) (home : Option CStr)
    (fs : CStr → Option Nat) (name ext : CStr) (size : Nat) (fd0 : Int) (m : OpenState)
    (h : sys_isabsolutepath name = false ∨ '/' ∉ name) :
    sys_open_absolute MAXPDSTRING home fs name ext size fd0 m = (0, fd0, m) := by
  unfold sys_open_absolute
  rcases h with h | h
  · simp [h]
  · rw [(strrchr_none_iff '/' name).mpr h]
    cases sys_isabsolutepath name <;> simp

/-- When `sys_open_absolute` returns 0, `do_open_via_path` is the loop over the whole search
order, followed by the reset of the results when nothing was found. -/
theorem do_open_via_path_search (MAXPDSTRING : Nat) (home : Option CStr)
    (fs : CStr → Option Nat) (sys_usestdpath : Int) (st : Registry) (dir name ext : CStr)
    (size : Nat) (searchpath : List CStr) (m : OpenState)
    (ha : sys_open_absolute MAXPDSTRING home fs name ext size (-1) m = (0, -1, m)) :
    do_open_via_path MAXPDSTRING home fs sys_usestdpath st dir name ext size searchpath m =
      search_finish (try_namelist MAXPDSTRING home fs name ext size
        (search_order sys_usestdpath st dir searchpath) m) := by
  unfold do_open_via_path search_order search_finish
  rw [ha]
  by_cases hu : sys_usestdpath = 0
  · simp only [hu, ne_eq, not_true_eq_false, if_false, List.append_nil, try_namelist_append,
      try_namelist_single]
    generalize sys_trytoopenone MAXPDSTRING home fs dir name ext size m = r1
    by_cases h1 : r1.1 ≥ 0
    · simp [h1]
    · simp only [h1, if_false]
      generalize try_namelist MAXPDSTRING home fs name ext size st.st_temppath r1.2 = r2
      by_cases h2 : r2.1 ≥ 0
      · simp [h2]
      · simp only [h2, if_false]
        generalize try_namelist MAXPDSTRING home fs name ext size searchpath r2.2 = r3
        by_cases h3 : r3.1 ≥ 0
        · simp [h3]
        · simp [h3]
  · simp only [hu, ne_eq, not_false_eq_true, if_true, try_namelist_append, try_namelist_single]
    generalize sys_trytoopenone MAXPDSTRING home fs dir name ext size m = r1
    by_cases h1 : r1.1 ≥ 0
    · simp [h1]
    · simp only [h1, if_false]
      generalize try_namelist MAXPDSTRING home fs name ext size st.st_temppath r1.2 = r2
      by_cases h2 : r2.1 ≥ 0
      · simp [h2]
      · simp only [h2, if_false]
        generalize try_namelist MAXPDSTRING home fs name ext size searchpath r2.2 = r3
        by_cases h3 : r3.1 ≥ 0
        · simp [h3]
        · simp only [h3, if_false]
          generalize try_namelist MAXPDSTRING home fs name ext size st.st_staticpath r3.2 = r4
          by_cases h4 : r4.1 ≥ 0
          · simp [h4]
          · simp [h4]

theorem search_finish_failure (r : Int × OpenState) (h : (search_finish r).1 = -1) :
    (search_finish r).2.dirresult = [] ∧ (search_finish r).2.nameresult = some 0 := by
  unfold search_finish at h ⊢
  by_cases hr : r.1 ≥ 0
  · rw [if_pos hr] at h
    rw [h] at hr
    exact absurd hr (by decide)
  · rw [if_neg hr]
    exact ⟨rfl, rfl⟩

/-- With `HOME` of 999 characters, the directory `~`, the name `f` and a buffer of 1000 bytes,
the length test passes and the path handed to the filesystem has 1000 characters or more. -/
theorem long_home_overflows (hm : CStr) (hl : hm.length = 999) (m : OpenState) :
    trytoopenone_fits "~".toList "f".toList [] 1000 = true ∧
    (sys_trytoopenone 1000 (some hm) (fun _ => none) "~".toList "f".toList [] 1000 m).2.opened =
      m.opened ++ [trytoopenone_path 1000 (some hm) "~".toList "f".toList []] ∧
    1000 ≤ (trytoopenone_path 1000 (some hm) "~".toList "f".toList []).length := by
  have hfit : trytoopenone_fits "~".toList "f".toList [] 1000 = true := by decide
  refine ⟨hfit, ?_, ?_⟩
  · rw [trytoopenone_opened, hfit]
    rfl
  · have hexp : sys_expandpath (some hm) "~".toList 1000 = hm := by
      have h1 : List.take 999 hm = hm := List.take_of_length_le (by omega)
      simp [sys_expandpath, strncpy_term, h1]
    unfold trytoopenone_path
    simp only [hexp]
    split_ifs <;> simp [hl]

/-! ## Properties of failure and of the length of the path -/

/-- C24 (counterexample to the claim as stated): with `MAXPDSTRING = 1000`, the name `/abs/f`,
the extension `.pd` and nothing in the filesystem, `do_open_via_path` returns `-1` and leaves
the candidate path in the buffer and the name pointer as it was, not set. -/
theorem C24_counterexample :
    do_open_via_path 1000 none (fun _ => none) 1 empty_registry "d".toList "/abs/f".toList
      ".pd".toList 1000 [] { dirresult := "old".toList, nameresult := none, opened := [] } =
      (-1, { dirresult := "/abs/f.pd".toList, nameresult := none,
             opened := ["/abs/f.pd".toList] }) ∧
    ¬ (cstr_at "/abs/f.pd".toList 0 = []) := by
  refine ⟨by decide, by decide⟩

/-- C24 (amended): for a name that does not look absolute, or that has no slash, a buffer of
at most `MAXPDSTRING` bytes and directories (the base directory, the temporary path, the
caller's search path and, when `sys_usestdpath` is non-zero, the static path) whose candidate
path is shorter than the buffer whenever it passes the length test of `sys_trytoopenone`,
whenever `do_open_via_path` returns `-1` the buffer holds the empty string and the name
pointer is at the start of the buffer. -/
theorem C24_failure_empties_directory (MAXPDSTRING : Nat) (home : Option CStr)
    (fs : CStr → Option Nat) (sys_usestdpath : Int) (st : Registry) (dir name ext : CStr)
    (size : Nat) (searchpath : List CStr) (m : OpenState)
    (hname : sys_isabsolutepath name = false ∨ '/' ∉ name) (_hsize : size ≤ MAXPDSTRING)
    (_hfit : ∀ d ∈ search_order sys_usestdpath st dir searchpath,
      candidate_fits MAXPDSTRING home name ext size d = true)
    (hfail : (do_open_via_path MAXPDSTRING home fs sys_usestdpath st dir name ext size
      searchpath m).1 = -1) :
    (do_open_via_path MAXPDSTRING home fs sys_usestdpath st dir name ext size
      searchpath m).2.dirresult = [] ∧
    (do_open_via_path MAXPDSTRING home fs sys_usestdpath st dir name ext size
      searchpath m).2.nameresult = some 0 ∧
    cstr_at (do_open_via_path MAXPDSTRING home fs sys_usestdpath st dir name ext size
      searchpath m).2.dirresult 0 = [] := by
  have ha := sys_open_absolute_skip MAXPDSTRING home fs name ext size (-1) m hname
  rw [do_open_via_path_search _ _ _ _ _ _ _ _ _ _ _ ha] at hfail ⊢
  obtain ⟨h1, h2⟩ := search_finish_failure _ hfail
  refine ⟨h1, h2, ?_⟩
  rw [h1]
  rfl

theorem C24_failure_empties_directory_witness :
    (sys_isabsolutepath "~f".toList = false ∨ '/' ∉ "~f".toList) ∧ 1000 ≤ 1000 ∧
    (∀ d ∈ search_order 1 empty_registry "d".toList ["s".toList],
      candidate_fits 1000 none "~f".toList ".pd".toList 1000 d = true) ∧
    (do_open_via_path 1000 none (fun _ => none) 1 empty_registry "d".toList "~f".toList
      ".pd".toList 1000 ["s".toList]
      { dirresult := "old".toList, nameresult := none, opened := [] }).1 = -1 ∧
    (do_open_via_path 1000 none (fun _ => none) 1 empty_registry "d".toList "~f".toList
      ".pd".toList 1000 ["s".toList]
      { dirresult := "old".toList, nameresult := none, opened := [] }).2.dirresult = [] :=
  ⟨by decide, by decide, by decide, by decide,
    (C24_failure_empties_directory 1000 none (fun _ => none) 1 empty_registry "d".toList
      "~f".toList ".pd".toList 1000 ["s".toList]
      { dirresult := "old".toList, nameresult := none, opened := [] } (by decide)
      (by decide) (by decide) (by decide)).1⟩

/-- C26 (evaluation of the code at the failing input): (a) with `HOME` set to
`/home/username`, the directory `~/pd`, the name `abc`, the extension `.pd` and a buffer of
20 bytes, the length test passes and the path handed to the filesystem has 24 characters;
(b) with `HOME` of 999 characters, the directory `~`, the name `f` and a buffer of
`MAXPDSTRING = 1000` bytes, the length test passes and the path handed to the filesystem has
1000 characters or more. -/
theorem C26_expanded_path_exceeds_buffer :
    (trytoopenone_fits "~/pd".toList "abc".toList ".pd".toList 20 = true ∧
      sys_trytoopenone 1000 (some "/home/username".toList) (fun _ => none) "~/pd".toList
        "abc".toList ".pd".toList 20 { dirresult := [], nameresult := none, opened := [] } =
        (-1, { dirresult := "/home/username/pd/abc.pd".toList, nameresult := none,
               opened := ["/home/username/pd/abc.pd".toList] }) ∧
      "/home/username/pd/abc.pd".toList.length = 24) ∧
    (trytoopenone_fits "~".toList "f".toList [] 1000 = true ∧
      (sys_trytoopenone 1000 (some (List.replicate 999 'h')) (fun _ => none) "~".toList
        "f".toList [] 1000 { dirresult := [], nameresult := none, opened := [] }).2.opened =
        [] ++ [trytoopenone_path 1000 (some (List.replicate 999 'h')) "~".toList "f".toList []] ∧
      1000 ≤ (trytoopenone_path 1000 (some (List.replicate 999 'h')) "~".toList
        "f".toList []).length) := by
  refine ⟨⟨by decide, by decide, by decide⟩, ?_⟩
  exact long_home_overflows (List.replicate 999 'h') (List.length_replicate 999 'h') _

/-- C27 (counterexample to the claim as stated): on the empty registry, after
`namedlist_append` with the key `extra` and a null value, the key `extra` is not
registered. -/
theorem C27_counterexample :
    namedlist_append 1000 empty_registry "extra".toList none 0 = empty_registry ∧
    ¬ registered 1000 (namedlist_append 1000 empty_registry "extra".toList none 0)
      "extra".toList := by
  refine ⟨by decide, by decide⟩

/-- C27 (amended): for every key and every registry, `namedlist_append` with a null value
returns the registry it was given: the key is registered afterwards exactly when it was
registered before (a key that is unknown is not created), and no entry is inserted into any
list. -/
theorem C27_null_append_keeps_registration (MAXPDSTRING : Nat) (st : Registry) (k : CStr)
    (allowdup : Int) :
    namedlist_append MAXPDSTRING st k none allowdup = st ∧
    (registered MAXPDSTRING (namedlist_append MAXPDSTRING st k none allowdup) k ↔
      registered MAXPDSTRING st k) ∧
    ∀ k1 : CStr, namedlist_getlist MAXPDSTRING
      (namedlist_append MAXPDSTRING st k none allowdup) k1 =
        namedlist_getlist MAXPDSTRING st k1 := by
  have h := namedlist_append_null MAXPDSTRING st k allowdup
  refine ⟨h, ?_, ?_⟩
  · rw [h]
  · intro k1
    rw [h]

/-- C28 (evaluation of the code at the failing input): with `MAXPDSTRING = 1000` and a buffer
of 1000 bytes, (a) for the name `/f` and the extension `.pd`, within the length bound,
`sys_open_absolute` returns 1 and the single path handed to the filesystem is `f.pd`, without
the leading slash; (b) for the name `/a//b` the path handed to the filesystem is `/a/b.pd`. -/
theorem C28_absolute_name_not_probed_literally :
    ("/f".toList.length + ".pd".toList.length + 4 ≤ 1000 ∧
      sys_open_absolute 1000 none (fun _ => none) "/f".toList ".pd".toList 1000 (-1)
        { dirresult := [], nameresult := none, opened := [] } =
        (1, -1, { dirresult := "f.pd".toList, nameresult := none,
                  opened := ["f.pd".toList] }) ∧
      ¬ ("f.pd".toList = "/f".toList ++ ".pd".toList)) ∧
    (sys_open_absolute 1000 none (fun _ => none) "/a//b".toList ".pd".toList 1000 (-1)
        { dirresult := [], nameresult := none, opened := [] } =
        (1, -1, { dirresult := "/a/b.pd".toList, nameresult := none,
                  opened := ["/a/b.pd".toList] })) := by
  refine ⟨⟨by decide, by decide, by decide⟩, by decide⟩

/-! ## Lemmas on the keys of the registry -/

theorem keys_unique_of_keys_eq (MAXPDSTRING : Nat) (st st1 : Registry)
    (he : dynamic_keys st1 = dynamic_keys st) (h : keys_unique MAXPDSTRING st) :
    keys_unique MAXPDSTRING st1 := by
  unfold keys_unique
  rw [he]
  exact h

theorem keys_unique_append (MAXPDSTRING : Nat) (st : Registry) (k : CStr) (name : Option CStr)
    (allowdup : Int) (h : keys_unique MAXPDSTRING st) :
    keys_unique MAXPDSTRING (namedlist_append MAXPDSTRING st k name allowdup) := by
  cases name with
  | none =>
    rw [namedlist_append_null]
    exact h
  | some v =>
    cases hg : namedlist_do_getlist MAXPDSTRING st k with
    | some p =>
      simp only [namedlist_append, hg]
      exact keys_unique_of_keys_eq _ _ _ (store_names _ _ _) h
    | none =>
      simp only [namedlist_append, hg]
      have hdef : default_namedlist MAXPDSTRING k = none := by
        unfold namedlist_do_getlist at hg
        cases hd : default_namedlist MAXPDSTRING k with
        | none => rfl
        | some q => simp [hd] at hg
      have hfind : namedlist_find k st.ps_namedlists = none := by
        unfold namedlist_do_getlist at hg
        rw [hdef] at hg
        cases hf : namedlist_find k st.ps_namedlists with
        | none => rfl
        | some i => simp [hf] at hg
      have hnot : k ∉ dynamic_keys st := by
        intro hm
        obtain ⟨nl, hnl, hname⟩ := List.mem_map.mp hm
        have hs := (namedlist_find_mem k st.ps_namedlists).mpr ⟨nl, hnl, hname⟩
        rw [hfind] at hs
        exact absurd hs (by simp)
      have hkeys : dynamic_keys
          (Registry.store
            { st with ps_namedlists := { name := k, list := [] } :: st.ps_namedlists }
            (.named 0)
            (namelist_append
              (Registry.deref
                { st with ps_namedlists := { name := k, list := [] } :: st.ps_namedlists }
                (.named 0)) v allowdup)) = k :: dynamic_keys st := by
        unfold dynamic_keys
        rw [store_names]
        rfl
      unfold keys_unique
      rw [hkeys]
      refine ⟨List.nodup_cons.mpr ⟨hnot, h.1⟩, ?_⟩
      intro x hx
      rcases List.mem_cons.mp hx with hx | hx
      · rw [hx]
        exact hdef
      · exact h.2 x hx

theorem keys_unique_append_files_loop (MAXPDSTRING : Nat) (k : CStr) (fuel : Nat) :
    ∀ (st : Registry) (npos : CStr), keys_unique MAXPDSTRING st →
      keys_unique MAXPDSTRING (namedlist_append_files_loop MAXPDSTRING k fuel st npos) := by
  induction fuel with
  | zero =>
    intro st npos h
    exact h
  | succ fuel ih =>
    intro st npos h
    simp only [namedlist_append_files_loop]
    have hstep : keys_unique MAXPDSTRING
        (if (strtokcpy MAXPDSTRING npos SEPARATOR).1 = [] then st
          else namedlist_append MAXPDSTRING st k
            (some (strtokcpy MAXPDSTRING npos SEPARATOR).1) 0) := by
      split_ifs
      · exact h
      · exact keys_unique_append _ _ _ _ _ h
    cases (strtokcpy MAXPDSTRING npos SEPARATOR).2 with
    | none => exact hstep
    | some p => exact ih _ p hstep

theorem keys_unique_append_files (MAXPDSTRING : Nat) (st : Registry) (k s : CStr)
    (h : keys_unique MAXPDSTRING st) :
    keys_unique MAXPDSTRING (namedlist_append_files MAXPDSTRING st k s) := by
  unfold namedlist_append_files
  rw [namedlist_append_null]
  exact keys_unique_append_files_loop _ _ _ _ _ h

theorem keys_unique_free (MAXPDSTRING : Nat) (st : Registry) (k : CStr)
    (h : keys_unique MAXPDSTRING st) :
    keys_unique MAXPDSTRING (namedlist_free MAXPDSTRING st k) :=
  keys_unique_of_keys_eq _ _ _ (free_names MAXPDSTRING st k) h

theorem keys_unique_set_path (MAXPDSTRING : Nat) (st : Registry) (k : CStr)
    (argv : List CStr) (h : keys_unique MAXPDSTRING st) :
    keys_unique MAXPDSTRING (do_set_path MAXPDSTRING st k argv) := by
  unfold do_set_path
  have hfold : ∀ (l : List CStr) (s0 : Registry), keys_unique MAXPDSTRING s0 →
      keys_unique MAXPDSTRING
        (l.foldl
          (fun acc a =>
            let s := sys_decodedialog MAXPDSTRING a
            if s ≠ [] then namedlist_append_files MAXPDSTRING acc k s else acc) s0) := by
    intro l
    induction l with
    | nil =>
      intro s0 h0
      exact h0
    | cons a rest ih =>
      intro s0 h0
      simp only [List.foldl_cons]
      apply ih
      split_ifs
      · exact keys_unique_append_files _ _ _ _ h0
      · exact h0
  exact hfold argv _ (keys_unique_free _ _ _ h)

theorem keys_unique_reachable (MAXPDSTRING : Nat) (st : Registry)
    (h : Reachable MAXPDSTRING st) : keys_unique MAXPDSTRING st := by
  induction h with
  | init st h0 =>
    unfold keys_unique dynamic_keys
    rw [h0]
    simp
  | append st listname name allowdup _ ih => exact keys_unique_append _ _ _ _ _ ih
  | append_files st listname s _ ih => exact keys_unique_append_files _ _ _ _ ih
  | free st listname _ ih => exact keys_unique_free _ _ _ ih
  | set_path st listname argv _ ih => exact keys_unique_set_path _ _ _ _ ih

theorem not_builtin_of_default_none (MAXPDSTRING : Nat) (hM : 17 < MAXPDSTRING) (k : CStr)
    (h : default_namedlist MAXPDSTRING k = none) : k ∉ builtin_keys := by
  rw [default_namedlist_eq MAXPDSTRING hM] at h
  intro hm
  simp only [builtin_keys, List.mem_cons, List.mem_singleton, List.not_mem_nil, or_false] at hm
  split_ifs at h with h1 h2 h3 h4
  rcases hm with hm | hm | hm | hm
  · exact h1 hm
  · exact h2 hm
  · exact h3 hm
  · exact h4 hm

/-! ## Properties of the keys of the registry -/

/-- C25: in every registry reached from one without dynamic entry by calls of
`namedlist_append`, `namedlist_append_files`, `namedlist_free` and `do_set_path`, the keys of
the dynamic entries are pairwise distinct and none of them is a built-in key. `MAXPDSTRING` is
assumed larger than the longest built-in key. -/
theorem C25_registry_keys_unique (MAXPDSTRING : Nat) (hM : 17 < MAXPDSTRING) (st : Registry)
    (h : Reachable MAXPDSTRING st) :
    (dynamic_keys st).Nodup ∧ ∀ k ∈ dynamic_keys st, k ∉ builtin_keys := by
  obtain ⟨h1, h2⟩ := keys_unique_reachable MAXPDSTRING st h
  exact ⟨h1, fun k hk => not_builtin_of_default_none MAXPDSTRING hM k (h2 k hk)⟩

theorem C25_registry_keys_unique_witness :
    17 < 1000 ∧
    Reachable 1000
      (namedlist_append 1000
        (namedlist_append_files 1000 empty_registry "extra".toList "a:b".toList)
        "extra".toList (some "c".toList) 0) ∧
    (dynamic_keys
      (namedlist_append 1000
        (namedlist_append_files 1000 empty_registry "extra".toList "a:b".toList)
        "extra".toList (some "c".toList) 0)).Nodup :=
  ⟨by decide,
    Reachable.append _ _ _ _ (Reachable.append_files _ _ _ (Reachable.init _ rfl)),
    (C25_registry_keys_unique 1000 (by decide) _
      (Reachable.append _ _ _ _ (Reachable.append_files _ _ _ (Reachable.init _ rfl)))).1⟩

/-! ## Lemmas on the bounds of the buffers -/

/-- A directory that does not start with the `~` that `sys_expandpath` replaces is copied as it
is, so the length test of `sys_trytoopenone` bounds the path built: the candidate fits. -/
theorem candidate_fits_plain (MAXPDSTRING : Nat) (home : Option CStr) (name ext : CStr)
    (size : Nat) (d : CStr) (h : ¬ (d = ['~'] ∨ d.take 2 = ['~', '/'])) :
    candidate_fits MAXPDSTRING home name ext size d = true := by
  unfold candidate_fits
  cases hf : trytoopenone_fits d name ext size with
  | false => rfl
  | true =>
    have hlen : d.length + name.length + ext.length + 4 ≤ size := by
      unfold trytoopenone_fits at hf
      simp at hf
      omega
    have hexp : (sys_expandpath home d MAXPDSTRING).length ≤ d.length := by
      unfold sys_expandpath strncpy_term
      rw [if_neg h]
      simp only [List.length_take]
      omega
    have hp : (trytoopenone_path MAXPDSTRING home d name ext).length ≤
        (sys_expandpath home d MAXPDSTRING).length + 1 + name.length + ext.length := by
      unfold trytoopenone_path
      simp only
      split_ifs <;> simp only [List.length_append, List.length_singleton] <;> omega
    simp only [Bool.not_true, Bool.false_or, decide_eq_true_eq]
    omega

end SPath
